import Mathlib

/-!
# Cute Chess (TCEC fork): command-line match set-up

A shallow embedding of

* `projects/lib/src/tournamentfactory.cpp`   (`TournamentFactory::create`),
* `projects/lib/src/engineconfiguration.cpp` (`EngineConfiguration`),
* `projects/cli/src/main.cpp`                (`addEngineScore`, `getEngineScore`,
  `addResumeScore`, `parseEngine`, `parseMatch`),

followed by the properties proved about it.

Conventions.  A `QString` is a Lean `String`; every string operation is written over the
character list so that it evaluates by structural recursion.  A C++ `int` is an `Int`
kept in the 32-bit range by `wrapInt`, a `uint` is a `Nat` reduced by `wrapUInt`.
-/

namespace Cutechess

/-! ## Qt value types -/

/-- Two's-complement reduction of an integer to the range of a 32-bit `int`. -/
def wrapInt (i : Int) : Int := (i + 2147483648) % 4294967296 - 2147483648

/-- Reduction of a natural number to the range of a 32-bit `uint`. -/
def wrapUInt (n : Nat) : Nat := n % 4294967296

/-- Value of a run of decimal digits, `none` when the run is empty or holds another
character. -/
def digitsValue : List Char → Option Nat
  | [] => none
  | cs => if cs.all Char.isDigit then
      some (cs.foldl (fun acc c => 10 * acc + (c.toNat - 48)) 0)
    else none

/-- The text without the white space at its two ends, as the Qt number parsers skip it. -/
def trimSpaces (cs : List Char) : List Char :=
  ((cs.dropWhile Char.isWhitespace).reverse.dropWhile Char.isWhitespace).reverse

/-- `QString::toInt(&ok)` in base 10: the parsed value when `ok`, `none` when not.
An optional sign is followed by decimal digits and the value has to fit an `int`. -/
def qStringToInt (s : String) : Option Int :=
  match trimSpaces s.data with
  | '-' :: ds => (digitsValue ds).bind fun n =>
      if n ≤ 2147483648 then some (-(n : Int)) else none
  | '+' :: ds => (digitsValue ds).bind fun n =>
      if n < 2147483648 then some (n : Int) else none
  | ds => (digitsValue ds).bind fun n =>
      if n < 2147483648 then some (n : Int) else none

/-- `QString::toUInt(&ok)` in base 10. -/
def qStringToUInt (s : String) : Option Nat :=
  match trimSpaces s.data with
  | '+' :: ds => (digitsValue ds).bind fun n => if n < 4294967296 then some n else none
  | ds => (digitsValue ds).bind fun n => if n < 4294967296 then some n else none

/-- `QString::section(sep, 0, 0)`: the text before the first `sep`. -/
def sectionHead (sep : Char) (s : String) : String :=
  String.mk (s.data.takeWhile (fun c => c != sep))

/-- `QString::section(sep, 1)`: the text after the first `sep`. -/
def sectionTail (sep : Char) (s : String) : String :=
  String.mk ((s.data.dropWhile (fun c => c != sep)).drop 1)

/-- `QString::startsWith`. -/
def qStartsWith (s pre : String) : Bool := pre.data.isPrefixOf s.data

/-- Character-list worker of `replaceBackslashN`. -/
def replaceBackslashNAux : List Char → List Char
  | [] => []
  | [c] => [c]
  | c :: d :: rest =>
    if c = Char.ofNat 92 ∧ d = 'n' then Char.ofNat 10 :: replaceBackslashNAux rest
    else c :: replaceBackslashNAux (d :: rest)

/-- `val.replace("\\n", "\n")`: every backslash followed by `n` becomes a line feed. -/
def replaceBackslashN (s : String) : String := String.mk (replaceBackslashNAux s.data)

/-- Character-list worker of `splitLines`; `cur` is the reversed current field. -/
def splitLinesAux : List Char → List Char → List String
  | [], cur => [String.mk cur.reverse]
  | c :: rest, cur =>
    if c = Char.ofNat 10 then String.mk cur.reverse :: splitLinesAux rest []
    else splitLinesAux rest (c :: cur)

/-- `QString::split('\n')`, empty fields kept. -/
def splitLines (s : String) : List String := splitLinesAux s.data []

/-- `QString::toUpper` on the ASCII letters. -/
def qToUpper (s : String) : String := String.mk (s.data.map Char.toUpper)

/-- A double, carried as its 64-bit pattern: doubles are only stored and passed on. -/
structure QDouble where
  bits : Nat
  deriving DecidableEq, Repr

/-- A `QVariant` whose maps hold values of type `α`.  The program nests maps one level
deep (`drawAdjudication`, `resignAdjudication` and `sprt` inside `tournamentSettings`),
so `QVariant` below is `QVar` over the map-free variants. -/
inductive QVar (α : Type) where
  | invalid
  | bool (b : Bool)
  | int (i : Int)
  | uint (n : Nat)
  | double (d : QDouble)
  | string (s : String)
  | stringList (l : List String)
  | map (m : List (String × α))
  deriving DecidableEq, Repr

/-- A variant without a map inside. -/
abbrev QAtom := QVar Empty

/-- The variant type of `QVariantMap` values. -/
abbrev QVariant := QVar QAtom

namespace QVar

/-- `QVariant::toInt`: numbers convert, a string is parsed, anything else gives 0.
(The conversion of a double is not embedded and gives 0.) -/
def toInt {α : Type} : QVar α → Int
  | .bool b => if b then 1 else 0
  | .int i => i
  | .uint n => wrapInt n
  | .string s => (qStringToInt s).getD 0
  | _ => 0

/-- `QVariant::toUInt`. -/
def toUInt {α : Type} : QVar α → Nat
  | .bool b => if b then 1 else 0
  | .int i => (i % 4294967296).toNat
  | .uint n => n
  | .string s => (qStringToUInt s).getD 0
  | _ => 0

/-- `QVariant::toBool`: a number is true when non-zero, a string unless its lower-case
form is empty, "0" or "false". -/
def toBool {α : Type} : QVar α → Bool
  | .bool b => b
  | .int i => i != 0
  | .uint n => n != 0
  | .string s =>
    !(s = "" ∨ s = "0" ∨ String.mk (s.data.map Char.toLower) = "false")
  | _ => false

/-- `QVariant::toString`: strings and numbers convert, a one-element string list gives
its element, anything else the empty string. -/
def toQString {α : Type} : QVar α → String
  | .bool b => if b then "true" else "false"
  | .int i => toString i
  | .uint n => toString n
  | .string s => s
  | .stringList [s] => s
  | _ => ""

/-- `QVariant::toStringList`: a string list is itself, a string a one-element list. -/
def toStringList {α : Type} : QVar α → List String
  | .stringList l => l
  | .string s => [s]
  | _ => []

/-- `QVariant::toMap`. -/
def toMap {α : Type} : QVar α → List (String × α)
  | .map m => m
  | _ => []

/-- `QVariant::isNull` for the variants built here: only the invalid one. -/
def isNull {α : Type} : QVar α → Bool
  | .invalid => true
  | _ => false

end QVar

/-- A `QMap<QString, V>`: an association list kept sorted by key, one entry a key. -/
abbrev QMap (V : Type) := List (String × V)

/-- A `QVariantMap`. -/
abbrev QVariantMap := QMap QVariant

namespace QMap

/-- `QMap::insert`: replaces the value of an existing key, otherwise adds the entry
at its place in key order. -/
def insert {V : Type} (k : String) (v : V) : QMap V → QMap V
  | [] => [(k, v)]
  | (k', v') :: rest =>
    if k = k' then (k, v) :: rest
    else if k.data < k'.data then (k, v) :: (k', v') :: rest
    else (k', v') :: insert k v rest

/-- `QMap::contains`. -/
def contains {V : Type} (m : QMap V) (k : String) : Bool :=
  m.any (fun kv => kv.1 == k)

/-- The value stored under `k`, if any. -/
def find {V : Type} (m : QMap V) (k : String) : Option V :=
  (List.find? (fun kv => kv.1 == k) m).map Prod.snd

/-- `QMap::remove`. -/
def remove {V : Type} (m : QMap V) (k : String) : QMap V :=
  m.filter (fun kv => kv.1 != k)

end QMap

/-- `QVariantMap::operator[]` / `value()`: an invalid variant for a missing key. -/
def QMap.value {α : Type} (m : QMap (QVar α)) (k : String) : QVar α :=
  (QMap.find m k).getD QVar.invalid

/-- `QMap<QString, QString>::operator[]`: the empty string for a missing key. -/
def QMap.valueStr (m : QMap String) (k : String) : String :=
  (QMap.find m k).getD ""

/-! ## `tournamentfactory.cpp` -/

/-- The tournament classes `TournamentFactory::create` can instantiate. -/
inductive TournamentKind where
  | roundRobin
  | gauntlet
  | knockout
  | pyramid
  | swiss
  deriving DecidableEq, Repr

/-- `TournamentFactory::create`: `none` is the null pointer. -/
def TournamentFactory.create (type : String) : Option TournamentKind :=
  if type = "round-robin" then some .roundRobin
  else if type = "gauntlet" then some .gauntlet
  else if type = "knockout" then some .knockout
  else if type = "pyramid" then some .pyramid
  else if type = "swiss-tcec" then some .swiss
  else none

/-! ## `engineconfiguration.cpp` -/

/-- `EngineConfiguration::RestartMode`. -/
inductive RestartMode where
  | RestartAuto
  | RestartOn
  | RestartOff
  deriving DecidableEq, Repr

/-- Modelled from the spec: the option classes are outside these sources.  An
`EngineOption` object as the configuration uses it: its name, its typed value, its
default and its virtual `isValid` test. -/
structure EngineOption where
  name : String
  value : QVariant
  defaultValue : QVariant
  isValid : QVariant → Bool

/-- `EngineOption::setValue`. -/
def EngineOption.setValue (o : EngineOption) (v : QVariant) : EngineOption :=
  { o with value := v }

/-- Modelled from the spec: `EngineTextOption` is outside these sources.
`new EngineTextOption(name, value, defaultValue)` is a text option, which takes any value
that converts to a string. -/
def EngineTextOption (name : String) (value defaultValue : QVariant) : EngineOption :=
  { name := name, value := value, defaultValue := defaultValue,
    isValid := fun v => match v with
      | .invalid => false
      | .map _ => false
      | _ => true }

/-- The members of `EngineConfiguration`.  `m_strikes`, `m_resumeScore` and `m_cuteseal`
are the members behind `setStrikes`, `setResumeScore` and `setCuteseal`, which `main.cpp`
calls and `engineconfiguration.h` declares. -/
structure EngineConfiguration where
  m_name : String
  m_command : String
  m_workingDirectory : String
  m_stderrFile : String
  m_protocol : String
  m_arguments : List String
  m_initStrings : List String
  m_variants : List String
  m_options : List EngineOption
  m_whiteEvalPov : Bool
  m_pondering : Bool
  m_validateClaims : Bool
  m_restartMode : RestartMode
  m_rating : Int
  m_strikes : Nat
  m_resumeScore : Int
  m_cuteseal : Bool

namespace EngineConfiguration

/-- Modelled from the spec: the two transient counters `strikes` and `resumeScore` and the
cuteseal flag are initialised in the header, outside these sources; they start at 0 and
false.  The other members are as `EngineConfiguration::EngineConfiguration()` sets
them. -/
def default : EngineConfiguration :=
  { m_name := "", m_command := "", m_workingDirectory := "", m_stderrFile := "",
    m_protocol := "", m_arguments := [], m_initStrings := [],
    m_variants := ["standard"], m_options := [],
    m_whiteEvalPov := false, m_pondering := false, m_validateClaims := true,
    m_restartMode := .RestartAuto, m_rating := 0,
    m_strikes := 0, m_resumeScore := 0, m_cuteseal := false }

def setName (c : EngineConfiguration) (name : String) : EngineConfiguration :=
  { c with m_name := name }

def setCommand (c : EngineConfiguration) (command : String) : EngineConfiguration :=
  { c with m_command := command }

def setProtocol (c : EngineConfiguration) (protocol : String) : EngineConfiguration :=
  { c with m_protocol := protocol }

def setWorkingDirectory (c : EngineConfiguration) (workingDir : String) :
    EngineConfiguration :=
  { c with m_workingDirectory := workingDir }

def setStderrFile (c : EngineConfiguration) (fileName : String) : EngineConfiguration :=
  { c with m_stderrFile := fileName }

def setRating (c : EngineConfiguration) (rating : Int) : EngineConfiguration :=
  { c with m_rating := if rating > 0 then rating else 0 }

def setArguments (c : EngineConfiguration) (arguments : List String) :
    EngineConfiguration :=
  { c with m_arguments := arguments }

def addArgument (c : EngineConfiguration) (argument : String) : EngineConfiguration :=
  { c with m_arguments := c.m_arguments ++ [argument] }

def setInitStrings (c : EngineConfiguration) (initStrings : List String) :
    EngineConfiguration :=
  { c with m_initStrings := initStrings }

def addInitString (c : EngineConfiguration) (initString : String) : EngineConfiguration :=
  { c with m_initStrings := c.m_initStrings ++ splitLines initString }

def setSupportedVariants (c : EngineConfiguration) (variants : List String) :
    EngineConfiguration :=
  { c with m_variants := variants }

def addOption (c : EngineConfiguration) (option : EngineOption) : EngineConfiguration :=
  { c with m_options := c.m_options ++ [option] }

/-- The `foreach` of `setOption` over the option list: the first option called `name`
takes the value when it is valid for it; `none` when no option has the name. -/
def setOptionLoop (name : String) (value : QVariant) :
    List EngineOption → Option (List EngineOption)
  | [] => none
  | option :: rest =>
    if option.name = name then
      if !option.isValid value then some (option :: rest)
      else some (option.setValue value :: rest)
    else (setOptionLoop name value rest).map (fun r => option :: r)

/-- `EngineConfiguration::setOption`. -/
def setOption (c : EngineConfiguration) (name : String) (value : QVariant) :
    EngineConfiguration :=
  match setOptionLoop name value c.m_options with
  | some options => { c with m_options := options }
  | none => { c with m_options := c.m_options ++ [EngineTextOption name value value] }

def setWhiteEvalPov (c : EngineConfiguration) (whiteEvalPov : Bool) : EngineConfiguration :=
  { c with m_whiteEvalPov := whiteEvalPov }

def setPondering (c : EngineConfiguration) (enabled : Bool) : EngineConfiguration :=
  { c with m_pondering := enabled }

def setRestartMode (c : EngineConfiguration) (mode : RestartMode) : EngineConfiguration :=
  { c with m_restartMode := mode }

def setClaimsValidated (c : EngineConfiguration) (validate : Bool) : EngineConfiguration :=
  { c with m_validateClaims := validate }

def setStrikes (c : EngineConfiguration) (strikes : Nat) : EngineConfiguration :=
  { c with m_strikes := strikes }

def setResumeScore (c : EngineConfiguration) (score : Int) : EngineConfiguration :=
  { c with m_resumeScore := score }

def setCuteseal (c : EngineConfiguration) (cuteseal : Bool) : EngineConfiguration :=
  { c with m_cuteseal := cuteseal }

/-- The copy assignment `operator=(const EngineConfiguration& other)`: the thirteen
members it lists and a copy of the options; the members it does not list stay. -/
def assign (c other : EngineConfiguration) : EngineConfiguration :=
  { c with
    m_name := other.m_name, m_command := other.m_command,
    m_workingDirectory := other.m_workingDirectory, m_stderrFile := other.m_stderrFile,
    m_protocol := other.m_protocol, m_arguments := other.m_arguments,
    m_initStrings := other.m_initStrings, m_variants := other.m_variants,
    m_whiteEvalPov := other.m_whiteEvalPov, m_pondering := other.m_pondering,
    m_validateClaims := other.m_validateClaims, m_restartMode := other.m_restartMode,
    m_rating := other.m_rating, m_options := other.m_options }

end EngineConfiguration

/-- The static `equivalent` of engineconfiguration.cpp (case sensitive): every string of
either list is contained in the other. -/
def equivalent (l1 l2 : List String) : Bool :=
  l1.all (fun str => l2.contains str) && l2.all (fun str => l1.contains str)

/-- `QSet<QString>::insert` on a duplicate-free list. -/
def QSet.insert (s : List String) (x : String) : List String :=
  if s.contains x then s else s ++ [x]

/-- `QSet<QString>::remove`. -/
def QSet.remove (s : List String) (x : String) : List String :=
  s.filter (fun y => y != x)

/-- The loop of `operator==` over `other.m_options`, run on the set `names`: each option
of `other` is looked up by name among `mine`; the first option of that name must have the
same value and its name leaves the set.  `none` is the `return false` inside the loop. -/
def optionsLoop (mine : List EngineOption) :
    List EngineOption → List String → Option (List String)
  | [], names => some names
  | oop :: rest, names =>
    match mine.find? (fun op => oop.name == op.name) with
    | some op =>
      if oop.value = op.value then optionsLoop mine rest (QSet.remove names op.name)
      else none
    | none => none

/-- `EngineConfiguration::operator==`.  Two option values compare by `QVariant`
equality, taken here as equality of type and content. -/
def EngineConfiguration.eq (c other : EngineConfiguration) : Bool :=
  if c.m_whiteEvalPov != other.m_whiteEvalPov
      || c.m_pondering != other.m_pondering
      || c.m_validateClaims != other.m_validateClaims
      || c.m_restartMode != other.m_restartMode
      || c.m_rating != other.m_rating
      || c.m_name != other.m_name
      || c.m_command != other.m_command
      || c.m_workingDirectory != other.m_workingDirectory
      || c.m_stderrFile != other.m_stderrFile
      || c.m_protocol != other.m_protocol
      || c.m_arguments != other.m_arguments
      || c.m_initStrings != other.m_initStrings
      || !equivalent c.m_variants other.m_variants then false
  else
    match optionsLoop c.m_options other.m_options
        (c.m_options.foldl (fun names op => QSet.insert names op.name) []) with
    | some names => names.isEmpty
    | none => false

/-- `EngineConfiguration::operator!=`. -/
def EngineConfiguration.ne (c other : EngineConfiguration) : Bool :=
  !EngineConfiguration.eq c other

/-- Modelled from the spec: `EngineOption::toVariant` and `EngineOptionFactory::create`
are outside these sources; they turn an option into its variant and a variant into an
option (`none` is the null pointer of `create`). -/
structure OptionCodec where
  toVariant : EngineOption → QVariant
  create : QVariant → Option EngineOption

/-- The `QVariantMap` of a configuration: its entries with plain values, and its `options`
entry, a list of option variants, when the map has one. -/
structure ConfigurationMap where
  entries : QVariantMap
  options : Option (List QVariant)

/-- `EngineConfiguration::toVariant`. -/
def EngineConfiguration.toVariant (codec : OptionCodec) (c : EngineConfiguration) :
    ConfigurationMap :=
  let map : QVariantMap := []
  let map := QMap.insert "name" (.string c.m_name) map
  let map := QMap.insert "command" (.string c.m_command) map
  let map := QMap.insert "workingDirectory" (.string c.m_workingDirectory) map
  let map := QMap.insert "stderrFile" (.string c.m_stderrFile) map
  let map := QMap.insert "protocol" (.string c.m_protocol) map
  let map := if !c.m_initStrings.isEmpty then
    QMap.insert "initStrings" (.stringList c.m_initStrings) map else map
  let map := if c.m_whiteEvalPov then QMap.insert "whitepov" (.bool true) map else map
  let map := if c.m_pondering then QMap.insert "ponder" (.bool true) map else map
  let map := if c.m_restartMode = .RestartOn then QMap.insert "restart" (.string "on") map
    else if c.m_restartMode = .RestartOff then QMap.insert "restart" (.string "off") map
    else map
  let map := if !c.m_validateClaims then QMap.insert "validateClaims" (.bool false) map
    else map
  let map := if c.m_variants.count "standard" != c.m_variants.length then
    QMap.insert "variants" (.stringList c.m_variants) map else map
  let options := if !c.m_options.isEmpty then some (c.m_options.map codec.toVariant)
    else none
  let map := if c.m_rating != 0 then QMap.insert "rating" (.int c.m_rating) map else map
  { entries := map, options := options }

/-- `EngineConfiguration::EngineConfiguration(const QVariant& variant)`, on the map
`variant.toMap()`. -/
def EngineConfiguration.fromVariant (codec : OptionCodec) (variant : ConfigurationMap) :
    EngineConfiguration :=
  let map := variant.entries
  let c := EngineConfiguration.default
  let c := c.setName (QMap.value map "name").toQString
  let c := c.setCommand (QMap.value map "command").toQString
  let c := c.setWorkingDirectory (QMap.value map "workingDirectory").toQString
  let c := c.setStderrFile (QMap.value map "stderrFile").toQString
  let c := c.setProtocol (QMap.value map "protocol").toQString
  let c := if QMap.contains map "initStrings" then
    c.setInitStrings (QMap.value map "initStrings").toStringList else c
  let c := if QMap.contains map "whitepov" then
    c.setWhiteEvalPov (QMap.value map "whitepov").toBool else c
  let c := if QMap.contains map "ponder" then
    c.setPondering (QMap.value map "ponder").toBool else c
  let c := if QMap.contains map "restart" then
    let val := (QMap.value map "restart").toQString
    if val = "auto" then c.setRestartMode .RestartAuto
    else if val = "on" then c.setRestartMode .RestartOn
    else if val = "off" then c.setRestartMode .RestartOff
    else c
    else c
  let c := if QMap.contains map "validateClaims" then
    c.setClaimsValidated (QMap.value map "validateClaims").toBool else c
  let c := if QMap.contains map "variants" then
    c.setSupportedVariants (QMap.value map "variants").toStringList else c
  let c := match variant.options with
    | some optionsList =>
      optionsList.foldl (fun c optionVariant =>
        match codec.create optionVariant with
        | some option => c.addOption option
        | none => c) c
    | none => c
  if QMap.contains map "rating" then c.setRating (QMap.value map "rating").toInt else c

/-! ## `main.cpp`: engine data and scores -/

/-- Modelled from the spec: `TimeControl` is outside these sources.  These are the members
that `parseEngine` writes through its setters; a setter stores its argument. -/
structure TimeControl where
  infinity : Bool
  timePerTc : Int
  movesPerTc : Int
  timeIncrement : Int
  timePerMove : Int
  expiryMargin : Int
  plyLimit : Int
  nodeLimit : Int
  deriving DecidableEq, Repr

/-- Modelled from the spec: a default-constructed `TimeControl`, nothing set. -/
def TimeControl.default : TimeControl :=
  { infinity := false, timePerTc := 0, movesPerTc := 0, timeIncrement := 0,
    timePerMove := 0, expiryMargin := 0, plyLimit := 0, nodeLimit := 0 }

/-- `struct EngineData`. -/
structure EngineData where
  config : EngineConfiguration
  tc : TimeControl
  book : String
  bookDepth : Int

/-- `EngineData::operator==`: equal names. -/
def EngineData.eq (d data : EngineData) : Bool :=
  d.config.m_name == data.config.m_name

/-- What the embedded functions read from collaborators outside these sources: the
engine manager, the protocol and variant registries, the `TimeControl` string
constructor and `isValid`, the tablebase loader and the conversion of text to doubles. -/
structure Env where
  /-- `engineManager()->engines()`. -/
  engines : List EngineConfiguration
  /-- `EngineFactory::protocols()`. -/
  protocols : List String
  /-- `Chess::BoardFactory::variants()`. -/
  variants : List String
  /-- `TimeControl(const QString&)`. -/
  tcFromString : String → TimeControl
  /-- `TimeControl::isValid()`. -/
  tcIsValid : TimeControl → Bool
  /-- `int moveTime = val.toDouble(&ok) * 1000.0`, `none` when `ok` is false. -/
  searchTime : String → Option Int
  /-- `SyzygyTablebase::initialize(path) && SyzygyTablebase::tbAvailable(3)`. -/
  tbInitialize : String → Bool
  /-- `QString::toDouble(&ok)`, `none` when `ok` is false. -/
  toDouble : String → Option QDouble
  /-- `val >= 1.0 && val <= 200.0` on a double. -/
  kfactorInRange : QDouble → Bool
  /-- Modelled from the spec: `MatchParser::Option::toMap(validArgs)` is outside these
  sources; this is the map it gives for the pattern `validArgs` on an option with the
  given value. -/
  toMap : String → QVariant → QMap String

/-- `readEngineConfig`: the first configured engine called `name` is assigned to
`config`; `none` is `return false`, with `config` untouched. -/
def readEngineConfig (env : Env) (name : String) (config : EngineConfiguration) :
    Option EngineConfiguration :=
  match env.engines.find? (fun engine => engine.m_name == name) with
  | some engine => some (config.assign engine)
  | none => none

/-- The `for` loop of `addEngineScore` over the entries of the map: at an entry whose key
is `name`, the value read through the iterator plus `value` is inserted under `name`.
The iterator stands on the entry of key `name`, so what it reads is the value the map
holds for `name` at that moment.  The pair carries `found` and the map. -/
def addEngineScoreLoop (name : String) (value : Int) :
    List (String × QVariant) → Bool × QVariantMap → Bool × QVariantMap
  | [], acc => acc
  | (key, _) :: rest, acc =>
    if key = name then
      let score := wrapInt ((QMap.value acc.2 name).toInt + value)
      addEngineScoreLoop name value rest (true, QMap.insert name (.int score) acc.2)
    else addEngineScoreLoop name value rest acc

/-- `addEngineScore`. -/
def addEngineScore (engineMap : QVariantMap) (name : String) (value : Int) : QVariantMap :=
  if engineMap.length != 0 then
    let r := addEngineScoreLoop name value engineMap (false, engineMap)
    if !r.1 then QMap.insert name (.int value) r.2 else r.2
  else QMap.insert name (.int value) engineMap

/-- The `for` loop of `getEngineScore`. -/
def getEngineScoreLoop (name : String) : List (String × QVariant) → Int
  | [] => 0
  | (key, v) :: rest => if key = name then v.toInt else getEngineScoreLoop name rest

/-- `getEngineScore`. -/
def getEngineScore (engineMap : QVariantMap) (name : String) : Int :=
  if engineMap.length != 0 then getEngineScoreLoop name engineMap else 0

/-- `addResumeScore`, on the text of the `result`, `white` and `black` fields. -/
def addResumeScore (result white black : String) (engineMap : QVariantMap) : QVariantMap :=
  if result = "1-0" then addEngineScore engineMap white 2
  else if result = "0-1" then addEngineScore engineMap black 2
  else if result = "1/2-1/2" then
    addEngineScore (addEngineScore engineMap black 1) white 1
  else engineMap

/-- One argument of `parseEngine` with a non-empty key `name`: the chain of
`if (name == ...)`.  The flag is false where the source returns false. -/
def parseEngineArg (env : Env) (stMap engineMap : QVariantMap) (name val : String)
    (data : EngineData) : Bool × EngineData :=
  if name = "conf" then
    match readEngineConfig env val data.config with
    | none => (false, data)
    | some config =>
      let config :=
        if !stMap.isEmpty then
          if QMap.contains stMap config.m_name then
            config.setStrikes (QMap.value stMap config.m_name).toUInt
          else config
        else config
      let getScore := getEngineScore engineMap config.m_name
      (true, { data with config := config.setResumeScore getScore })
  else if name = "name" then (true, { data with config := data.config.setName val })
  else if name = "cmd" then (true, { data with config := data.config.setCommand val })
  else if name = "dir" then
    (true, { data with config := data.config.setWorkingDirectory val })
  else if name = "arg" then (true, { data with config := data.config.addArgument val })
  else if name = "proto" then
    if env.protocols.contains val then
      (true, { data with config := data.config.setProtocol val })
    else (false, data)
  else if name = "initstr" then
    (true, { data with config := data.config.addInitString (replaceBackslashN val) })
  else if name = "restart" then
    if val = "auto" then
      (true, { data with config := data.config.setRestartMode .RestartAuto })
    else if val = "on" then
      (true, { data with config := data.config.setRestartMode .RestartOn })
    else if val = "off" then
      (true, { data with config := data.config.setRestartMode .RestartOff })
    else (false, data)
  else if name = "trust" then
    (true, { data with config := data.config.setClaimsValidated false })
  else if name = "tc" then
    let tc := env.tcFromString val
    if !env.tcIsValid tc then (false, data)
    else (true, { data with tc := { data.tc with
      infinity := tc.infinity, timePerTc := tc.timePerTc,
      movesPerTc := tc.movesPerTc, timeIncrement := tc.timeIncrement } })
  else if name = "st" then
    match env.searchTime val with
    | none => (false, data)
    | some moveTime =>
      if moveTime ≤ 0 then (false, data)
      else (true, { data with tc := { data.tc with timePerMove := moveTime } })
  else if name = "timemargin" then
    match qStringToInt val with
    | none => (false, data)
    | some margin =>
      if margin < 0 then (false, data)
      else (true, { data with tc := { data.tc with expiryMargin := margin } })
  else if name = "book" then (true, { data with book := val })
  else if name = "bookdepth" then
    if (qStringToInt val).getD 0 ≤ 0 then (false, data)
    else (true, { data with bookDepth := (qStringToInt val).getD 0 })
  else if name = "whitepov" then
    (true, { data with config := data.config.setWhiteEvalPov true })
  else if name = "depth" then
    if (qStringToInt val).getD 0 ≤ 0 then (false, data)
    else (true, { data with tc := { data.tc with plyLimit := (qStringToInt val).getD 0 } })
  else if name = "nodes" then
    if (qStringToInt val).getD 0 ≤ 0 then (false, data)
    else (true, { data with tc := { data.tc with nodeLimit := (qStringToInt val).getD 0 } })
  else if name = "ponder" then
    (true, { data with config := data.config.setPondering true })
  else if name = "cuteseal" then
    (true, { data with config := data.config.setCuteseal (qToUpper val == "TRUE") })
  else if qStartsWith name "option." then
    (true, { data with config :=
      data.config.setOption (sectionTail '.' name) (.string val) })
  else if name = "stderr" then
    (true, { data with config := data.config.setStderrFile val })
  else (false, data)

/-- `parseEngine`: the flag is the returned `bool`, the data is `data` as the call
leaves it. -/
def parseEngine (env : Env) (stMap engineMap : QVariantMap) :
    List String → EngineData → Bool × EngineData
  | [], data => (true, data)
  | arg :: rest, data =>
    let name := sectionHead '=' arg
    let val := sectionTail '=' arg
    if name.isEmpty then parseEngine env stMap engineMap rest data
    else
      match parseEngineArg env stMap engineMap name val data with
      | (true, data) => parseEngine env stMap engineMap rest data
      | (false, data) => (false, data)

/-! ## `main.cpp`: the objects `parseMatch` configures

The classes below are declared outside these sources.  Each is embedded as the record of
the values its setters were last given: a setter stores its arguments and nothing else. -/

/-- Modelled from the spec: the enumerator `PgnGame::Minimal` as an `int`. -/
def PgnMode.Minimal : Int := 0

/-- Modelled from the spec: the enumerator `PgnGame::Verbose` as an `int`. -/
def PgnMode.Verbose : Int := 1

/-- Modelled from the spec: `GameAdjudicator` is outside these sources.  Its state is the
arguments of `setDrawThreshold`, `setResignThreshold`, `setMaximumGameLength`,
`setTablebaseAdjudication` and `setTcecAdjudication`: the draw threshold, the resign
threshold, the maximum game length, the tablebase and draw-only flags, the TCEC flag. -/
structure GameAdjudicator where
  drawMoveNumber : Int
  drawMoveCount : Int
  drawScore : Int
  resignMoveCount : Int
  resignScore : Int
  maxGameLength : Int
  tbEnabled : Bool
  tbDrawOnly : Bool
  tcecAdjudication : Bool
  deriving DecidableEq, Repr

/-- Modelled from the spec: the `GameAdjudicator` constructor is outside these sources; a
fresh adjudicator has every rule off. -/
def GameAdjudicator.default : GameAdjudicator :=
  { drawMoveNumber := 0, drawMoveCount := 0, drawScore := 0,
    resignMoveCount := 0, resignScore := 0, maxGameLength := 0,
    tbEnabled := false, tbDrawOnly := false, tcecAdjudication := false }

/-- Modelled from the spec: `OpeningSuite` is outside these sources; this is its
constructor arguments: file, format, order, start index. -/
structure OpeningSuite where
  fileName : String
  pgnFormat : Bool
  randomOrder : Bool
  startIndex : Int
  deriving DecidableEq, Repr

/-- One `tournament->addPlayer(new EngineBuilder(config), tc, book, bookDepth)`. -/
structure Player where
  config : EngineConfiguration
  tc : TimeControl
  book : String
  bookDepth : Int

/-- Modelled from the spec: `Tournament` is outside these sources.  This is a tournament
as `parseMatch` sees it: its kind, the answer of `canSetRoundMultiplier()`, and the values
handed to its setters. -/
structure Tournament where
  kind : TournamentKind
  canSetRoundMultiplier : Bool
  gamesPerEncounter : Int
  roundMultiplier : Int
  startDelay : Int
  name : String
  site : String
  eventDate : String
  variant : String
  recoveryMode : Bool
  pgnOutput : String
  pgnOutMode : Int
  pgnWriteUnfinishedGames : Bool
  livePgnOutput : String
  livePgnOutMode : Int
  livePgnFormat : Bool
  liveJsonFormat : Bool
  strikes : Int
  epdOutput : String
  pgnCleanupEnabled : Bool
  openingRepetitions : Int
  swapSides : Bool
  bergerSchedule : Bool
  reloadEngines : Bool
  seedCount : Nat
  /-- The arguments of `sprt()->initialize(elo0, elo1, alpha, beta)`, once called. -/
  sprt : Option (QDouble × QDouble × QDouble × QDouble)
  /-- The argument of `setOpeningDepth`. -/
  openingDepth : Int
  /-- The argument of `setOpeningSuite`, once called. -/
  openingSuite : Option OpeningSuite
  /-- The calls of `addResumeGameResult(index, result)`, in order. -/
  resumeResults : List (Nat × String)
  /-- The argument of `setResume`. -/
  resume : Nat
  /-- The calls of `addPlayer`, in order. -/
  players : List Player
  /-- The argument of `setAdjudicator`. -/
  adjudicator : GameAdjudicator

/-- Modelled from the spec: `MatchParser` is outside these sources.  A
`MatchParser::Option` is its name and value, and with them the map that
`option.toMap(...)` gives for the argument pattern of that option. -/
structure MatchOption where
  name : String
  value : QVariant
  params : QMap String

/-- The `engineSettings` map of the tournament file: its `engines` and `each` entries. -/
structure EngineSettings where
  engines : Option (List (List String))
  each : Option (List String)
  deriving DecidableEq, Repr

/-- `eMap.isEmpty()`. -/
def EngineSettings.isEmpty (e : EngineSettings) : Bool :=
  e.engines.isNone && e.each.isNone

/-- One element of `matchProgress`, with the text of its four fields. -/
structure MatchProgressEntry where
  white : String
  black : String
  result : String
  terminationDetails : String
  deriving DecidableEq, Repr

/-- The map read from and written to the tournament file (`tfMap`), by its four keys. -/
structure TournamentFileMap where
  tournamentSettings : Option QVariantMap
  engineSettings : Option EngineSettings
  matchProgress : Option (List MatchProgressEntry)
  strikes : Option QVariantMap
  deriving DecidableEq, Repr

/-- An empty `QVariantMap tfMap`. -/
def TournamentFileMap.empty : TournamentFileMap :=
  { tournamentSettings := none, engineSettings := none, matchProgress := none,
    strikes := none }

/-- The local variables and configured objects of `parseMatch` from the tournament
object on: what the hydration block and the command-line loop read and write. -/
structure ParseState where
  tournament : Tournament
  /-- `gameManager->setConcurrency`. -/
  concurrency : Int
  adjudicator : GameAdjudicator
  /-- `SyzygyTablebase::setPieces`. -/
  tbPieces : Int
  /-- `SyzygyTablebase::setNoRule50` was called. -/
  tbNoRule50 : Bool
  /-- `match->setRatingInterval`. -/
  ratingInterval : Int
  tfMap : TournamentFileMap
  tMap : QVariantMap
  eMap : EngineSettings
  eList : List (List String)
  engines : List EngineData
  eachOptions : List String
  openingsOption : MatchOption
  bookmodeOption : MatchOption
  wantsPgnFormat : Bool
  wantsJsonFormat : Bool
  stMap : QVariantMap
  engineMap : QVariantMap

/-- Modelled from the spec: `MatchParser::takeOption` is outside these sources; it hands
out the value of the first option called `name` (an invalid variant when there is none)
and removes that option from the parsed options. -/
def takeOption (name : String) : List MatchOption → QVariant × List MatchOption
  | [] => (.invalid, [])
  | o :: rest =>
    if o.name = name then (o.value, rest)
    else ((takeOption name rest).1, o :: (takeOption name rest).2)

/-- The choice of `ttype` (main.cpp 468-478) with the updated `tMap` and options. -/
def chooseType (usingTournamentFile : Bool) (tMap : QVariantMap)
    (options : List MatchOption) : String × QVariantMap × List MatchOption :=
  let r : String × QVariantMap × List MatchOption :=
    if usingTournamentFile && QMap.contains tMap "type" then
      ((QMap.value tMap "type").toQString, tMap, options)
    else
      let ttype := (takeOption "-tournament" options).1.toQString
      (ttype, if !ttype.isEmpty then QMap.insert "type" (.string ttype) tMap else tMap,
        (takeOption "-tournament" options).2)
  (if r.1.isEmpty then "round-robin" else r.1, r.2)

/-- `while (!srand) srand = qrand();` over the successive results of `qrand()`: the
first one that is not 0.  `none` when the given draws are all 0: the loop has not ended
within them. -/
def drawSeed : List Nat → Option Nat
  | [] => none
  | r :: rest => if wrapUInt r != 0 then some (wrapUInt r) else drawSeed rest

/-- The seed `parseMatch` settles on (main.cpp 487-506), with the options left; `qrand`
lists the results of the calls of `qrand()`.  `none`: the drawing loop has not ended. -/
def chooseSeed (wantsResume : Bool) (tMap : QVariantMap) (tournamentFile : String)
    (qrand : List Nat) (options : List MatchOption) : Option (Nat × List MatchOption) :=
  let srand : Nat :=
    if wantsResume then
      if QMap.contains tMap "srand" then (QMap.value tMap "srand").toUInt else 0
    else 0
  let r : Nat × List MatchOption :=
    if srand == 0 then ((takeOption "-srand" options).1.toUInt, (takeOption "-srand" options).2)
    else (srand, options)
  if r.1 == 0 && !tournamentFile.isEmpty then
    (drawSeed qrand).map (fun s => (s, r.2))
  else some r

/-- What main.cpp 507-510 does with the seed: `Mersenne::initialize(srand)` and
`tMap.insert("srand", srand)` when it is not 0.  The first component is the seed the
generator was initialised with, if it was. -/
def applySeed (srand : Nat) (tMap : QVariantMap) : Option Nat × QVariantMap :=
  if srand != 0 then (some srand, QMap.insert "srand" (.uint srand) tMap)
  else (none, tMap)

/-! ## `main.cpp`: resuming from the tournament file (lines 524-679) -/

/-- `QVariant::toInt(&ok)`: the value when `ok`, `none` when not. -/
def QVar.toIntOk {α : Type} : QVar α → Option Int
  | .bool b => some (if b then 1 else 0)
  | .int i => some i
  | .uint n => some (wrapInt n)
  | .string s => qStringToInt s
  | _ => none

/-- `QVariant::toUInt(&ok)`: the value when `ok`, `none` when not. -/
def QVar.toUIntOk {α : Type} : QVar α → Option Nat
  | .bool b => some (if b then 1 else 0)
  | .int i => some (i % 4294967296).toNat
  | .uint n => some n
  | .string s => qStringToUInt s
  | _ => none

/-- `QVariant::toDouble` of a variant that holds a double (0.0 for any other). -/
def QVar.toDouble {α : Type} : QVar α → QDouble
  | .double d => d
  | _ => { bits := 0 }

/-- `QVariant::type() == QVariant::Bool`. -/
def QVar.isBool {α : Type} : QVar α → Bool
  | .bool _ => true
  | _ => false

/-- The loop over `matchProgress` (main.cpp 644-657).  `p` runs over `pList` from its
start and `nextGame` counts the entries passed, so it is the index of `p`: erasing from
`p` to the end keeps the first `nextGame` entries. -/
def replayLoop (pList : List MatchProgressEntry) :
    List MatchProgressEntry → Nat → QVariantMap → Tournament →
    List MatchProgressEntry × QVariantMap × Tournament
  | [], _, engineMap, tournament => (pList, engineMap, tournament)
  | p :: rest, nextGame, engineMap, tournament =>
    let engineMap := addResumeScore p.result p.white p.black engineMap
    let tournament := { tournament with
      resumeResults := tournament.resumeResults ++ [(nextGame, p.result)] }
    if p.result = "*" then (pList.take nextGame, engineMap, tournament)
    else replayLoop pList rest (nextGame + 1) engineMap tournament

/-- The `matchProgress` block (main.cpp 634-664).  `usingTournamentFile` implies
`wantsResume`, so the branch that removes the list is never taken there. -/
def replayProgress (wantsResume : Bool) (s : ParseState) : ParseState :=
  match s.tfMap.matchProgress with
  | none => s
  | some progress =>
    if !wantsResume then { s with tfMap := { s.tfMap with matchProgress := none } }
    else
      let r := replayLoop progress progress 0 s.engineMap s.tournament
      let pList := r.1
      let nextGame := pList.length
      { s with
        tfMap := { s.tfMap with matchProgress := some pList }
        engineMap := r.2.1
        tournament :=
          if nextGame > 0 then { r.2.2 with resume := nextGame } else r.2.2 }

/-- The loop over `eMap["engines"]` (main.cpp 667-675). -/
def resumeEngines (env : Env) (stMap engineMap : QVariantMap) :
    List (List String) → List EngineData → List EngineData
  | [], engines => engines
  | eData :: rest, engines =>
    let r := parseEngine env stMap engineMap eData
      { config := EngineConfiguration.default, tc := TimeControl.default, book := "",
        bookDepth := 1000 }
    resumeEngines env stMap engineMap rest (if r.1 then engines ++ [r.2] else engines)

/-- Hydration, first part (main.cpp 525-569): the tournament and game-manager
settings. -/
def hydrateSettings (s : ParseState) : ParseState :=
  let tMap := s.tMap
  let has := fun k => QMap.contains tMap k
  let v := fun k => QMap.value tMap k
  let t := s.tournament
  let t := if has "gamesPerEncounter" then
    { t with gamesPerEncounter := (v "gamesPerEncounter").toInt } else t
  let t := if has "roundMultiplier" then
    { t with roundMultiplier := (v "roundMultiplier").toInt } else t
  let t := if has "startDelay" then { t with startDelay := (v "startDelay").toInt } else t
  let t := if has "name" then { t with name := (v "name").toQString } else t
  let t := if has "site" then { t with site := (v "site").toQString } else t
  let t := if has "eventDate" then { t with eventDate := (v "eventDate").toQString } else t
  let t := if has "variant" then { t with variant := (v "variant").toQString } else t
  let t := if has "recoveryMode" then
    { t with recoveryMode := (v "recoveryMode").toBool } else t
  let t := if has "pgnOutput" then
    let t := if has "pgnOutMode" then
      { t with pgnOutput := (v "pgnOutput").toQString,
               pgnOutMode := (v "pgnOutMode").toInt }
      else { t with pgnOutput := (v "pgnOutput").toQString,
                    pgnOutMode := PgnMode.Verbose }
    if has "pgnOutUnfinished" then
      { t with pgnWriteUnfinishedGames := (v "pgnOutUnfinished").toBool } else t
    else t
  let wantsPgnFormat := if has "livePgnOutput" && has "pgnFormat" then
    (v "pgnFormat").toBool else s.wantsPgnFormat
  let wantsJsonFormat := if has "livePgnOutput" && has "jsonFormat" then
    (v "jsonFormat").toBool else s.wantsJsonFormat
  let t := if has "livePgnOutput" then
    let t := if has "livePgnOutMode" then
      { t with livePgnOutput := (v "livePgnOutput").toQString,
               livePgnOutMode := (v "livePgnOutMode").toInt }
      else { t with livePgnOutput := (v "livePgnOutput").toQString,
                    livePgnOutMode := PgnMode.Verbose }
    { t with livePgnFormat := wantsPgnFormat, liveJsonFormat := wantsJsonFormat }
    else t
  let t := if has "Strikes" then { t with strikes := (v "Strikes").toInt } else t
  let t := if has "epdOutput" then { t with epdOutput := (v "epdOutput").toQString } else t
  let t := if has "pgnCleanupEnabled" then
    { t with pgnCleanupEnabled := (v "pgnCleanupEnabled").toBool } else t
  let t := if has "openingRepetitions" then
    { t with openingRepetitions := (v "openingRepetitions").toInt } else t
  { s with
    tournament := t
    wantsPgnFormat := wantsPgnFormat
    wantsJsonFormat := wantsJsonFormat
    concurrency := if has "concurrency" then (v "concurrency").toInt else s.concurrency }

/-- The argument pattern `parseOpenings` passes to `option.toMap`. -/
def openingsPattern : String := "file|format=pgn|order=sequential|plies=1024|start=1"

/-- Hydration, second part (main.cpp 570-630): the adjudicator, the tablebases, the
opening options and the schedule flags.  The restored `openingsOption` gets its name
and value; `parseOpenings` then reads `option.toMap(...)` of that value, which is what
`params` holds here. -/
def hydrateAdjudication (env : Env) (s : ParseState) : ParseState :=
  let tMap := s.tMap
  let has := fun k => QMap.contains tMap k
  let v := fun k => QMap.value tMap k
  let a := s.adjudicator
  let a := if has "drawAdjudication" then
    let dMap := (v "drawAdjudication").toMap
    if QMap.contains dMap "movenumber" && QMap.contains dMap "movecount"
        && QMap.contains dMap "score" then
      { a with drawMoveNumber := (QMap.value dMap "movenumber").toInt,
               drawMoveCount := (QMap.value dMap "movecount").toInt,
               drawScore := (QMap.value dMap "score").toInt }
    else a
    else a
  let a := if has "resignAdjudication" then
    let rMap := (v "resignAdjudication").toMap
    if QMap.contains rMap "movecount" && QMap.contains rMap "score" then
      { a with resignMoveCount := (QMap.value rMap "movecount").toInt,
               resignScore := wrapInt (-(QMap.value rMap "score").toInt) }
    else a
    else a
  let t := s.tournament
  let t := if has "swapSides" then { t with swapSides := (v "swapSides").toBool } else t
  let a := if has "maxMoves" then { a with maxGameLength := (v "maxMoves").toInt } else a
  let a := if has "tb" then { a with tbEnabled := true, tbDrawOnly := false } else a
  let a := if has "tbdrawonly" then { a with tbEnabled := true, tbDrawOnly := true } else a
  let tbPieces := if has "tbPieces" then
    (if (v "tbPieces").toInt > 2 then (v "tbPieces").toInt else s.tbPieces) else s.tbPieces
  let tbNoRule50 := if has "tbIgnore50" then
    (if (v "tbIgnore50").toBool then true else s.tbNoRule50) else s.tbNoRule50
  let o := s.openingsOption
  let o := if has "openings" then
    { o with name := "-openings", value := v "openings",
             params := env.toMap openingsPattern (v "openings") } else o
  let o := if has "bookmode" then
    { o with name := "-bookmode", value := v "bookmode",
             params := env.toMap openingsPattern (v "bookmode") } else o
  let t := if has "bergerSchedule" then
    { t with bergerSchedule := (v "bergerSchedule").toBool } else t
  let t := if has "reloadConfiguration" then
    { t with reloadEngines := (v "reloadConfiguration").toBool } else t
  let a := if has "tcecAdjudication" then
    { a with tcecAdjudication := (v "tcecAdjudication").toBool } else a
  { s with tournament := t, adjudicator := a, tbPieces := tbPieces,
           tbNoRule50 := tbNoRule50, openingsOption := o }

/-- The `strikes` block (main.cpp 631-633). -/
def hydrateStrikes (s : ParseState) : ParseState :=
  match s.tfMap.strikes with
  | some st => { s with stMap := st }
  | none => s

/-- The `engines` block (main.cpp 665-676). -/
def hydrateRoster (env : Env) (s : ParseState) : ParseState :=
  match s.eMap.engines with
  | some engines =>
    { s with eList := engines
             engines := resumeEngines env s.stMap s.engineMap engines s.engines }
  | none => s

/-- The `each` block (main.cpp 677-679). -/
def hydrateEach (s : ParseState) : ParseState :=
  match s.eMap.each with
  | some each => { s with eachOptions := each }
  | none => s

/-- Hydration, last part (main.cpp 631-679): strikes, `matchProgress` and the engines. -/
def hydrateEngines (env : Env) (wantsResume : Bool) (s : ParseState) : ParseState :=
  hydrateEach (hydrateRoster env (replayProgress wantsResume (hydrateStrikes s)))

/-- The whole `if (usingTournamentFile)` branch. -/
def hydrate (env : Env) (wantsResume : Bool) (s : ParseState) : ParseState :=
  hydrateEngines env wantsResume (hydrateAdjudication env (hydrateSettings s))

/-! ## `main.cpp`: the command-line loop (lines 681-1067) -/

/-- The `for` loop of `-pgnout` over `list[1..]`: the mode, the `unfinished` flag,
whether `setPgnWriteUnfinishedGames(false)` was called, and `ok`. -/
def pgnoutLoop : List String → Int × Bool × Bool → Int × Bool × Bool
  | [], acc => acc
  | x :: rest, (mode, unfinished, ok) =>
    if x = "min" then pgnoutLoop rest (PgnMode.Minimal, unfinished, ok)
    else if x = "fi" then pgnoutLoop rest (mode, false, ok)
    else pgnoutLoop rest (mode, unfinished, false)

/-- One turn of the loop over `parser.options()`: the branch for `option.name`.
`none` is the `return nullptr` after `!ok` (and the abort of `qFatal` for an unknown
name); a state is the turn ending with `ok` true. -/
def applyOption (env : Env) (option : MatchOption) (s : ParseState) :
    Option ParseState :=
  let name := option.name
  let value := option.value
  let t := s.tournament
  if name = "-engine" then
    let r := parseEngine env [] [] value.toStringList
      { config := EngineConfiguration.default, tc := TimeControl.default, book := "",
        bookDepth := 1000 }
    if r.1 then
      some { s with
        engines := if !(s.engines.any (fun e => e.eq r.2)) then s.engines ++ [r.2]
                   else s.engines
        eList := s.eList ++ [value.toStringList] }
    else none
  else if name = "-each" then
    some { s with eachOptions := value.toStringList
                  eMap := { s.eMap with each := some value.toStringList } }
  else if name = "-variant" then
    if env.variants.contains value.toQString then
      some { s with tournament := { t with variant := value.toQString }
                    tMap := QMap.insert "variant" (.string value.toQString) s.tMap }
    else none
  else if name = "-concurrency" then
    if value.toInt > 0 then
      some { s with concurrency := value.toInt
                    tMap := QMap.insert "concurrency" (.int value.toInt) s.tMap }
    else none
  else if name = "-draw" then
    match qStringToInt (QMap.valueStr option.params "movenumber"),
          qStringToInt (QMap.valueStr option.params "movecount"),
          qStringToInt (QMap.valueStr option.params "score") with
    | some moveNumber, some moveCount, some score =>
      some { s with
        adjudicator := { s.adjudicator with
          drawMoveNumber := moveNumber, drawMoveCount := moveCount, drawScore := score }
        tMap := QMap.insert "drawAdjudication"
          (.map [("movecount", .int moveCount), ("movenumber", .int moveNumber),
                 ("score", .int score)]) s.tMap }
    | _, _, _ => none
  else if name = "-resign" then
    match qStringToInt (QMap.valueStr option.params "movecount"),
          qStringToInt (QMap.valueStr option.params "score") with
    | some moveCount, some score =>
      some { s with
        adjudicator := { s.adjudicator with
          resignMoveCount := moveCount, resignScore := wrapInt (-score) }
        tMap := QMap.insert "resignAdjudication"
          (.map [("movecount", .int moveCount), ("score", .int score)]) s.tMap }
    | _, _ => none
  else if name = "-maxmoves" then
    if value.toInt ≥ 0 then
      some { s with adjudicator := { s.adjudicator with maxGameLength := value.toInt }
                    tMap := QMap.insert "maxMoves" (.int value.toInt) s.tMap }
    else none
  else if name = "-tbdrawonly" then
    some { s with adjudicator := { s.adjudicator with tbEnabled := true, tbDrawOnly := true }
                  tMap := QMap.insert "tbdrawonly" (.bool true) s.tMap }
  else if name = "-tb" then
    if env.tbInitialize value.toQString then
      some { s with
        adjudicator := { s.adjudicator with tbEnabled := true, tbDrawOnly := false }
        tMap := QMap.insert "tb" (.string value.toQString) s.tMap }
    else none
  else if name = "-tbpieces" then
    if value.toInt > 2 then
      some { s with tbPieces := value.toInt
                    tMap := QMap.insert "tbPieces" (.int value.toInt) s.tMap }
    else none
  else if name = "-tbignore50" then
    some { s with tbNoRule50 := if value.toBool then true else s.tbNoRule50
                  tMap := QMap.insert "tbIgnore50" (.bool value.toBool) s.tMap }
  else if name = "-event" then
    some { s with tournament := { t with name := value.toQString }
                  tMap := QMap.insert "name" (.string value.toQString) s.tMap }
  else if name = "-games" then
    if value.toInt > 0 then
      some { s with tournament := { t with gamesPerEncounter := value.toInt }
                    tMap := QMap.insert "gamesPerEncounter" (.int value.toInt) s.tMap }
    else none
  else if name = "-rounds" then
    if !t.canSetRoundMultiplier then none
    else
      match value.toIntOk with
      | some rounds =>
        if rounds ≤ 0 then none
        else some { s with tournament := { t with roundMultiplier := rounds }
                           tMap := QMap.insert "roundMultiplier" (.int value.toInt) s.tMap }
      | none => none
  else if name = "-sprt" then
    match env.toDouble (QMap.valueStr option.params "elo0"),
          env.toDouble (QMap.valueStr option.params "elo1"),
          env.toDouble (QMap.valueStr option.params "alpha"),
          env.toDouble (QMap.valueStr option.params "beta") with
    | some elo0, some elo1, some alpha, some beta =>
      some { s with
        tournament := { t with sprt := some (elo0, elo1, alpha, beta) }
        tMap := QMap.insert "sprt"
          (.map [("alpha", .double alpha), ("beta", .double beta),
                 ("elo0", .double elo0), ("elo1", .double elo1)]) s.tMap }
    | _, _, _, _ => none
  else if name = "-ratinginterval" then
    some { s with ratingInterval := value.toInt
                  tMap := QMap.insert "ratingInterval" (.int value.toInt) s.tMap }
  else if name = "-openings" then some { s with openingsOption := option }
  else if name = "-bookmode" then some { s with bookmodeOption := option }
  else if name = "-pgnout" then
    let list := value.toStringList
    let r := if list.length = 2 ∨ list.length = 3 then
      pgnoutLoop (list.drop 1) (PgnMode.Verbose, true, true)
      else (PgnMode.Verbose, true, true)
    if r.2.2 then
      some { s with
        tournament := { t with
          pgnWriteUnfinishedGames := if r.2.1 then t.pgnWriteUnfinishedGames else false
          pgnOutput := list.headD "", pgnOutMode := r.1 }
        tMap := QMap.insert "pgnOutUnfinished" (.bool r.2.1)
          (QMap.insert "pgnOutMode" (.int r.1)
            (QMap.insert "pgnOutput" (.string (list.headD "")) s.tMap)) }
    else none
  else if name = "-livepgnout" then
    let list := value.toStringList
    let mode := if list.contains "min" then PgnMode.Minimal else PgnMode.Verbose
    let wantsPgnFormat := if list.contains "nopgn" then false else s.wantsPgnFormat
    let wantsJsonFormat := if list.contains "nojson" then false else s.wantsJsonFormat
    let params := 1 + (if list.contains "min" then 1 else 0)
      + (if list.contains "nopgn" then 1 else 0) + (if list.contains "nojson" then 1 else 0)
    if list.length != params then none
    else
      some { s with
        wantsPgnFormat := wantsPgnFormat
        wantsJsonFormat := wantsJsonFormat
        tournament := { t with
          livePgnOutput := list.headD "", livePgnOutMode := mode,
          livePgnFormat := wantsPgnFormat, liveJsonFormat := wantsJsonFormat }
        tMap := QMap.insert "jsonFormat" (.bool wantsJsonFormat)
          (QMap.insert "pgnFormat" (.bool wantsPgnFormat)
            (QMap.insert "livePgnOutMode" (.int mode)
              (QMap.insert "livePgnOutput" (.string (list.headD "")) s.tMap))) }
  else if name = "-strikes" then
    if value.toInt ≥ 0 then
      some { s with tournament := { t with strikes := value.toInt }
                    tMap := QMap.insert "Strikes" (.int value.toInt) s.tMap }
    else none
  else if name = "-epdout" then
    some { s with tournament := { t with epdOutput := value.toQString }
                  tMap := QMap.insert "epdOutput" (.string value.toQString) s.tMap }
  else if name = "-repeat" then
    match value.toIntOk with
    | some rep0 =>
      let rep := if value.isBool then 2 else rep0
      if rep ≥ 1 then
        some { s with tournament := { t with openingRepetitions := rep }
                      tMap := QMap.insert "openingRepetitions" (.int rep) s.tMap }
      else none
    | none => none
  else if name = "-noswap" then
    some { s with tournament := { t with swapSides := false }
                  tMap := QMap.insert "swapSides" (.bool false) s.tMap }
  else if name = "-recover" then
    some { s with tournament := { t with recoveryMode := true }
                  tMap := QMap.insert "recoveryMode" (.bool true) s.tMap }
  else if name = "-site" then
    some { s with tournament := { t with site := value.toQString }
                  tMap := QMap.insert "site" (.string value.toQString) s.tMap }
  else if name = "-wait" then
    if value.toInt ≥ 0 then
      some { s with tournament := { t with startDelay := value.toInt }
                    tMap := QMap.insert "startDelay" (.int value.toInt) s.tMap }
    else none
  else if name = "-seeds" then
    match value.toUIntOk with
    | some seedCount =>
      some { s with tournament := { t with seedCount := seedCount }
                    tMap := QMap.insert "seeds" (.uint seedCount) s.tMap }
    | none => none
  else if name = "-resume" then some s
  else if name = "-bergerschedule" then
    some { s with tournament := { t with bergerSchedule := value.toBool }
                  tMap := QMap.insert "bergerSchedule" (.bool value.toBool) s.tMap }
  else if name = "-kfactor" then
    if env.kfactorInRange value.toDouble then
      some { s with tMap := QMap.insert "eloKfactor" (.double value.toDouble) s.tMap }
    else none
  else if name = "-reloadconf" then
    some { s with tournament := { t with reloadEngines := value.toBool }
                  tMap := QMap.insert "reloadConfiguration" (.bool value.toBool) s.tMap }
  else if name = "-tcecadj" then
    some { s with
      adjudicator := { s.adjudicator with tcecAdjudication := value.toBool }
      tournament := { t with reloadEngines := value.toBool }
      tMap := QMap.insert "tcecAdjudication" (.bool value.toBool) s.tMap }
  else none

/-- The loop over `parser.options()`, in command-line order. -/
def applyOptions (env : Env) : List MatchOption → ParseState → Option ParseState
  | [], s => some s
  | option :: rest, s =>
    match applyOption env option s with
    | some s => applyOptions env rest s
    | none => none

/-! ## `main.cpp`: `parseOpenings` and `parseMatch` as a whole -/

/-- What `parseMatch` meets at the path of the tournament file. -/
inductive TournamentFileState where
  /-- `QFile::exists` is false. -/
  | missing
  /-- The file exists and cannot be opened for reading. -/
  | unreadable
  /-- The file opens; the map is what `jsonParser.parse().toMap()` gives. -/
  | content (tfMap : TournamentFileMap)

/-- What one run of `parseMatch` reads from outside, besides `Env`: the objects as their
constructors leave them, the state of the tournament file, the date and the results of
`qrand()`. -/
structure MatchEnv where
  /-- The tournament a class of `TournamentFactory::create` constructs. -/
  newTournament : TournamentKind → Tournament
  /-- The concurrency of the game manager before `parseMatch`. -/
  concurrency : Int
  /-- The piece limit of `SyzygyTablebase` before `parseMatch`. -/
  tbPieces : Int
  /-- The rating interval of a new `EngineMatch`. -/
  ratingInterval : Int
  /-- `OpeningSuite::initialize()`. -/
  suiteInitialize : OpeningSuite → Bool
  file : TournamentFileState
  /-- `output.open(QIODevice::WriteOnly | QIODevice::Text)`. -/
  canWrite : Bool
  /-- `QDate::currentDate().toString("yyyy.MM.dd")`. -/
  today : String
  /-- The results of the successive calls of `qrand()`. -/
  qrand : List Nat

/-- `parseOpenings`: the suite (or `none` for the null pointer) and the tournament, whose
opening depth is set once the parameters are accepted.  `option.params` is
`option.toMap("file|format=pgn|order=sequential|plies=1024|start=1")`. -/
def parseOpenings (menv : MatchEnv) (option : MatchOption) (tournament : Tournament) :
    Option OpeningSuite × Tournament :=
  let params := option.params
  let ok := !params.isEmpty
  let formatStr := QMap.valueStr params "format"
  let pgnFormat := formatStr == "pgn"
  let ok := if formatStr = "epd" ∨ formatStr = "pgn" then ok else false
  let orderStr := QMap.valueStr params "order"
  let randomOrder := orderStr == "random"
  let ok := if orderStr = "sequential" ∨ orderStr = "random" then ok else false
  let plies := (qStringToInt (QMap.valueStr params "plies")).getD 0
  let start := (qStringToInt (QMap.valueStr params "start")).getD 0
  let ok := ok && decide (plies > 0) && decide (start > 0)
  if ok then
    let tournament := { tournament with openingDepth := plies }
    let suite : OpeningSuite :=
      { fileName := QMap.valueStr params "file", pgnFormat := pgnFormat,
        randomOrder := randomOrder, startIndex := start - 1 }
    if menv.suiteInitialize suite then (some suite, tournament) else (none, tournament)
  else (none, tournament)

/-- The loop applying `eachOptions` to every engine (main.cpp 1089-1095): it stops at
the first engine `parseEngine` fails on.  The flag is `ok`. -/
def applyEach (env : Env) (eachOptions : List String) :
    List EngineData → Bool × List EngineData
  | [] => (true, [])
  | e :: rest =>
    let r := parseEngine env [] [] eachOptions e
    if !r.1 then (false, r.2 :: rest)
    else ((applyEach env eachOptions rest).1, r.2 :: (applyEach env eachOptions rest).2)

/-- The loop adding the players (main.cpp 1099-1126): it stops at the first engine
without a valid time control, command or protocol.  The flag is false when it stopped. -/
def addPlayers (env : Env) : List EngineData → Tournament → Bool × Tournament
  | [], tournament => (true, tournament)
  | engine :: rest, tournament =>
    if !env.tcIsValid engine.tc then (false, tournament)
    else if engine.config.m_command.isEmpty then (false, tournament)
    else if engine.config.m_protocol.isEmpty then (false, tournament)
    else addPlayers env rest { tournament with
      players := tournament.players ++
        [{ config := engine.config, tc := engine.tc, book := engine.book,
           bookDepth := engine.bookDepth }] }

/-- What `parseMatch` returns with the match: the configured objects, the seed given to
`Mersenne::initialize` and the map written to the tournament file. -/
structure EngineMatch where
  tournament : Tournament
  tournamentFile : String
  concurrency : Int
  tbPieces : Int
  tbNoRule50 : Bool
  ratingInterval : Int
  outputFormats : Bool × Bool
  eloKfactor : Option QDouble
  bookMode : Option String
  seed : Option Nat
  written : Option TournamentFileMap

/-- The tail of `parseMatch` (main.cpp 1070-1185), after the hydration or the
command-line loop. -/
def finishMatch (env : Env) (menv : MatchEnv) (wantsResume : Bool) (tournamentFile : String)
    (seed : Option Nat) (s : ParseState) : Option EngineMatch :=
  let eloKfactor := if QMap.contains s.tMap "eloKfactor" then
    some (QMap.value s.tMap "eloKfactor").toDouble else none
  let each := if !s.eachOptions.isEmpty then applyEach env s.eachOptions s.engines
    else (true, s.engines)
  let ok := each.1
  let engines := each.2
  let added := addPlayers env engines s.tournament
  let ok := ok && added.1
  let tournament := added.2
  let opened : Bool × Tournament × QVariantMap :=
    if !s.openingsOption.name.isEmpty then
      match parseOpenings menv s.openingsOption tournament with
      | (some suite, t) =>
        (ok, { t with openingSuite := some suite },
          QMap.insert "openings" s.openingsOption.value s.tMap)
      | (none, t) => (false, t, s.tMap)
    else (ok, tournament, s.tMap)
  let ok := opened.1
  let tournament := opened.2.1
  let tMap := opened.2.2
  let book : Bool × Option String :=
    if !s.bookmodeOption.name.isEmpty then
      let val := s.bookmodeOption.value.toQString
      if val = "ram" then (ok, some "ram")
      else if val = "disk" then (ok, some "disk")
      else (false, none)
    else (ok, none)
  let ok := book.1 && decide (engines.length ≥ 2)
  if !ok then none
  else
    let result : Tournament → Option TournamentFileMap → EngineMatch := fun t written =>
      { tournament := { t with adjudicator := s.adjudicator },
        tournamentFile := tournamentFile, concurrency := s.concurrency,
        tbPieces := s.tbPieces, tbNoRule50 := s.tbNoRule50,
        ratingInterval := s.ratingInterval,
        outputFormats := (s.wantsPgnFormat, s.wantsJsonFormat),
        eloKfactor := eloKfactor, bookMode := book.2, seed := seed, written := written }
    if !tournamentFile.isEmpty && !tMap.isEmpty then
      if !menv.canWrite then none
      else
        let dated := !wantsResume || !QMap.contains tMap "eventDate"
        let tournament := if dated then { tournament with eventDate := menv.today }
          else tournament
        let tMap := if dated then QMap.insert "eventDate" (.string menv.today) tMap else tMap
        let written : TournamentFileMap :=
          { s.tfMap with
            tournamentSettings := some tMap
            engineSettings := some { s.eMap with engines := some s.eList } }
        some (result tournament (some written))
    else some (result tournament none)

/-- `parseMatch`, from the parsed options on (`parser.parse()` has succeeded and
`options` are the parser's options in command-line order).  `none` is the null
pointer; it also stands for a seed loop that does not end within `menv.qrand`. -/
def parseMatch (env : Env) (menv : MatchEnv) (options : List MatchOption) :
    Option EngineMatch :=
  let options := (takeOption "-debug" options).2
  let options := (takeOption "-ecopgn" options).2
  let tournamentFile := (takeOption "-tournamentfile" options).1.toQString
  let options := (takeOption "-tournamentfile" options).2
  let tournamentFile :=
    if !tournamentFile.isEmpty && !(".json".data.isSuffixOf tournamentFile.data) then
      tournamentFile ++ ".json"
    else tournamentFile
  let opened : Option (Bool × TournamentFileMap × List MatchOption) :=
    if !tournamentFile.isEmpty then
      match menv.file with
      | .missing => some (false, TournamentFileMap.empty, options)
      | .unreadable => none
      | .content tfMap =>
        let wantsResume := (takeOption "-resume" options).1.toBool
        some (wantsResume,
          if wantsResume then tfMap else TournamentFileMap.empty,
          (takeOption "-resume" options).2)
    else some (false, TournamentFileMap.empty, options)
  match opened with
  | none => none
  | some (wantsResume, tfMap, options) =>
    let tMap : QVariantMap := tfMap.tournamentSettings.getD []
    let eMap : EngineSettings := tfMap.engineSettings.getD { engines := none, each := none }
    let usingTournamentFile := wantsResume && !(tMap.isEmpty || eMap.isEmpty)
    let typed := chooseType usingTournamentFile tMap options
    match TournamentFactory.create typed.1 with
    | none => none
    | some kind =>
      match chooseSeed wantsResume typed.2.1 tournamentFile menv.qrand typed.2.2 with
      | none => none
      | some (srand, options) =>
        let seeded := applySeed srand typed.2.1
        let s : ParseState :=
          { tournament := menv.newTournament kind, concurrency := menv.concurrency,
            adjudicator := GameAdjudicator.default, tbPieces := menv.tbPieces,
            tbNoRule50 := false, ratingInterval := menv.ratingInterval,
            tfMap := tfMap, tMap := seeded.2, eMap := eMap, eList := [], engines := [],
            eachOptions := [],
            openingsOption := { name := "", value := .invalid, params := [] },
            bookmodeOption := { name := "", value := .invalid, params := [] },
            wantsPgnFormat := true, wantsJsonFormat := true, stMap := [], engineMap := [] }
        if usingTournamentFile then
          finishMatch env menv wantsResume tournamentFile seeded.1 (hydrate env wantsResume s)
        else
          match applyOptions env options s with
          | none => none
          | some s => finishMatch env menv wantsResume tournamentFile seeded.1 s

/-! ## `main.cpp`: the stages of `parseMatch` -/

/-- The first stage of `parseMatch` (main.cpp 419-466): the options `-debug`, `-ecopgn`,
`-tournamentfile` and, when the file opens, `-resume` are taken; the result is the file
name with its `.json` ending, `wantsResume`, `tfMap` and the options left.  `none` is the
`return 0` for a file that cannot be opened. -/
def openFile (menv : MatchEnv) (options : List MatchOption) :
    Option (String × Bool × TournamentFileMap × List MatchOption) :=
  let options := (takeOption "-debug" options).2
  let options := (takeOption "-ecopgn" options).2
  let tournamentFile := (takeOption "-tournamentfile" options).1.toQString
  let options := (takeOption "-tournamentfile" options).2
  let tournamentFile :=
    if !tournamentFile.isEmpty && !(".json".data.isSuffixOf tournamentFile.data) then
      tournamentFile ++ ".json"
    else tournamentFile
  if !tournamentFile.isEmpty then
    match menv.file with
    | .missing => some (tournamentFile, false, TournamentFileMap.empty, options)
    | .unreadable => none
    | .content tfMap =>
      let wantsResume := (takeOption "-resume" options).1.toBool
      some (tournamentFile, wantsResume,
        if wantsResume then tfMap else TournamentFileMap.empty,
        (takeOption "-resume" options).2)
  else some (tournamentFile, false, TournamentFileMap.empty, options)

/-- `usingTournamentFile` (main.cpp 456-464): the run resumes and the file gave both
tournament settings and engine settings. -/
def usingTournamentFile (wantsResume : Bool) (tfMap : TournamentFileMap) : Bool :=
  wantsResume && !((tfMap.tournamentSettings.getD []).isEmpty
    || (tfMap.engineSettings.getD { engines := none, each := none }).isEmpty)

/-- The state `parseMatch` starts the hydration or the command-line loop from. -/
def initialState (menv : MatchEnv) (kind : TournamentKind) (tfMap : TournamentFileMap)
    (tMap : QVariantMap) : ParseState :=
  { tournament := menv.newTournament kind, concurrency := menv.concurrency,
    adjudicator := GameAdjudicator.default, tbPieces := menv.tbPieces,
    tbNoRule50 := false, ratingInterval := menv.ratingInterval,
    tfMap := tfMap, tMap := tMap,
    eMap := tfMap.engineSettings.getD { engines := none, each := none },
    eList := [], engines := [], eachOptions := [],
    openingsOption := { name := "", value := .invalid, params := [] },
    bookmodeOption := { name := "", value := .invalid, params := [] },
    wantsPgnFormat := true, wantsJsonFormat := true, stMap := [], engineMap := [] }

/-- `parseMatch` after its first stage (main.cpp 468-1186). -/
def parseMatchFrom (env : Env) (menv : MatchEnv) (tournamentFile : String)
    (wantsResume : Bool) (tfMap : TournamentFileMap) (options : List MatchOption) :
    Option EngineMatch :=
  let typed := chooseType (usingTournamentFile wantsResume tfMap)
    (tfMap.tournamentSettings.getD []) options
  match TournamentFactory.create typed.1 with
  | none => none
  | some kind =>
    match chooseSeed wantsResume typed.2.1 tournamentFile menv.qrand typed.2.2 with
    | none => none
    | some (srand, options) =>
      let s := initialState menv kind tfMap (applySeed srand typed.2.1).2
      if usingTournamentFile wantsResume tfMap then
        finishMatch env menv wantsResume tournamentFile (applySeed srand typed.2.1).1
          (hydrate env wantsResume s)
      else
        match applyOptions env options s with
        | none => none
        | some s =>
          finishMatch env menv wantsResume tournamentFile (applySeed srand typed.2.1).1 s

/-- The roster after the `-each` arguments (main.cpp 1087-1096), with the flag `ok`. -/
def eachStage (env : Env) (s : ParseState) : Bool × List EngineData :=
  if !s.eachOptions.isEmpty then applyEach env s.eachOptions s.engines
  else (true, s.engines)

/-- The opening-suite block (main.cpp 1128-1136): `ok`, the tournament and `tMap`. -/
def openingsStage (menv : MatchEnv) (s : ParseState) (ok : Bool) (tournament : Tournament) :
    Bool × Tournament × QVariantMap :=
  if !s.openingsOption.name.isEmpty then
    match parseOpenings menv s.openingsOption tournament with
    | (some suite, t) =>
      (ok, { t with openingSuite := some suite },
        QMap.insert "openings" s.openingsOption.value s.tMap)
    | (none, t) => (false, t, s.tMap)
  else (ok, tournament, s.tMap)

/-- The book-mode block (main.cpp 1138-1146): `ok` and the mode given to `setBookMode`. -/
def bookStage (s : ParseState) (ok : Bool) : Bool × Option String :=
  if !s.bookmodeOption.name.isEmpty then
    let val := s.bookmodeOption.value.toQString
    if val = "ram" then (ok, some "ram")
    else if val = "disk" then (ok, some "disk")
    else (false, none)
  else (ok, none)

/-- The match object `parseMatch` returns, for the tournament and the file map given. -/
def matchResult (tournamentFile : String) (seed : Option Nat) (s : ParseState)
    (bookMode : Option String) (t : Tournament) (written : Option TournamentFileMap) :
    EngineMatch :=
  { tournament := { t with adjudicator := s.adjudicator },
    tournamentFile := tournamentFile, concurrency := s.concurrency,
    tbPieces := s.tbPieces, tbNoRule50 := s.tbNoRule50,
    ratingInterval := s.ratingInterval,
    outputFormats := (s.wantsPgnFormat, s.wantsJsonFormat),
    eloKfactor := if QMap.contains s.tMap "eloKfactor" then
      some (QMap.value s.tMap "eloKfactor").toDouble else none,
    bookMode := bookMode, seed := seed, written := written }

/-- The block writing the tournament file (main.cpp 1161-1185). -/
def writeStage (menv : MatchEnv) (wantsResume : Bool) (tournamentFile : String)
    (seed : Option Nat) (s : ParseState) (bookMode : Option String)
    (tournament : Tournament) (tMap : QVariantMap) : Option EngineMatch :=
  if !tournamentFile.isEmpty && !tMap.isEmpty then
    if !menv.canWrite then none
    else
      let dated := !wantsResume || !QMap.contains tMap "eventDate"
      let tournament := if dated then { tournament with eventDate := menv.today }
        else tournament
      let tMap := if dated then QMap.insert "eventDate" (.string menv.today) tMap else tMap
      let written : TournamentFileMap :=
        { s.tfMap with
          tournamentSettings := some tMap
          engineSettings := some { s.eMap with engines := some s.eList } }
      some (matchResult tournamentFile seed s bookMode tournament (some written))
  else some (matchResult tournamentFile seed s bookMode tournament none)

/-! ## Notions used in the statements -/

/-- The (name, value) pairs of the options of a configuration. -/
def optionPairs (c : EngineConfiguration) : List (String × QVariant) :=
  c.m_options.map (fun o => (o.name, o.value))

/-- What one option of `other` has to meet in the loop of `operator==`: the first option
of its name among `mine` has its value. -/
def optionMatched (mine : List EngineOption) (oop : EngineOption) : Prop :=
  ∃ op, mine.find? (fun op => oop.name == op.name) = some op ∧ oop.value = op.value

/-- Keys strictly increasing: the shape a `QMap` keeps. -/
def QMap.Sorted {V : Type} (m : QMap V) : Prop :=
  List.Pairwise (fun a b => a.1 < b.1) m

/-- Sum of the scores stored in a score map. -/
def totalScore (m : QVariantMap) : Int := (m.map (fun kv => kv.2.toInt)).sum

/-- A score map as the replay keeps it: sorted keys, every value an `int` in `[0, B]`. -/
def ScoreMap (m : QVariantMap) (B : Int) : Prop :=
  QMap.Sorted m ∧ ∀ x ∈ m, ∃ i : Int, x.2 = QVar.int i ∧ 0 ≤ i ∧ i ≤ B

/-- The entries replayed with `addResumeScore`, in order, into an empty score map. -/
def replayScores (L : List MatchProgressEntry) : QVariantMap :=
  L.foldl (fun m e => addResumeScore e.result e.white e.black m) []

/-- Engine `n` won the entry: `1-0` as white or `0-1` as black. -/
def wonBy (n : String) (e : MatchProgressEntry) : Bool :=
  (e.result == "1-0" && e.white == n) || (e.result == "0-1" && e.black == n)

/-- Engine `n` is the white side of a drawn entry. -/
def drewAsWhite (n : String) (e : MatchProgressEntry) : Bool :=
  e.result == "1/2-1/2" && e.white == n

/-- Engine `n` is the black side of a drawn entry. -/
def drewAsBlack (n : String) (e : MatchProgressEntry) : Bool :=
  e.result == "1/2-1/2" && e.black == n

/-- The result of the entry is `1-0`, `0-1` or `1/2-1/2`. -/
def isDecisive (e : MatchProgressEntry) : Bool :=
  e.result == "1-0" || e.result == "0-1" || e.result == "1/2-1/2"

/-- The points one entry gives engine `n`. -/
def entryPoints (n : String) (e : MatchProgressEntry) : Int :=
  if e.result = "1-0" then (if e.white = n then 2 else 0)
  else if e.result = "0-1" then (if e.black = n then 2 else 0)
  else if e.result = "1/2-1/2" then
    (if e.black = n then 1 else 0) + (if e.white = n then 1 else 0)
  else 0

/-- The points one entry gives in all. -/
def entryTotal (e : MatchProgressEntry) : Int :=
  if e.result = "1-0" ∨ e.result = "0-1" ∨ e.result = "1/2-1/2" then 2 else 0

/-- Index of the first entry whose result is `*`; the length of the list without one. -/
def firstUnfinished (L : List MatchProgressEntry) : Nat :=
  L.findIdx (fun e => e.result == "*")

/-- The seed the tournament file gives on resume (0 when it gives none). -/
def fileSeed (wantsResume : Bool) (tMap : QVariantMap) : Nat :=
  if wantsResume then
    if QMap.contains tMap "srand" then (QMap.value tMap "srand").toUInt else 0
  else 0

/-- The test an engine passes to become a player: a valid time control, a command and a
protocol. -/
def playable (env : Env) (e : EngineData) : Bool :=
  env.tcIsValid e.tc && !e.config.m_command.isEmpty && !e.config.m_protocol.isEmpty

/-- The player `addPlayer` is given for an engine. -/
def toPlayer (e : EngineData) : Player :=
  { config := e.config, tc := e.tc, book := e.book, bookDepth := e.bookDepth }

/-- The keys `parseEngine` knows, apart from those starting with `option.`. -/
def knownKeys : List String :=
  ["conf", "name", "cmd", "dir", "arg", "proto", "initstr", "restart", "trust", "tc", "st",
   "timemargin", "book", "bookdepth", "whitepov", "depth", "nodes", "ponder", "cuteseal",
   "stderr"]

/-- The key of an engine argument is recognised. -/
def recognised (name : String) : Bool :=
  knownKeys.contains name || qStartsWith name "option."

/-- The engine data both loops start `parseEngine` from: a default configuration, no
time control, no book, book depth 1000. -/
def freshEngine : EngineData :=
  { config := EngineConfiguration.default, tc := TimeControl.default, book := "",
    bookDepth := 1000 }

/-- The argument lists of the `-engine` options, in command-line order. -/
def engineLists (options : List MatchOption) : List (List String) :=
  (options.filter (fun o => o.name = "-engine")).map (fun o => o.value.toStringList)

/-- The argument list of the last `-each` option, if there is one. -/
def eachList : List MatchOption → Option (List String)
  | [] => none
  | o :: rest =>
    match eachList rest with
    | some l => some l
    | none => if o.name = "-each" then some o.value.toStringList else none

/-- One `-engine` option met by the command-line loop: the engine its arguments give
joins the roster unless an engine of that name is there already. -/
def rosterStep (env : Env) (engines : List EngineData) (args : List String) :
    List EngineData :=
  if (parseEngine env [] [] args freshEngine).1
      && !(engines.any (fun e => e.eq (parseEngine env [] [] args freshEngine).2)) then
    engines ++ [(parseEngine env [] [] args freshEngine).2]
  else engines

/-- The roster the `-engine` options of a command line yield: one engine per name, in
the order of first appearance. -/
def cliRoster (env : Env) (options : List MatchOption) : List EngineData :=
  (engineLists options).foldl (rosterStep env) []

/-- The value of `wantsResume` once the tournament file is opened. -/
def resumeWanted (menv : MatchEnv) (options : List MatchOption) : Bool :=
  match openFile menv options with
  | some (_, wantsResume, _, _) => wantsResume
  | none => false

/-- The run takes the branch that hydrates from the tournament file. -/
def resumes (menv : MatchEnv) (options : List MatchOption) : Bool :=
  match openFile menv options with
  | some (_, wantsResume, tfMap, _) => usingTournamentFile wantsResume tfMap
  | none => false

/-- The `engineSettings` entry of the tournament file as it is on disk. -/
def fileEngineSettings (menv : MatchEnv) : Option EngineSettings :=
  match menv.file with
  | .content tfMap => tfMap.engineSettings
  | _ => none

/-- Two options called "x", with values "1" and "2". -/
def cfgTwoX : EngineConfiguration :=
  { EngineConfiguration.default with
    m_options := [EngineTextOption "x" (.string "1") (.string "1"),
                  EngineTextOption "x" (.string "2") (.string "2")] }

/-- One option "x" with value "1". -/
def cfgOneX : EngineConfiguration :=
  { EngineConfiguration.default with
    m_options := [EngineTextOption "x" (.string "1") (.string "1")] }

/-- Four recorded games between A and B, the last one unfinished. -/
def progressSample : List MatchProgressEntry :=
  [{ white := "A", black := "B", result := "1-0", terminationDetails := "" },
   { white := "B", black := "A", result := "1/2-1/2", terminationDetails := "" },
   { white := "A", black := "B", result := "0-1", terminationDetails := "" },
   { white := "B", black := "A", result := "*", terminationDetails := "" }]

/-- Character-list worker of `splitBar`; `cur` is the reversed current field. -/
def splitBarAux : List Char → List Char → List String
  | [], cur => [String.mk cur.reverse]
  | c :: rest, cur =>
    if c = '|' then String.mk cur.reverse :: splitBarAux rest []
    else splitBarAux rest (c :: cur)

/-- The fields of a pattern between its `|` separators. -/
def splitBar (s : String) : List String := splitBarAux s.data []

/-- The defaults of a pattern: every field `key=value` with a value gives an entry. -/
def patternDefaults : List String → QMap String
  | [] => []
  | arg :: rest =>
    if (sectionTail '=' arg).isEmpty then patternDefaults rest
    else QMap.insert (sectionHead '=' arg) (sectionTail '=' arg) (patternDefaults rest)

/-- The `key=value` items of an option laid over `map`; `none` at the first item without
a key, without a value or with a key the pattern does not name. -/
def layItems (keys : List String) : List String → QMap String → Option (QMap String)
  | [], map => some map
  | item :: rest, map =>
    if (sectionHead '=' item).isEmpty ∨ (sectionTail '=' item).isEmpty
        ∨ ¬ (sectionHead '=' item) ∈ keys then none
    else layItems keys rest (QMap.insert (sectionHead '=' item) (sectionTail '=' item) map)

/-- A map for `option.toMap(validArgs)`: empty unless the value is a list of valid
`key=value` items, which are then laid over the defaults of the pattern. -/
def sampleToMap (validArgs : String) (value : QVariant) : QMap String :=
  match value with
  | .stringList items =>
    (layItems ((splitBar validArgs).map (sectionHead '='))
      items (patternDefaults (splitBar validArgs))).getD []
  | _ => []

/-- An environment with one configured engine "A", protocols uci and xboard, a time
control parser that reads 40 moves in 60 s, tablebases that load, the doubles of the
texts "0", "5" and "0.05", and `sampleToMap` for the maps of restored options. -/
def sampleEnv : Env :=
  { engines := [{ EngineConfiguration.default with
      m_name := "A", m_command := "a", m_protocol := "uci" }]
    protocols := ["uci", "xboard"]
    variants := ["standard"]
    tcFromString := fun _ => { TimeControl.default with timePerTc := 60000, movesPerTc := 40 }
    tcIsValid := fun tc => decide (tc.timePerTc > 0)
    searchTime := fun _ => none
    tbInitialize := fun _ => true
    toDouble := fun s =>
      if s = "0" then some { bits := 0 }
      else if s = "5" then some { bits := 4617315517961601024 }
      else if s = "0.05" then some { bits := 4587366580439587226 }
      else none
    kfactorInRange := fun _ => false
    toMap := sampleToMap }

/-- A tournament as constructed: one game per encounter, sides swapped, nothing else. -/
def sampleTournament (kind : TournamentKind) : Tournament :=
  { kind := kind, canSetRoundMultiplier := true, gamesPerEncounter := 1,
    roundMultiplier := 1, startDelay := 0, name := "", site := "", eventDate := "",
    variant := "standard", recoveryMode := false, pgnOutput := "",
    pgnOutMode := PgnMode.Verbose, pgnWriteUnfinishedGames := true, livePgnOutput := "",
    livePgnOutMode := PgnMode.Verbose, livePgnFormat := true, liveJsonFormat := true,
    strikes := 0, epdOutput := "", pgnCleanupEnabled := true, openingRepetitions := 1,
    swapSides := true, bergerSchedule := false, reloadEngines := false, seedCount := 0,
    sprt := none, openingDepth := 1024, openingSuite := none, resumeResults := [],
    resume := 0, players := [], adjudicator := GameAdjudicator.default }

/-- The surroundings of a run whose tournament file is in state `file`. -/
def sampleMatchEnv (file : TournamentFileState) : MatchEnv :=
  { newTournament := sampleTournament, concurrency := 1, tbPieces := 0, ratingInterval := 0,
    suiteInitialize := fun _ => true, file := file, canWrite := true,
    today := "2024.01.01", qrand := [7] }

/-- A parsed option without `key=value` parameters. -/
def opt (name : String) (value : QVariant) : MatchOption :=
  { name := name, value := value, params := [] }

/-- `-tournamentfile t.json`, engines A and B, then
`-seeds 4 -ratinginterval 10 -sprt elo0=0 elo1=5 alpha=0.05 beta=0.05 -tcecadj`. -/
def settingsRun : List MatchOption :=
  [opt "-tournamentfile" (.string "t.json"),
   opt "-engine" (.stringList ["name=A", "cmd=a", "proto=uci", "tc=40/60"]),
   opt "-engine" (.stringList ["name=B", "cmd=b", "proto=uci", "tc=40/60"]),
   opt "-seeds" (.uint 4),
   opt "-ratinginterval" (.int 10),
   { name := "-sprt", value := .stringList ["elo0=0", "elo1=5", "alpha=0.05", "beta=0.05"],
     params := [("alpha", "0.05"), ("beta", "0.05"), ("elo0", "0"), ("elo1", "5")] },
   opt "-tcecadj" (.bool true)]

/-- `-tournamentfile t.json`, engines A and B, then `-tbdrawonly -tb /syzygy`. -/
def tablebaseRun : List MatchOption :=
  [opt "-tournamentfile" (.string "t.json"),
   opt "-engine" (.stringList ["name=A", "cmd=a", "proto=uci", "tc=40/60"]),
   opt "-engine" (.stringList ["name=B", "cmd=b", "proto=uci", "tc=40/60"]),
   opt "-tbdrawonly" (.bool true),
   opt "-tb" (.string "/syzygy")]

/-- `-tournamentfile t.json -resume`. -/
def resumeRun : List MatchOption :=
  [opt "-tournamentfile" (.string "t.json"), opt "-resume" (.bool true)]

/-- The match of a first run of `options` with no tournament file on disk. -/
def firstMatch (options : List MatchOption) : Option EngineMatch :=
  parseMatch sampleEnv (sampleMatchEnv .missing) options

/-- The match of `resumeRun` on the tournament file that the first run wrote. -/
def resumedMatch (options : List MatchOption) : Option EngineMatch :=
  match firstMatch options with
  | some m =>
    match m.written with
    | some w => parseMatch sampleEnv (sampleMatchEnv (.content w)) resumeRun
    | none => none
  | none => none

/-- `-tournamentfile t.json`, engines A and B, then `-openings file=book.pgn`. -/
def openingsRun : List MatchOption :=
  [opt "-tournamentfile" (.string "t.json"),
   opt "-engine" (.stringList ["name=A", "cmd=a", "proto=uci", "tc=40/60"]),
   opt "-engine" (.stringList ["name=B", "cmd=b", "proto=uci", "tc=40/60"]),
   { name := "-openings", value := .stringList ["file=book.pgn"],
     params := sampleToMap openingsPattern (.stringList ["file=book.pgn"]) }]

/-- A tournament file without tournament settings whose engine settings hold an `each`
entry only. -/
def staleEachFile : TournamentFileMap :=
  { tournamentSettings := none
    engineSettings := some { engines := none, each := some ["ponder"] }
    matchProgress := none
    strikes := none }

/-- `-tournamentfile t.json -resume`, then engines A and B, and no `-each`. -/
def staleRun : List MatchOption :=
  [opt "-tournamentfile" (.string "t.json"), opt "-resume" (.bool true),
   opt "-engine" (.stringList ["name=A", "cmd=a", "proto=uci", "tc=40/60"]),
   opt "-engine" (.stringList ["name=B", "cmd=b", "proto=uci", "tc=40/60"])]

/-- The match of `staleRun` on the tournament file `staleEachFile`. -/
def staleMatch : Option EngineMatch :=
  parseMatch sampleEnv (sampleMatchEnv (.content staleEachFile)) staleRun

/-- The match of `resumeRun` on the tournament file that `staleMatch` wrote. -/
def staleResumed : Option EngineMatch :=
  match staleMatch with
  | some m =>
    match m.written with
    | some w => parseMatch sampleEnv (sampleMatchEnv (.content w)) resumeRun
    | none => none
  | none => none

/-- `-tournamentfile t.json`, engines A and B, then `-bookmode ram`. -/
def bookmodeRun : List MatchOption :=
  [opt "-tournamentfile" (.string "t.json"),
   opt "-engine" (.stringList ["name=A", "cmd=a", "proto=uci", "tc=40/60"]),
   opt "-engine" (.stringList ["name=B", "cmd=b", "proto=uci", "tc=40/60"]),
   opt "-bookmode" (.string "ram")]

/-- `-tournamentfile t.json`, then three `-engine` options naming A, A and B. -/
def duplicateRun : List MatchOption :=
  [opt "-tournamentfile" (.string "t.json"),
   opt "-engine" (.stringList ["name=A", "cmd=a", "proto=uci", "tc=40/60"]),
   opt "-engine" (.stringList ["name=A", "cmd=a2", "proto=uci", "tc=40/60"]),
   opt "-engine" (.stringList ["name=B", "cmd=b", "proto=uci", "tc=40/60"])]

/-- A tournament file with two engines whose `type` entry is the empty text. -/
def emptyTypeFile : TournamentFileMap :=
  { tournamentSettings := some [("srand", .uint 7), ("type", .string "")]
    engineSettings := some
      { engines := some [["name=A", "cmd=a", "proto=uci", "tc=40/60"],
                         ["name=B", "cmd=b", "proto=uci", "tc=40/60"]]
        each := none }
    matchProgress := none
    strikes := none }

/-- `-tournamentfile t.json -resume -tournament gauntlet`. -/
def gauntletResumeRun : List MatchOption :=
  [opt "-tournamentfile" (.string "t.json"), opt "-resume" (.bool true),
   opt "-tournament" (.string "gauntlet")]

/-- Engines A and B, B without a command, then C. -/
def noCommandRun : List MatchOption :=
  [opt "-engine" (.stringList ["name=A", "cmd=a", "proto=uci", "tc=40/60"]),
   opt "-engine" (.stringList ["name=B", "proto=uci", "tc=40/60"]),
   opt "-engine" (.stringList ["name=C", "cmd=c", "proto=uci", "tc=40/60"])]

/-- Two `-engine` options that both name their engine A. -/
def sameNameRun : List MatchOption :=
  [opt "-engine" (.stringList ["name=A", "cmd=a", "proto=uci", "tc=40/60"]),
   opt "-engine" (.stringList ["name=A", "cmd=a2", "proto=uci", "tc=40/60"])]

/-- An option codec for the samples: an option goes to the list of its name and the text
of its value, and such a list comes back as a text option. -/
def sampleCodec : OptionCodec :=
  { toVariant := fun o => .stringList [o.name, o.value.toQString]
    create := fun v =>
      match v.toStringList with
      | [name, text] => some (EngineTextOption name (.string text) (.string text))
      | _ => none }

/-- Engine A with the command-line argument `-x` and no options. -/
def cfgArgs : EngineConfiguration :=
  { EngineConfiguration.default with
    m_name := "A", m_command := "a", m_protocol := "uci", m_arguments := ["-x"] }

/-- Engine A without arguments and options, pondering, restart mode on, rating 2800. -/
def cfgPlain : EngineConfiguration :=
  { EngineConfiguration.default with
    m_name := "A", m_command := "a", m_protocol := "uci", m_initStrings := ["go"],
    m_pondering := true, m_restartMode := .RestartOn, m_rating := 2800 }

/-! ## Properties -/

/-! ### `TournamentFactory::create` -/

/-- C2: `TournamentFactory::create` returns a tournament exactly for the five type names
`round-robin`, `gauntlet`, `knockout`, `pyramid` and `swiss-tcec`, of the round-robin,
gauntlet, knockout, pyramid and Swiss kind in that order; any other string, the empty
one and one in another letter case included, gives the null pointer. -/
theorem create_iff (type : String) :
    (TournamentFactory.create type ≠ none ↔
        type ∈ ["round-robin", "gauntlet", "knockout", "pyramid", "swiss-tcec"])
      ∧ TournamentFactory.create "round-robin" = some TournamentKind.roundRobin
      ∧ TournamentFactory.create "gauntlet" = some TournamentKind.gauntlet
      ∧ TournamentFactory.create "knockout" = some TournamentKind.knockout
      ∧ TournamentFactory.create "pyramid" = some TournamentKind.pyramid
      ∧ TournamentFactory.create "swiss-tcec" = some TournamentKind.swiss
      ∧ TournamentFactory.create "" = none
      ∧ TournamentFactory.create "Round-Robin" = none := by
  refine ⟨?_, by decide, by decide, by decide, by decide, by decide, by decide, by decide⟩
  unfold TournamentFactory.create
  simp only [List.mem_cons, List.mem_singleton, List.not_mem_nil, or_false]
  split_ifs <;> simp_all

/-! ### `EngineConfiguration::operator==` -/

theorem equivalent_iff (l1 l2 : List String) :
    equivalent l1 l2 = true ↔ ∀ s, s ∈ l1 ↔ s ∈ l2 := by
  simp only [equivalent, Bool.and_eq_true, List.all_eq_true, List.contains_eq_any_beq,
    List.any_eq_true, beq_iff_eq, exists_eq_right']
  constructor
  · rintro ⟨h1, h2⟩ s
    exact ⟨h1 s, h2 s⟩
  · intro h
    exact ⟨fun s hs => (h s).1 hs, fun s hs => (h s).2 hs⟩

theorem mem_qset_insert (s : List String) (x n : String) :
    n ∈ QSet.insert s x ↔ n ∈ s ∨ n = x := by
  unfold QSet.insert
  split
  · rename_i h
    have hx : x ∈ s := by simpa using h
    constructor
    · exact Or.inl
    · rintro (h | h)
      · exact h
      · exact h ▸ hx
  · simp

theorem mem_qset_remove (s : List String) (x n : String) :
    n ∈ QSet.remove s x ↔ n ∈ s ∧ n ≠ x := by
  simp [QSet.remove]

theorem mem_names_foldl (l : List EngineOption) (init : List String) (n : String) :
    n ∈ l.foldl (fun names op => QSet.insert names op.name) init ↔
      n ∈ init ∨ ∃ op ∈ l, op.name = n := by
  induction l generalizing init with
  | nil => simp
  | cons o rest ih =>
    simp only [List.foldl_cons, ih, mem_qset_insert, List.mem_cons, exists_eq_or_imp]
    constructor
    · rintro ((h | h) | h)
      · exact Or.inl h
      · exact Or.inr (Or.inl h.symm)
      · exact Or.inr (Or.inr h)
    · rintro (h | h | h)
      · exact Or.inl (Or.inl h)
      · exact Or.inl (Or.inr h.symm)
      · exact Or.inr h

theorem optionsLoop_some (mine other : List EngineOption) (names r : List String)
    (h : optionsLoop mine other names = some r) :
    (∀ oop ∈ other, optionMatched mine oop) ∧
      ∀ n, n ∈ r ↔ n ∈ names ∧ ∀ o ∈ other, o.name ≠ n := by
  induction other generalizing names with
  | nil =>
    simp only [optionsLoop, Option.some.injEq] at h
    subst h
    simp
  | cons oop rest ih =>
    unfold optionsLoop at h
    split at h
    · rename_i op hfind
      split at h
      · rename_i hval
        obtain ⟨h1, h2⟩ := ih _ h
        have hname : oop.name = op.name := by
          have := List.find?_some hfind
          simpa using this
        refine ⟨?_, ?_⟩
        · intro o ho
          rcases List.mem_cons.1 ho with rfl | ho
          · exact ⟨op, hfind, hval⟩
          · exact h1 o ho
        · intro n
          rw [h2 n, mem_qset_remove]
          simp only [List.mem_cons, forall_eq_or_imp, hname]
          constructor
          · rintro ⟨⟨a, b⟩, c⟩
            exact ⟨a, fun e => b e.symm, c⟩
          · rintro ⟨a, b, c⟩
            exact ⟨⟨a, fun e => b e.symm⟩, c⟩
      · exact absurd h (by simp)
    · exact absurd h (by simp)

theorem optionsLoop_isSome (mine other : List EngineOption) (names : List String)
    (h : ∀ oop ∈ other, optionMatched mine oop) :
    ∃ r, optionsLoop mine other names = some r := by
  induction other generalizing names with
  | nil => exact ⟨names, rfl⟩
  | cons oop rest ih =>
    obtain ⟨op, hfind, hval⟩ := h oop (List.mem_cons_self _ _)
    unfold optionsLoop
    rw [hfind]
    simp only [hval, if_true]
    exact ih _ (fun o ho => h o (List.mem_cons_of_mem _ ho))

theorem optionMatched_iff (mine : List EngineOption)
    (hnd : (mine.map (fun o => o.name)).Nodup) (oop : EngineOption) :
    optionMatched mine oop ↔
      (oop.name, oop.value) ∈ mine.map (fun o => (o.name, o.value)) := by
  constructor
  · rintro ⟨op, hfind, hval⟩
    have hmem := List.mem_of_find?_eq_some hfind
    have hname : oop.name = op.name := by
      have := List.find?_some hfind
      simpa using this
    exact List.mem_map.2 ⟨op, hmem, by rw [hname, hval]⟩
  · intro h
    obtain ⟨op', hmem', heq⟩ := List.mem_map.1 h
    simp only [Prod.mk.injEq] at heq
    cases hf : mine.find? (fun op => oop.name == op.name) with
    | none =>
      have := List.find?_eq_none.1 hf op' hmem'
      simp [heq.1] at this
    | some op =>
      have hmem := List.mem_of_find?_eq_some hf
      have hname : oop.name = op.name := by
        have := List.find?_some hf
        simpa using this
      have : op = op' :=
        List.inj_on_of_nodup_map hnd hmem hmem' (by rw [← hname, heq.1])
      exact ⟨op, hf, by rw [this, heq.2]⟩

theorem eq_true_iff_loop (a b : EngineConfiguration) :
    a.eq b = true ↔
      (a.m_whiteEvalPov = b.m_whiteEvalPov ∧ a.m_pondering = b.m_pondering
        ∧ a.m_validateClaims = b.m_validateClaims ∧ a.m_restartMode = b.m_restartMode
        ∧ a.m_rating = b.m_rating ∧ a.m_name = b.m_name ∧ a.m_command = b.m_command
        ∧ a.m_workingDirectory = b.m_workingDirectory ∧ a.m_stderrFile = b.m_stderrFile
        ∧ a.m_protocol = b.m_protocol ∧ a.m_arguments = b.m_arguments
        ∧ a.m_initStrings = b.m_initStrings)
      ∧ equivalent a.m_variants b.m_variants = true
      ∧ ∃ r, optionsLoop a.m_options b.m_options
          (a.m_options.foldl (fun names op => QSet.insert names op.name) []) = some r
          ∧ r = [] := by
  unfold EngineConfiguration.eq
  split
  · rename_i h
    simp only [Bool.or_eq_true, bne_iff_ne, ne_eq, Bool.not_eq_true', Bool.not_eq_eq_eq_not,
      Bool.not_true] at h
    simp only [Bool.false_eq_true, false_iff]
    rintro ⟨⟨h1, h2, h3, h4, h5, h6, h7, h8, h9, h10, h11, h12⟩, hv, _⟩
    simp [h1, h2, h3, h4, h5, h6, h7, h8, h9, h10, h11, h12, hv] at h
  · rename_i h
    simp only [Bool.or_eq_true, bne_iff_ne, ne_eq, Bool.not_eq_true', Bool.not_eq_eq_eq_not,
      Bool.not_true, not_or, not_not, Bool.not_eq_false] at h
    obtain ⟨⟨⟨⟨⟨⟨⟨⟨⟨⟨⟨⟨h1, h2⟩, h3⟩, h4⟩, h5⟩, h6⟩, h7⟩, h8⟩, h9⟩, h10⟩, h11⟩, h12⟩, hv⟩ := h
    constructor
    · intro hh
      refine ⟨⟨h1, h2, h3, h4, h5, h6, h7, h8, h9, h10, h11, h12⟩, hv, ?_⟩
      split at hh
      · rename_i names hn
        exact ⟨names, hn, by simpa using hh⟩
      · exact absurd hh (by simp)
    · rintro ⟨_, _, r, hr, hr'⟩
      rw [hr, hr']
      rfl

theorem optionsLoop_empty_iff (a b : EngineConfiguration)
    (hnd : (a.m_options.map (fun o => o.name)).Nodup) :
    (∃ r, optionsLoop a.m_options b.m_options
        (a.m_options.foldl (fun names op => QSet.insert names op.name) []) = some r
        ∧ r = []) ↔ (∀ p, p ∈ optionPairs a ↔ p ∈ optionPairs b) := by
  constructor
  · rintro ⟨r, hr, rfl⟩
    obtain ⟨h1, h2⟩ := optionsLoop_some _ _ _ _ hr
    have hsub : ∀ op ∈ a.m_options, ∃ o ∈ b.m_options, o.name = op.name := by
      intro op hop
      by_contra hcon
      push_neg at hcon
      have := (h2 op.name).2 ⟨(mem_names_foldl _ _ _).2 (Or.inr ⟨op, hop, rfl⟩), hcon⟩
      simp at this
    intro p
    constructor
    · intro hp
      obtain ⟨op, hop, rfl⟩ := List.mem_map.1 hp
      obtain ⟨o, ho, hname⟩ := hsub op hop
      have hm := (optionMatched_iff _ hnd o).1 (h1 o ho)
      obtain ⟨op', hop', heq⟩ := List.mem_map.1 hm
      simp only [Prod.mk.injEq] at heq
      have : op' = op := List.inj_on_of_nodup_map hnd hop' hop (by rw [heq.1, hname])
      subst this
      exact List.mem_map.2 ⟨o, ho, by rw [heq.1, heq.2]⟩
    · intro hp
      obtain ⟨o, ho, rfl⟩ := List.mem_map.1 hp
      exact (optionMatched_iff _ hnd o).1 (h1 o ho)
  · intro h
    have hall : ∀ oop ∈ b.m_options, optionMatched a.m_options oop := by
      intro o ho
      exact (optionMatched_iff _ hnd o).2 ((h _).2 (List.mem_map.2 ⟨o, ho, rfl⟩))
    obtain ⟨r, hr⟩ := optionsLoop_isSome a.m_options b.m_options
      (a.m_options.foldl (fun names op => QSet.insert names op.name) []) hall
    refine ⟨r, hr, ?_⟩
    obtain ⟨_, h2⟩ := optionsLoop_some _ _ _ _ hr
    apply List.eq_nil_iff_forall_not_mem.2
    intro n hn
    obtain ⟨hn1, hn2⟩ := (h2 n).1 hn
    rcases (mem_names_foldl _ _ _).1 hn1 with hn1 | ⟨op, hop, rfl⟩
    · simp at hn1
    · have := (h (op.name, op.value)).1 (List.mem_map.2 ⟨op, hop, rfl⟩)
      obtain ⟨o, ho, heq⟩ := List.mem_map.1 this
      simp only [Prod.mk.injEq] at heq
      exact hn2 o ho heq.1

theorem data_lt_iff (a b : String) : a.data < b.data ↔ a < b :=
  String.lt_iff_toList_lt.symm

theorem QMap.find_insert_self {V : Type} (k : String) (v : V) (m : QMap V) :
    QMap.find (QMap.insert k v m) k = some v := by
  induction m with
  | nil => simp [QMap.insert, QMap.find]
  | cons kv rest ih =>
    obtain ⟨k', v'⟩ := kv
    unfold QMap.insert
    split_ifs with h1 h2
    · simp [QMap.find]
    · simp [QMap.find]
    · have : (k' == k) = false := by simpa using fun e => h1 e.symm
      simp only [QMap.find, List.find?_cons, this] at ih ⊢
      exact ih

theorem QMap.find_insert_other {V : Type} (k j : String) (v : V) (m : QMap V) (h : j ≠ k) :
    QMap.find (QMap.insert k v m) j = QMap.find m j := by
  induction m with
  | nil =>
    have : (k == j) = false := by simpa using fun e => h e.symm
    simp [QMap.insert, QMap.find, this]
  | cons kv rest ih =>
    obtain ⟨k', v'⟩ := kv
    have hkj : (k == j) = false := by simpa using fun e => h e.symm
    unfold QMap.insert
    split_ifs with h1 h2
    · subst h1
      simp [QMap.find, List.find?_cons, hkj]
    · simp [QMap.find, List.find?_cons, hkj]
    · simp only [QMap.find, List.find?_cons] at ih ⊢
      cases hk : (k' == j) with
      | true => simp
      | false => simpa using ih

theorem QMap.mem_insert {V : Type} (k : String) (v : V) (m : QMap V) (x : String × V)
    (hx : x ∈ QMap.insert k v m) : x = (k, v) ∨ x ∈ m := by
  induction m with
  | nil =>
    simp only [QMap.insert, List.mem_singleton] at hx
    exact Or.inl hx
  | cons kv rest ih =>
    obtain ⟨k', v'⟩ := kv
    unfold QMap.insert at hx
    split_ifs at hx with h1 h2
    · rcases List.mem_cons.1 hx with h | h
      · exact Or.inl h
      · exact Or.inr (List.mem_cons_of_mem _ h)
    · rcases List.mem_cons.1 hx with h | h
      · exact Or.inl h
      · exact Or.inr h
    · rcases List.mem_cons.1 hx with h | h
      · exact Or.inr (h ▸ List.mem_cons_self _ _)
      · rcases ih h with h | h
        · exact Or.inl h
        · exact Or.inr (List.mem_cons_of_mem _ h)

theorem QMap.sorted_insert {V : Type} (k : String) (v : V) (m : QMap V)
    (hm : QMap.Sorted m) : QMap.Sorted (QMap.insert k v m) := by
  induction m with
  | nil => simp [QMap.insert, QMap.Sorted]
  | cons kv rest ih =>
    obtain ⟨k', v'⟩ := kv
    have hm' := List.pairwise_cons.1 hm
    unfold QMap.insert
    split_ifs with h1 h2
    · subst h1
      exact List.pairwise_cons.2 ⟨hm'.1, hm'.2⟩
    · have hlt : k < k' := (data_lt_iff k k').1 h2
      refine List.pairwise_cons.2 ⟨?_, hm⟩
      intro x hx
      rcases List.mem_cons.1 hx with h | h
      · rw [h]; exact hlt
      · exact lt_trans hlt (hm'.1 x h)
    · have hgt : k' < k := by
        have h3 : ¬ k < k' := fun h => h2 ((data_lt_iff k k').2 h)
        exact lt_of_le_of_ne (not_lt.1 h3) (fun e => h1 e.symm)
      refine List.pairwise_cons.2 ⟨?_, ih hm'.2⟩
      intro x hx
      rcases QMap.mem_insert k v rest x hx with h | h
      · rw [h]; exact hgt
      · exact hm'.1 x h

theorem QMap.find_eq_none_of_lt {V : Type} (k : String) (m : QMap V)
    (h : ∀ x ∈ m, k < x.1) : QMap.find m k = none := by
  simp only [QMap.find, Option.map_eq_none', List.find?_eq_none, beq_iff_eq]
  intro x hx e
  exact absurd (h x hx) (by rw [e]; exact lt_irrefl _)

theorem QMap.keys_nodup {V : Type} (m : QMap V) (hm : QMap.Sorted m) :
    (m.map Prod.fst).Nodup := by
  unfold QMap.Sorted at hm
  rw [List.Nodup, List.pairwise_map]
  exact hm.imp (fun h => ne_of_lt h)

theorem QMap.contains_iff {V : Type} (m : QMap V) (k : String) :
    QMap.contains m k = true ↔ k ∈ m.map Prod.fst := by
  simp [QMap.contains]

theorem QMap.find_eq_none_iff {V : Type} (m : QMap V) (k : String) :
    QMap.find m k = none ↔ k ∉ m.map Prod.fst := by
  simp only [QMap.find, Option.map_eq_none', List.find?_eq_none, beq_iff_eq, List.mem_map,
    not_exists, not_and]

theorem totalScore_insert (k : String) (v : QVariant) (m : QVariantMap)
    (hm : QMap.Sorted m) :
    totalScore (QMap.insert k v m) = totalScore m - (QMap.value m k).toInt + v.toInt := by
  induction m with
  | nil => simp [QMap.insert, totalScore, QMap.value, QMap.find, QVar.toInt]
  | cons kv rest ih =>
    obtain ⟨k', v'⟩ := kv
    have hm' := List.pairwise_cons.1 hm
    unfold QMap.insert
    split_ifs with h1 h2
    · subst h1
      simp only [totalScore, List.map_cons, List.sum_cons, QMap.value, QMap.find,
        List.find?_cons, beq_self_eq_true, Option.map_some', Option.getD_some]
      ring
    · have hlt : k < k' := (data_lt_iff k k').1 h2
      have hnone : QMap.find ((k', v') :: rest) k = none := by
        apply QMap.find_eq_none_of_lt
        intro x hx
        rcases List.mem_cons.1 hx with h | h
        · rw [h]; exact hlt
        · exact lt_trans hlt (hm'.1 x h)
      simp only [totalScore, List.map_cons, List.sum_cons, QMap.value, hnone,
        Option.getD_none, QVar.toInt]
      ring
    · have hk : (k' == k) = false := by simpa using fun e => h1 e.symm
      have hv : QMap.value ((k', v') :: rest) k = QMap.value rest k := by
        simp [QMap.value, QMap.find, List.find?_cons, hk]
      have := ih hm'.2
      simp only [totalScore, List.map_cons, List.sum_cons, hv] at this ⊢
      rw [this]
      ring

theorem getEngineScoreLoop_eq (name : String) (m : QVariantMap) :
    getEngineScoreLoop name m = (QMap.value m name).toInt := by
  induction m with
  | nil => simp [getEngineScoreLoop, QMap.value, QMap.find, QVar.toInt]
  | cons kv rest ih =>
    obtain ⟨k', v'⟩ := kv
    unfold getEngineScoreLoop
    split_ifs with h
    · subst h
      simp [QMap.value, QMap.find]
    · have hk : (k' == name) = false := by simpa using h
      rw [ih]
      simp [QMap.value, QMap.find, List.find?_cons, hk]

theorem getEngineScore_eq (name : String) (m : QVariantMap) :
    getEngineScore m name = (QMap.value m name).toInt := by
  unfold getEngineScore
  split_ifs with h
  · exact getEngineScoreLoop_eq name m
  · have : m = [] := by
      cases m with
      | nil => rfl
      | cons a b => simp at h
    subst this
    simp [QMap.value, QMap.find, QVar.toInt]

theorem addEngineScoreLoop_eq (name : String) (value : Int) (l : List (String × QVariant))
    (hl : (l.map Prod.fst).Nodup) (acc : Bool × QVariantMap) :
    addEngineScoreLoop name value l acc =
      if name ∈ l.map Prod.fst then
        (true, QMap.insert name
          (.int (wrapInt ((QMap.value acc.2 name).toInt + value))) acc.2)
      else acc := by
  induction l generalizing acc with
  | nil => simp [addEngineScoreLoop]
  | cons kv rest ih =>
    obtain ⟨k', v'⟩ := kv
    have hnd : k' ∉ rest.map Prod.fst ∧ (rest.map Prod.fst).Nodup :=
      List.nodup_cons.1 hl
    unfold addEngineScoreLoop
    split_ifs with h1 h2 h3
    · subst h1
      rw [ih hnd.2, if_neg hnd.1]
    · exact absurd (by simp [h1]) h2
    · rw [ih hnd.2]
      have : name ∈ rest.map Prod.fst := by
        simp only [List.map_cons, List.mem_cons] at h3
        rcases h3 with h | h
        · exact absurd h.symm h1
        · exact h
      rw [if_pos this]
    · rw [ih hnd.2]
      have : name ∉ rest.map Prod.fst := by
        intro h
        exact h3 (by simp only [List.map_cons, List.mem_cons]; exact Or.inr h)
      rw [if_neg this]

theorem addEngineScore_eq (m : QVariantMap) (hm : QMap.Sorted m) (name : String)
    (value : Int) :
    addEngineScore m name value =
      QMap.insert name
        (.int (if name ∈ m.map Prod.fst then
          wrapInt ((QMap.value m name).toInt + value) else value)) m := by
  unfold addEngineScore
  by_cases h1 : (m.length != 0) = true
  · rw [if_pos h1]
    simp only [addEngineScoreLoop_eq name value m (QMap.keys_nodup m hm)]
    by_cases h2 : name ∈ m.map Prod.fst
    · simp [h2]
    · simp [h2]
  · rw [if_neg h1]
    have : m = [] := by
      cases m with
      | nil => rfl
      | cons a b => simp at h1
    subst this
    simp


theorem wrapInt_of_range (x : Int) (h0 : 0 ≤ x) (h1 : x < 2147483648) : wrapInt x = x := by
  unfold wrapInt
  omega

theorem ScoreMap.value_bounds {m : QVariantMap} {B : Int} (hm : ScoreMap m B) (hB : 0 ≤ B)
    (n : String) : 0 ≤ (QMap.value m n).toInt ∧ (QMap.value m n).toInt ≤ B := by
  unfold QMap.value
  cases hf : QMap.find m n with
  | none => simpa [QVar.toInt] using hB
  | some v =>
    simp only [QMap.find, Option.map_eq_some'] at hf
    obtain ⟨x, hx, rfl⟩ := hf
    obtain ⟨i, hi, h0, h1⟩ := hm.2 x (List.mem_of_find?_eq_some hx)
    simp only [Option.getD_some, hi, QVar.toInt]
    exact ⟨h0, h1⟩

theorem addEngineScore_insert (m : QVariantMap) (B : Int) (hm : ScoreMap m B) (hB : 0 ≤ B)
    (name : String) (v : Int) (hv : 0 ≤ v) (hBv : B + v < 2147483648) :
    addEngineScore m name v =
      QMap.insert name (.int ((QMap.value m name).toInt + v)) m := by
  rw [addEngineScore_eq m hm.1]
  have hb := hm.value_bounds hB name
  split_ifs with h
  · rw [wrapInt_of_range _ (by omega) (by omega)]
  · have : QMap.find m name = none := (QMap.find_eq_none_iff m name).2 h
    simp [QMap.value, this, QVar.toInt]

theorem addEngineScore_step (m : QVariantMap) (B : Int) (hm : ScoreMap m B) (hB : 0 ≤ B)
    (name : String) (v : Int) (hv : 0 ≤ v) (hBv : B + v < 2147483648) :
    ScoreMap (addEngineScore m name v) (B + v)
      ∧ (∀ n, getEngineScore (addEngineScore m name v) n =
          getEngineScore m n + if name = n then v else 0)
      ∧ totalScore (addEngineScore m name v) = totalScore m + v := by
  rw [addEngineScore_insert m B hm hB name v hv hBv]
  have hb := hm.value_bounds hB name
  refine ⟨⟨QMap.sorted_insert _ _ _ hm.1, ?_⟩, ?_, ?_⟩
  · intro x hx
    rcases QMap.mem_insert _ _ _ _ hx with h | h
    · exact ⟨_, by rw [h], by omega, by omega⟩
    · obtain ⟨i, hi, h0, h1⟩ := hm.2 x h
      exact ⟨i, hi, h0, by omega⟩
  · intro n
    rw [getEngineScore_eq, getEngineScore_eq]
    by_cases hn : n = name
    · subst hn
      simp [QMap.value, QMap.find_insert_self, QVar.toInt]
    · have hn' : ¬ name = n := fun h => hn h.symm
      simp [QMap.value, QMap.find_insert_other _ _ _ _ hn, hn']
  · rw [totalScore_insert _ _ _ hm.1]
    simp only [QVar.toInt]
    ring

theorem addResumeScore_step (m : QVariantMap) (B : Int) (hm : ScoreMap m B) (hB : 0 ≤ B)
    (e : MatchProgressEntry) (hBv : B + 2 < 2147483648) :
    ScoreMap (addResumeScore e.result e.white e.black m) (B + 2)
      ∧ (∀ n, getEngineScore (addResumeScore e.result e.white e.black m) n =
          getEngineScore m n + entryPoints n e)
      ∧ totalScore (addResumeScore e.result e.white e.black m) =
          totalScore m + entryTotal e := by
  have mono : ∀ {m' : QVariantMap} {B' : Int}, ScoreMap m' B' → B' ≤ B + 2 →
      ScoreMap m' (B + 2) := by
    intro m' B' h hle
    refine ⟨h.1, fun x hx => ?_⟩
    obtain ⟨i, hi, h0, h1⟩ := h.2 x hx
    exact ⟨i, hi, h0, by omega⟩
  by_cases h1 : e.result = "1-0"
  · have e1 : addResumeScore e.result e.white e.black m = addEngineScore m e.white 2 := by
      unfold addResumeScore; rw [if_pos h1]
    have e2 : ∀ n, entryPoints n e = if e.white = n then 2 else 0 := by
      intro n; unfold entryPoints; rw [if_pos h1]
    have e3 : entryTotal e = 2 := by
      unfold entryTotal; rw [if_pos (Or.inl h1)]
    rw [e1, e3]
    simp only [e2]
    exact addEngineScore_step m B hm hB e.white 2 (by omega) (by omega)
  · by_cases h2 : e.result = "0-1"
    · have e1 : addResumeScore e.result e.white e.black m = addEngineScore m e.black 2 := by
        unfold addResumeScore; rw [if_neg h1, if_pos h2]
      have e2 : ∀ n, entryPoints n e = if e.black = n then 2 else 0 := by
        intro n; unfold entryPoints; rw [if_neg h1, if_pos h2]
      have e3 : entryTotal e = 2 := by
        unfold entryTotal; rw [if_pos (Or.inr (Or.inl h2))]
      rw [e1, e3]
      simp only [e2]
      exact addEngineScore_step m B hm hB e.black 2 (by omega) (by omega)
    · by_cases h3 : e.result = "1/2-1/2"
      · have e1 : addResumeScore e.result e.white e.black m =
            addEngineScore (addEngineScore m e.black 1) e.white 1 := by
          unfold addResumeScore; rw [if_neg h1, if_neg h2, if_pos h3]
        have e2 : ∀ n, entryPoints n e =
            (if e.black = n then 1 else 0) + (if e.white = n then 1 else 0) := by
          intro n; unfold entryPoints; rw [if_neg h1, if_neg h2, if_pos h3]
        have e3 : entryTotal e = 2 := by
          unfold entryTotal; rw [if_pos (Or.inr (Or.inr h3))]
        obtain ⟨a, b, c⟩ := addEngineScore_step m B hm hB e.black 1 (by omega) (by omega)
        obtain ⟨a', b', c'⟩ := addEngineScore_step _ (B + 1) a (by omega) e.white 1
          (by omega) (by omega)
        rw [e1, e3]
        simp only [e2]
        refine ⟨mono a' (by omega), ?_, ?_⟩
        · intro n
          rw [b' n, b n]
          ring
        · rw [c', c]
          ring
      · have e1 : addResumeScore e.result e.white e.black m = m := by
          unfold addResumeScore; rw [if_neg h1, if_neg h2, if_neg h3]
        have e2 : ∀ n, entryPoints n e = 0 := by
          intro n; unfold entryPoints; rw [if_neg h1, if_neg h2, if_neg h3]
        have e3 : entryTotal e = 0 := by
          unfold entryTotal
          rw [if_neg]
          rintro (h | h | h)
          · exact h1 h
          · exact h2 h
          · exact h3 h
        rw [e1, e3]
        simp only [e2, add_zero]
        exact ⟨mono hm (by omega), fun _ => trivial, trivial⟩


theorem replay_fold (L : List MatchProgressEntry) (m : QVariantMap) (B : Int)
    (hm : ScoreMap m B) (hB : 0 ≤ B) (hL : B + 2 * (L.length : Int) < 2147483648) :
    (∀ n, getEngineScore
        (L.foldl (fun m e => addResumeScore e.result e.white e.black m) m) n =
        getEngineScore m n + (L.map (entryPoints n)).sum)
      ∧ totalScore (L.foldl (fun m e => addResumeScore e.result e.white e.black m) m) =
        totalScore m + (L.map entryTotal).sum := by
  induction L generalizing m B with
  | nil => simp
  | cons e rest ih =>
    simp only [List.length_cons, Nat.cast_add, Nat.cast_one] at hL
    obtain ⟨a, b, c⟩ := addResumeScore_step m B hm hB e (by omega)
    obtain ⟨ih1, ih2⟩ := ih _ (B + 2) a (by omega) (by omega)
    simp only [List.foldl_cons, List.map_cons, List.sum_cons]
    refine ⟨fun n => ?_, ?_⟩
    · rw [ih1 n, b n]; ring
    · rw [ih2, c]; ring

theorem entryPoints_eq (n : String) (e : MatchProgressEntry) :
    entryPoints n e = 2 * (if wonBy n e = true then 1 else 0)
      + (if drewAsWhite n e = true then 1 else 0)
      + (if drewAsBlack n e = true then 1 else 0) := by
  unfold entryPoints wonBy drewAsWhite drewAsBlack
  by_cases h1 : e.result = "1-0" <;> by_cases h2 : e.result = "0-1"
    <;> by_cases h3 : e.result = "1/2-1/2"
    <;> by_cases hw : e.white = n <;> by_cases hb : e.black = n
    <;> simp_all

theorem entryTotal_eq (e : MatchProgressEntry) :
    entryTotal e = 2 * (if isDecisive e = true then 1 else 0) := by
  unfold entryTotal isDecisive
  by_cases h1 : e.result = "1-0" <;> by_cases h2 : e.result = "0-1"
    <;> by_cases h3 : e.result = "1/2-1/2" <;> simp_all

theorem scoreMap_nil : ScoreMap [] 0 := by
  refine ⟨List.Pairwise.nil, ?_⟩
  intro x hx
  simp at hx

theorem sum_entryPoints (n : String) (L : List MatchProgressEntry) :
    (L.map (entryPoints n)).sum =
      2 * (L.countP (wonBy n) : Int) + (L.countP (drewAsWhite n) : Int)
        + (L.countP (drewAsBlack n) : Int) := by
  induction L with
  | nil => simp
  | cons e rest ih =>
    simp only [List.map_cons, List.sum_cons, ih, entryPoints_eq, List.countP_cons]
    split_ifs <;> push_cast <;> ring

theorem sum_entryTotal (L : List MatchProgressEntry) :
    (L.map entryTotal).sum = 2 * (L.countP isDecisive : Int) := by
  induction L with
  | nil => simp
  | cons e rest ih =>
    simp only [List.map_cons, List.sum_cons, ih, entryTotal_eq, List.countP_cons]
    split_ifs <;> push_cast <;> ring

/-- C3: after the entries of `L` are replayed with `addResumeScore` into an empty score
map, `getEngineScore` of an engine `n` is 2 for every entry `n` won (`1-0` as white,
`0-1` as black) plus 1 for every side `n` has in a `1/2-1/2` entry; other results add
nothing.  The scores are C++ `int`s: the list is short enough for them not to overflow. -/
theorem replay_score (L : List MatchProgressEntry) (n : String)
    (h : 2 * L.length < 2147483648) :
    getEngineScore (replayScores L) n =
      2 * (L.countP (wonBy n) : Int) + (L.countP (drewAsWhite n) : Int)
        + (L.countP (drewAsBlack n) : Int) := by
  have hfold := (replay_fold L [] 0 scoreMap_nil le_rfl (by omega)).1 n
  unfold replayScores
  rw [hfold, sum_entryPoints]
  have h0 : getEngineScore [] n = 0 := rfl
  rw [h0, zero_add]

/-- C4: after the entries of `L` are replayed with `addResumeScore` into an empty score
map, the scores stored in the map sum to 2 times the number of entries whose result is
`1-0`, `0-1` or `1/2-1/2` (for a list short enough for C++ `int` not to overflow). -/
theorem replay_total (L : List MatchProgressEntry) (h : 2 * L.length < 2147483648) :
    totalScore (replayScores L) = 2 * (L.countP isDecisive : Int) := by
  have hfold := (replay_fold L [] 0 scoreMap_nil le_rfl (by omega)).2
  unfold replayScores
  rw [hfold, sum_entryTotal]
  have h0 : totalScore [] = 0 := rfl
  rw [h0, zero_add]

/-- C3, an instance: the four sample entries fit the bound, and the score of engine A
after their replay is the count the theorem gives (one win, one draw as black: 3). -/
theorem replay_score_witness :
    2 * progressSample.length < 2147483648
      ∧ getEngineScore (replayScores progressSample) "A" =
          2 * (progressSample.countP (wonBy "A") : Int)
            + (progressSample.countP (drewAsWhite "A") : Int)
            + (progressSample.countP (drewAsBlack "A") : Int)
      ∧ getEngineScore (replayScores progressSample) "A" = 3 :=
  ⟨by decide, replay_score progressSample "A" (by decide), by decide⟩

/-- C4, an instance: the four sample entries fit the bound; three of them are finished
and the stored scores sum to 6. -/
theorem replay_total_witness :
    2 * progressSample.length < 2147483648
      ∧ totalScore (replayScores progressSample) =
          2 * (progressSample.countP isDecisive : Int)
      ∧ totalScore (replayScores progressSample) = 6 :=
  ⟨by decide, replay_total progressSample (by decide), by decide⟩

/-! ### Resuming: the `matchProgress` list -/

theorem firstUnfinished_cons_star (p : MatchProgressEntry) (rest : List MatchProgressEntry)
    (hp : p.result = "*") : firstUnfinished (p :: rest) = 0 := by
  simp [firstUnfinished, List.findIdx_cons, hp]

theorem firstUnfinished_cons_other (p : MatchProgressEntry)
    (rest : List MatchProgressEntry) (hp : ¬ p.result = "*") :
    firstUnfinished (p :: rest) = firstUnfinished rest + 1 := by
  have : (p.result == "*") = false := by simpa using hp
  simp [firstUnfinished, List.findIdx_cons, this]

theorem replayLoop_kept (pList : List MatchProgressEntry) :
    ∀ (rest pre : List MatchProgressEntry) (engineMap : QVariantMap) (t : Tournament),
      pList = pre ++ rest →
      (replayLoop pList rest pre.length engineMap t).1 =
        pList.take (pre.length + firstUnfinished rest) := by
  intro rest
  induction rest with
  | nil =>
    intro pre engineMap t h
    simp [replayLoop, firstUnfinished, h]
  | cons p rest ih =>
    intro pre engineMap t h
    unfold replayLoop
    by_cases hp : p.result = "*"
    · simp [hp, firstUnfinished_cons_star]
    · have := ih (pre ++ [p]) (addResumeScore p.result p.white p.black engineMap)
        { t with resumeResults := t.resumeResults ++ [(pre.length, p.result)] }
        (by simp [h])
      simp only [List.length_append, List.length_singleton] at this
      simp only [hp, if_false, this, firstUnfinished_cons_other p rest hp]
      congr 1
      omega

theorem replayLoop_resume (pList : List MatchProgressEntry) :
    ∀ (rest : List MatchProgressEntry) (n : Nat) (engineMap : QVariantMap) (t : Tournament),
      (replayLoop pList rest n engineMap t).2.2.resume = t.resume := by
  intro rest
  induction rest with
  | nil => intro n engineMap t; rfl
  | cons p rest ih =>
    intro n engineMap t
    unfold replayLoop
    by_cases hp : p.result = "*"
    · simp [hp]
    · simp only [hp, if_false]
      rw [ih]

theorem take_firstUnfinished_no_star (L : List MatchProgressEntry) :
    ∀ e ∈ L.take (firstUnfinished L), e.result ≠ "*" := by
  induction L with
  | nil => simp
  | cons p rest ih =>
    intro e he
    by_cases hp : p.result = "*"
    · simp [firstUnfinished_cons_star p rest hp] at he
    · rw [firstUnfinished_cons_other p rest hp, List.take_succ_cons, List.mem_cons] at he
      rcases he with rfl | he
      · exact hp
      · exact ih e he

theorem replayProgress_kept (s : ParseState) (L : List MatchProgressEntry)
    (h : s.tfMap.matchProgress = some L) :
    (replayProgress true s).tfMap.matchProgress = some (L.take (firstUnfinished L))
    ∧ (replayProgress true s).tournament.resume =
          if firstUnfinished L > 0 then firstUnfinished L else s.tournament.resume := by
  have hk := replayLoop_kept L L [] s.engineMap s.tournament rfl
  simp only [List.length_nil, zero_add] at hk
  have hlen : (L.take (firstUnfinished L)).length = firstUnfinished L := by
    rw [List.length_take]
    exact min_eq_left (List.findIdx_le_length _)
  have hr := replayLoop_resume L L 0 s.engineMap s.tournament
  unfold replayProgress
  simp only [h, Bool.not_true, Bool.false_eq_true, if_false, hk, hlen]
  refine ⟨trivial, ?_⟩
  split_ifs
  · rfl
  · exact hr

theorem hydrateSettings_tfMap (s : ParseState) : (hydrateSettings s).tfMap = s.tfMap := rfl

theorem hydrateSettings_resume (s : ParseState) :
    (hydrateSettings s).tournament.resume = s.tournament.resume := by
  simp only [hydrateSettings, apply_ite Tournament.resume, ite_self]

theorem hydrateAdjudication_tfMap (env : Env) (s : ParseState) :
    (hydrateAdjudication env s).tfMap = s.tfMap := rfl

theorem hydrateAdjudication_resume (env : Env) (s : ParseState) :
    (hydrateAdjudication env s).tournament.resume = s.tournament.resume := by
  simp only [hydrateAdjudication, apply_ite Tournament.resume, ite_self]

theorem hydrateStrikes_frame (s : ParseState) :
    (hydrateStrikes s).tfMap = s.tfMap ∧ (hydrateStrikes s).tournament = s.tournament
      ∧ (hydrateStrikes s).engineMap = s.engineMap := by
  unfold hydrateStrikes
  cases s.tfMap.strikes <;> exact ⟨rfl, rfl, rfl⟩

theorem hydrateRoster_frame (env : Env) (s : ParseState) :
    (hydrateRoster env s).tfMap = s.tfMap
      ∧ (hydrateRoster env s).tournament = s.tournament := by
  unfold hydrateRoster
  cases s.eMap.engines <;> exact ⟨rfl, rfl⟩

theorem hydrateEach_frame (s : ParseState) :
    (hydrateEach s).tfMap = s.tfMap ∧ (hydrateEach s).tournament = s.tournament := by
  unfold hydrateEach
  cases s.eMap.each <;> exact ⟨rfl, rfl⟩

/-- C5: on resume with a persisted `matchProgress` list `L`, where `k` is the index of the
first entry whose result is `*` (the length of `L` without one), the list kept in the
tournament file map is the first `k` entries of `L`, none of them a `*` entry, and the
resume index of the tournament is `k` when `k > 0` and is left as it was when `k = 0`. -/
theorem resume_truncates (env : Env) (s : ParseState) (L : List MatchProgressEntry) :
    (hydrate env true { s with tfMap := { s.tfMap with matchProgress := some L } }
        ).tfMap.matchProgress = some (L.take (firstUnfinished L))
    ∧ (∀ e ∈ L.take (firstUnfinished L), e.result ≠ "*")
    ∧ (hydrate env true { s with tfMap := { s.tfMap with matchProgress := some L } }
        ).tournament.resume =
          if firstUnfinished L > 0 then firstUnfinished L else s.tournament.resume := by
  have hs := hydrateStrikes_frame (hydrateAdjudication env (hydrateSettings
    { s with tfMap := { s.tfMap with matchProgress := some L } }))
  have hp := replayProgress_kept (hydrateStrikes (hydrateAdjudication env (hydrateSettings
    { s with tfMap := { s.tfMap with matchProgress := some L } }))) L
    (by rw [hs.1]; rfl)
  rw [hs.2.1, hydrateAdjudication_resume, hydrateSettings_resume] at hp
  unfold hydrate hydrateEngines
  refine ⟨?_, take_firstUnfinished_no_star L, ?_⟩
  · rw [(hydrateEach_frame _).1, (hydrateRoster_frame env _).1]
    exact hp.1
  · rw [(hydrateEach_frame _).2, (hydrateRoster_frame env _).2]
    exact hp.2

/-! ### `parseEngine` and the persisted strikes -/

theorem parseEngineArg_strikes (env : Env) (stMap engineMap : QVariantMap)
    (name val : String) (data : EngineData) (h : name ≠ "conf") :
    (parseEngineArg env stMap engineMap name val data).2.config.m_strikes =
      data.config.m_strikes := by
  unfold parseEngineArg
  rw [if_neg h]
  by_cases h_name : name = "name"
  · rw [if_pos h_name]
    rfl
  rw [if_neg h_name]
  by_cases h_cmd : name = "cmd"
  · rw [if_pos h_cmd]
    rfl
  rw [if_neg h_cmd]
  by_cases h_dir : name = "dir"
  · rw [if_pos h_dir]
    rfl
  rw [if_neg h_dir]
  by_cases h_arg : name = "arg"
  · rw [if_pos h_arg]
    rfl
  rw [if_neg h_arg]
  by_cases h_proto : name = "proto"
  · rw [if_pos h_proto]
    split_ifs <;> rfl
  rw [if_neg h_proto]
  by_cases h_initstr : name = "initstr"
  · rw [if_pos h_initstr]
    rfl
  rw [if_neg h_initstr]
  by_cases h_restart : name = "restart"
  · rw [if_pos h_restart]
    split_ifs <;> rfl
  rw [if_neg h_restart]
  by_cases h_trust : name = "trust"
  · rw [if_pos h_trust]
    rfl
  rw [if_neg h_trust]
  by_cases h_tc : name = "tc"
  · rw [if_pos h_tc]
    dsimp only
    split_ifs <;> rfl
  rw [if_neg h_tc]
  by_cases h_st : name = "st"
  · rw [if_pos h_st]
    split
    · rfl
    · split_ifs <;> rfl
  rw [if_neg h_st]
  by_cases h_timemargin : name = "timemargin"
  · rw [if_pos h_timemargin]
    split
    · rfl
    · split_ifs <;> rfl
  rw [if_neg h_timemargin]
  by_cases h_book : name = "book"
  · rw [if_pos h_book]
  rw [if_neg h_book]
  by_cases h_bookdepth : name = "bookdepth"
  · rw [if_pos h_bookdepth]
    split_ifs <;> rfl
  rw [if_neg h_bookdepth]
  by_cases h_whitepov : name = "whitepov"
  · rw [if_pos h_whitepov]
    rfl
  rw [if_neg h_whitepov]
  by_cases h_depth : name = "depth"
  · rw [if_pos h_depth]
    split_ifs <;> rfl
  rw [if_neg h_depth]
  by_cases h_nodes : name = "nodes"
  · rw [if_pos h_nodes]
    split_ifs <;> rfl
  rw [if_neg h_nodes]
  by_cases h_ponder : name = "ponder"
  · rw [if_pos h_ponder]
    rfl
  rw [if_neg h_ponder]
  by_cases h_cuteseal : name = "cuteseal"
  · rw [if_pos h_cuteseal]
    rfl
  rw [if_neg h_cuteseal]
  by_cases h_option : qStartsWith name "option." = true
  · rw [if_pos h_option]
    simp only [EngineConfiguration.setOption]
    split <;> rfl
  rw [if_neg h_option]
  split_ifs <;> rfl

theorem parseEngine_strikes (env : Env) (stMap engineMap : QVariantMap)
    (args : List String) (data : EngineData)
    (h : ∀ arg ∈ args, sectionHead '=' arg ≠ "conf") :
    (parseEngine env stMap engineMap args data).2.config.m_strikes =
      data.config.m_strikes := by
  induction args generalizing data with
  | nil => rfl
  | cons arg rest ih =>
    have hrest : ∀ a ∈ rest, sectionHead '=' a ≠ "conf" :=
      fun a ha => h a (List.mem_cons_of_mem _ ha)
    have harg := parseEngineArg_strikes env stMap engineMap (sectionHead '=' arg)
      (sectionTail '=' arg) data (h arg (List.mem_cons_self _ _))
    unfold parseEngine
    dsimp only
    split_ifs with he
    · exact ih data hrest
    · cases hr : parseEngineArg env stMap engineMap (sectionHead '=' arg)
          (sectionTail '=' arg) data with
      | mk ok d =>
        rw [hr] at harg
        cases ok with
        | true => dsimp only; rw [ih d hrest]; exact harg
        | false => exact harg

/-- C6 fails on the code: resumed with the strikes map holding 3 for engine A, the engine
given as `name=A cmd=a proto=uci` is parsed with strike counter 0, while the same
engine given as `conf=A` is parsed with strike counter 3: `parseEngine` restores the
strikes only inside its `conf` branch. -/
theorem strikes_not_restored :
    QMap.value ([("A", QVar.uint 3)] : QVariantMap) "A" = QVar.uint 3
      ∧ (resumeEngines sampleEnv [("A", .uint 3)] [] [["name=A", "cmd=a", "proto=uci"]] []).map
          (fun e => (e.config.m_name, e.config.m_strikes)) = [("A", 0)]
      ∧ (resumeEngines sampleEnv [("A", .uint 3)] [] [["conf=A"]] []).map
          (fun e => (e.config.m_name, e.config.m_strikes)) = [("A", 3)] := by
  refine ⟨by decide, by decide, by decide⟩

/-! ### The random seed -/

theorem QMap.value_insert_self {α : Type} (k : String) (v : QVar α) (m : QMap (QVar α)) :
    QMap.value (QMap.insert k v m) k = v := by
  simp [QMap.value, QMap.find_insert_self]

theorem applySeed_nonzero (seed : Nat) (tMap : QVariantMap) (h : seed ≠ 0) :
    (applySeed seed tMap).1 = some seed
      ∧ QMap.value (applySeed seed tMap).2 "srand" = QVar.uint seed := by
  simp [applySeed, h, QMap.value_insert_self]

theorem QMap.value_of_not_contains {α : Type} (m : QMap (QVar α)) (k : String)
    (h : QMap.contains m k = false) : QMap.value m k = QVar.invalid := by
  have hnone : QMap.find m k = none := by
    rw [QMap.find_eq_none_iff]
    intro hk
    have := (QMap.contains_iff m k).2 hk
    rw [h] at this
    exact absurd this (by simp)
  simp [QMap.value, hnone]

/-- C7: on resume with a tournament file whose `tournamentSettings` holds a non-zero
`srand` value `s`, whatever the options (a `-srand` among them or not), the seed chosen
is `s`, the generator is initialised with `s` and the `srand` entry written back to
`tournamentSettings` is `s`. -/
theorem resume_keeps_seed (tMap : QVariantMap) (tournamentFile : String) (qrand : List Nat)
    (options : List MatchOption) (s : Nat)
    (hs : s ≠ 0) (hv : (QMap.value tMap "srand").toUInt = s) :
    chooseSeed true tMap tournamentFile qrand options = some (s, options)
      ∧ (applySeed s tMap).1 = some s
      ∧ QMap.value (applySeed s tMap).2 "srand" = QVar.uint s := by
  have hc : QMap.contains tMap "srand" = true := by
    by_contra hcon
    have h0 := QMap.value_of_not_contains tMap "srand" (by simpa using hcon)
    rw [h0] at hv
    exact hs (by simpa [QVar.toUInt] using hv.symm)
  refine ⟨?_, (applySeed_nonzero s tMap hs).1, (applySeed_nonzero s tMap hs).2⟩
  simp [chooseSeed, hc, hv, hs]

/-- C7, an instance: the file holds seed 42 and the command line says `-srand 5`; the
seed used and written back is 42. -/
theorem resume_keeps_seed_witness :
    (42 ≠ 0 ∧ (QMap.value ([("srand", QVar.uint 42)] : QVariantMap) "srand").toUInt = 42)
    ∧ (chooseSeed true [("srand", .uint 42)] "t.json" [] [opt "-srand" (.uint 5)] =
          some (42, [opt "-srand" (.uint 5)])
        ∧ (applySeed 42 [("srand", .uint 42)]).1 = some 42
        ∧ QMap.value (applySeed 42 [("srand", .uint 42)]).2 "srand" = QVar.uint 42) :=
  ⟨⟨by decide, by decide⟩,
   resume_keeps_seed [("srand", .uint 42)] "t.json" [] [opt "-srand" (.uint 5)] 42
    (by decide) (by decide)⟩

theorem drawSeed_some (qrand : List Nat) (h : ∃ r ∈ qrand, wrapUInt r ≠ 0) :
    ∃ d, drawSeed qrand = some d ∧ d ≠ 0 := by
  induction qrand with
  | nil => simp at h
  | cons r rest ih =>
    unfold drawSeed
    by_cases hr : wrapUInt r = 0
    · simp only [hr, bne_self_eq_false, Bool.false_eq_true, if_false]
      apply ih
      obtain ⟨x, hx, hx0⟩ := h
      rcases List.mem_cons.1 hx with rfl | hx
      · exact absurd hr hx0
      · exact ⟨x, hx, hx0⟩
    · exact ⟨wrapUInt r, by simp [hr], hr⟩

/-- C8: with a tournament file name given, `parseMatch` settles on a seed that is not 0,
initialises the generator with it and records it as `tournamentSettings.srand`; the seed
is the one of the file on resume when that is not 0, otherwise the `-srand` value when
that is not 0, otherwise the first result of `qrand()` that is not 0 (the drawing loop
ends as soon as `qrand()` gives one). -/
theorem seed_chosen (wantsResume : Bool) (tMap : QVariantMap) (tournamentFile : String)
    (qrand : List Nat) (options : List MatchOption)
    (hfile : tournamentFile.isEmpty = false)
    (hdraw : fileSeed wantsResume tMap = 0 → (takeOption "-srand" options).1.toUInt = 0 →
      ∃ r ∈ qrand, wrapUInt r ≠ 0) :
    ∃ seed rest, chooseSeed wantsResume tMap tournamentFile qrand options = some (seed, rest)
      ∧ seed ≠ 0
      ∧ (applySeed seed tMap).1 = some seed
      ∧ QMap.value (applySeed seed tMap).2 "srand" = QVar.uint seed
      ∧ seed = (if fileSeed wantsResume tMap ≠ 0 then fileSeed wantsResume tMap
          else if (takeOption "-srand" options).1.toUInt ≠ 0 then
            (takeOption "-srand" options).1.toUInt
          else (drawSeed qrand).getD 0) := by
  by_cases h1 : fileSeed wantsResume tMap = 0
  · by_cases h2 : (takeOption "-srand" options).1.toUInt = 0
    · obtain ⟨d, hd, hd0⟩ := drawSeed_some qrand (hdraw h1 h2)
      refine ⟨d, (takeOption "-srand" options).2, ?_, hd0, (applySeed_nonzero d tMap hd0).1,
        (applySeed_nonzero d tMap hd0).2, ?_⟩
      · unfold chooseSeed
        simp only [← fileSeed.eq_1]
        simp [h1, h2, hfile, hd]
      · simp [h1, h2, hd]
    · refine ⟨_, (takeOption "-srand" options).2, ?_, h2, (applySeed_nonzero _ tMap h2).1,
        (applySeed_nonzero _ tMap h2).2, ?_⟩
      · unfold chooseSeed
        simp only [← fileSeed.eq_1]
        simp [h1, h2]
      · simp [h1, h2]
  · refine ⟨_, options, ?_, h1, (applySeed_nonzero _ tMap h1).1,
      (applySeed_nonzero _ tMap h1).2, ?_⟩
    · unfold chooseSeed
      simp only [← fileSeed.eq_1]
      simp [h1]
    · simp [h1]

/-- C8, an instance: a new tournament file `t.json`, no `-srand`, and `qrand()` giving
0, 0, 7: the seed is 7 and it is recorded. -/
theorem seed_chosen_witness :
    ("t.json".isEmpty = false
      ∧ (fileSeed false [] = 0 → (takeOption "-srand" []).1.toUInt = 0 →
          ∃ r ∈ [0, 0, 7], wrapUInt r ≠ 0))
    ∧ ∃ seed rest, chooseSeed false [] "t.json" [0, 0, 7] [] = some (seed, rest)
      ∧ seed ≠ 0
      ∧ (applySeed seed []).1 = some seed
      ∧ QMap.value (applySeed seed []).2 "srand" = QVar.uint seed
      ∧ seed = (if fileSeed false [] ≠ 0 then fileSeed false []
          else if (takeOption "-srand" []).1.toUInt ≠ 0 then
            (takeOption "-srand" []).1.toUInt
          else (drawSeed [0, 0, 7]).getD 0) :=
  ⟨⟨by decide, fun _ _ => ⟨7, by decide, by decide⟩⟩,
   seed_chosen false [] "t.json" [0, 0, 7] [] (by decide)
    (fun _ _ => ⟨7, by decide, by decide⟩)⟩

/-! ### Resuming: the settings and the adjudicator -/

theorem replayLoop_seeds (pList : List MatchProgressEntry) :
    ∀ (rest : List MatchProgressEntry) (n : Nat) (engineMap : QVariantMap) (t : Tournament),
      (replayLoop pList rest n engineMap t).2.2.seedCount = t.seedCount
        ∧ (replayLoop pList rest n engineMap t).2.2.sprt = t.sprt := by
  intro rest
  induction rest with
  | nil => intro n engineMap t; exact ⟨rfl, rfl⟩
  | cons p rest ih =>
    intro n engineMap t
    unfold replayLoop
    by_cases hp : p.result = "*"
    · simp [hp]
    · simp only [hp, if_false]
      exact ih _ _ _

theorem replayProgress_seeds (wantsResume : Bool) (s : ParseState) :
    (replayProgress wantsResume s).tournament.seedCount = s.tournament.seedCount
      ∧ (replayProgress wantsResume s).tournament.sprt = s.tournament.sprt
      ∧ (replayProgress wantsResume s).ratingInterval = s.ratingInterval := by
  unfold replayProgress
  cases hm : s.tfMap.matchProgress with
  | none => exact ⟨rfl, rfl, rfl⟩
  | some L =>
    cases wantsResume with
    | false => exact ⟨rfl, rfl, rfl⟩
    | true =>
      have h := replayLoop_seeds L L 0 s.engineMap s.tournament
      simp only [Bool.not_true, Bool.false_eq_true, if_false]
      refine ⟨?_, ?_, trivial⟩
      · split_ifs
        · exact h.1
        · exact h.1
      · split_ifs
        · exact h.2
        · exact h.2

theorem hydrate_skips (env : Env) (wantsResume : Bool) (s : ParseState) :
    (hydrate env wantsResume s).tournament.seedCount = s.tournament.seedCount
      ∧ (hydrate env wantsResume s).tournament.sprt = s.tournament.sprt
      ∧ (hydrate env wantsResume s).ratingInterval = s.ratingInterval := by
  have h1 : (hydrateSettings s).tournament.seedCount = s.tournament.seedCount
      ∧ (hydrateSettings s).tournament.sprt = s.tournament.sprt
      ∧ (hydrateSettings s).ratingInterval = s.ratingInterval := by
    refine ⟨?_, ?_, rfl⟩
    · simp only [hydrateSettings, apply_ite Tournament.seedCount, ite_self]
    · simp only [hydrateSettings, apply_ite Tournament.sprt, ite_self]
  have h2 : ∀ s : ParseState,
      (hydrateAdjudication env s).tournament.seedCount = s.tournament.seedCount
      ∧ (hydrateAdjudication env s).tournament.sprt = s.tournament.sprt
      ∧ (hydrateAdjudication env s).ratingInterval = s.ratingInterval := by
    intro s
    refine ⟨?_, ?_, rfl⟩
    · simp only [hydrateAdjudication, apply_ite Tournament.seedCount, ite_self]
    · simp only [hydrateAdjudication, apply_ite Tournament.sprt, ite_self]
  have h3 : ∀ s : ParseState, (hydrateStrikes s).tournament = s.tournament
      ∧ (hydrateStrikes s).ratingInterval = s.ratingInterval := by
    intro s
    unfold hydrateStrikes
    cases s.tfMap.strikes <;> exact ⟨rfl, rfl⟩
  have h4 : ∀ s : ParseState, (hydrateRoster env s).tournament = s.tournament
      ∧ (hydrateRoster env s).ratingInterval = s.ratingInterval := by
    intro s
    unfold hydrateRoster
    cases s.eMap.engines <;> exact ⟨rfl, rfl⟩
  have h5 : ∀ s : ParseState, (hydrateEach s).tournament = s.tournament
      ∧ (hydrateEach s).ratingInterval = s.ratingInterval := by
    intro s
    unfold hydrateEach
    cases s.eMap.each <;> exact ⟨rfl, rfl⟩
  unfold hydrate hydrateEngines
  obtain ⟨a1, a2, a3⟩ := replayProgress_seeds wantsResume
    (hydrateStrikes (hydrateAdjudication env (hydrateSettings s)))
  rw [(h5 _).1, (h5 _).2, (h4 _).1, (h4 _).2, a1, a2, a3, (h3 _).1, (h3 _).2,
    (h2 _).1, (h2 _).2.1, (h2 _).2.2, h1.1, h1.2.1, h1.2.2]
  exact ⟨rfl, rfl, rfl⟩

/-- C9 fails on the code.  The resume branch never writes the seed count, the SPRT
parameters or the rating interval: hydration leaves them as they were.  After the
command line `settingsRun`
(`-seeds 4 -ratinginterval 10 -sprt elo0=0 elo1=5 alpha=0.05 beta=0.05 -tcecadj`) the
match has seed count 4, rating interval 10, SPRT parameters and the reload-engines flag
on, and the file holds `seeds`, `ratingInterval`, `sprt` and `tcecAdjudication`; the
match resumed from that file has seed count 0, rating interval 0, no SPRT parameters and
the reload-engines flag off. -/
theorem resume_loses_settings :
    (∀ (env : Env) (wantsResume : Bool) (s : ParseState),
        (hydrate env wantsResume s).tournament.seedCount = s.tournament.seedCount
          ∧ (hydrate env wantsResume s).tournament.sprt = s.tournament.sprt
          ∧ (hydrate env wantsResume s).ratingInterval = s.ratingInterval)
      ∧ (firstMatch settingsRun).map (fun m =>
          (m.tournament.seedCount, m.ratingInterval, m.tournament.sprt.isSome,
            m.tournament.reloadEngines)) = some (4, 10, true, true)
      ∧ (firstMatch settingsRun).map (fun m => m.written.map (fun w =>
          (w.tournamentSettings.getD []).map Prod.fst)) =
        some (some ["eventDate", "ratingInterval", "seeds", "sprt", "srand",
          "tcecAdjudication"])
      ∧ (resumedMatch settingsRun).map (fun m =>
          (m.tournament.seedCount, m.ratingInterval, m.tournament.sprt.isSome,
            m.tournament.reloadEngines)) = some (0, 0, false, false) := by
  refine ⟨hydrate_skips, ?_, ?_, ?_⟩
  · decide
  · decide
  · decide

/-- C10 fails on the code: after the command line `tablebaseRun` (`-tbdrawonly` followed
by `-tb /syzygy`) the adjudicator has tablebase adjudication on and draw-only off; the
adjudicator of the match resumed from the file that run wrote has draw-only on. -/
theorem resume_adjudicator_differs :
    (firstMatch tablebaseRun).map (fun m =>
        (m.tournament.adjudicator.tbEnabled, m.tournament.adjudicator.tbDrawOnly)) =
        some (true, false)
      ∧ (firstMatch tablebaseRun).map (fun m => m.written.map (fun w =>
          (w.tournamentSettings.getD []).map Prod.fst)) =
        some (some ["eventDate", "srand", "tb", "tbdrawonly"])
      ∧ (resumedMatch tablebaseRun).map (fun m =>
        (m.tournament.adjudicator.tbEnabled, m.tournament.adjudicator.tbDrawOnly)) =
        some (true, true) := by
  refine ⟨?_, ?_, ?_⟩
  · decide
  · decide
  · decide

/-! ### The stages of `parseMatch` -/

theorem parseMatch_eq (env : Env) (menv : MatchEnv) (options : List MatchOption) :
    parseMatch env menv options =
      match openFile menv options with
      | none => none
      | some (tournamentFile, wantsResume, tfMap, options) =>
        parseMatchFrom env menv tournamentFile wantsResume tfMap options := by
  unfold parseMatch openFile parseMatchFrom usingTournamentFile initialState
  dsimp only
  generalize menv.file = f
  cases f <;> split_ifs <;> rfl

theorem finishMatch_eq (env : Env) (menv : MatchEnv) (wantsResume : Bool)
    (tournamentFile : String) (seed : Option Nat) (s : ParseState) :
    finishMatch env menv wantsResume tournamentFile seed s =
      if !((bookStage s (openingsStage menv s
            ((eachStage env s).1 && (addPlayers env (eachStage env s).2 s.tournament).1)
            (addPlayers env (eachStage env s).2 s.tournament).2).1).1
          && decide ((eachStage env s).2.length ≥ 2)) then none
      else writeStage menv wantsResume tournamentFile seed s
        (bookStage s (openingsStage menv s
            ((eachStage env s).1 && (addPlayers env (eachStage env s).2 s.tournament).1)
            (addPlayers env (eachStage env s).2 s.tournament).2).1).2
        (openingsStage menv s
            ((eachStage env s).1 && (addPlayers env (eachStage env s).2 s.tournament).1)
            (addPlayers env (eachStage env s).2 s.tournament).2).2.1
        (openingsStage menv s
            ((eachStage env s).1 && (addPlayers env (eachStage env s).2 s.tournament).1)
            (addPlayers env (eachStage env s).2 s.tournament).2).2.2 := by
  rfl


theorem addPlayers_eq (env : Env) (engines : List EngineData) (t : Tournament) :
    (addPlayers env engines t).1 = engines.all (playable env)
      ∧ (addPlayers env engines t).2.players =
          t.players ++ (engines.takeWhile (playable env)).map toPlayer := by
  induction engines generalizing t with
  | nil => simp [addPlayers]
  | cons e rest ih =>
    unfold addPlayers
    by_cases h1 : env.tcIsValid e.tc = true
    · by_cases h2 : e.config.m_command.isEmpty = true
      · simp [h1, h2, playable, List.takeWhile]
      · by_cases h3 : e.config.m_protocol.isEmpty = true
        · simp [h1, h2, h3, playable, List.takeWhile]
        · have hp : playable env e = true := by simp [playable, h1, h2, h3]
          simp only [h1, h2, h3, Bool.not_true, Bool.false_eq_true, if_false]
          obtain ⟨a, b⟩ := ih { t with players := t.players ++
            [{ config := e.config, tc := e.tc, book := e.book, bookDepth := e.bookDepth }] }
          rw [a, b]
          simp [hp, List.takeWhile, toPlayer]
    · simp [h1, playable, List.takeWhile]

theorem openingsStage_ok (menv : MatchEnv) (s : ParseState) (ok : Bool) (t : Tournament)
    (h : (openingsStage menv s ok t).1 = true) : ok = true := by
  unfold openingsStage at h
  split_ifs at h
  · split at h
    · exact h
    · exact absurd h (by simp)
  · exact h

theorem parseOpenings_players (menv : MatchEnv) (o : MatchOption) (t : Tournament) :
    (parseOpenings menv o t).2.players = t.players := by
  unfold parseOpenings
  dsimp only
  split_ifs <;> rfl

theorem openingsStage_players (menv : MatchEnv) (s : ParseState) (ok : Bool)
    (t : Tournament) : (openingsStage menv s ok t).2.1.players = t.players := by
  have hp := parseOpenings_players menv s.openingsOption t
  unfold openingsStage
  split_ifs
  · split
    · rename_i suite t' heq
      rw [heq] at hp
      exact hp
    · rename_i t' heq
      rw [heq] at hp
      exact hp
  · rfl

theorem bookStage_ok (s : ParseState) (ok : Bool) (h : (bookStage s ok).1 = true) :
    ok = true := by
  unfold bookStage at h
  dsimp only at h
  split_ifs at h
  all_goals exact h

theorem writeStage_some (menv : MatchEnv) (wantsResume : Bool) (tournamentFile : String)
    (seed : Option Nat) (s : ParseState) (bookMode : Option String) (t : Tournament)
    (tMap : QVariantMap) (m : EngineMatch)
    (h : writeStage menv wantsResume tournamentFile seed s bookMode t tMap = some m) :
    m.tournament.players = t.players
      ∧ m.bookMode = bookMode
      ∧ (∀ w, m.written = some w →
          w.engineSettings = some { s.eMap with engines := some s.eList }
            ∧ w.tournamentSettings = some
                (if (!wantsResume || !QMap.contains tMap "eventDate") = true then
                  QMap.insert "eventDate" (.string menv.today) tMap else tMap)) := by
  unfold writeStage at h
  split_ifs at h with h1 h2
  · simp only [Option.some.injEq] at h
    subst h
    refine ⟨?_, rfl, ?_⟩
    · dsimp only [matchResult]
      split_ifs <;> rfl
    · intro w hw
      simp only [matchResult, Option.some.injEq] at hw
      subst hw
      exact ⟨rfl, rfl⟩
  · simp only [Option.some.injEq] at h
    subst h
    refine ⟨rfl, rfl, ?_⟩
    intro w hw
    simp [matchResult] at hw

theorem finishMatch_some (env : Env) (menv : MatchEnv) (wantsResume : Bool)
    (tournamentFile : String) (seed : Option Nat) (s : ParseState) (m : EngineMatch)
    (h : finishMatch env menv wantsResume tournamentFile seed s = some m) :
    (eachStage env s).1 = true
      ∧ (addPlayers env (eachStage env s).2 s.tournament).1 = true
      ∧ 2 ≤ (eachStage env s).2.length
      ∧ m.tournament.players = (addPlayers env (eachStage env s).2 s.tournament).2.players
      ∧ (∀ w, m.written = some w →
          w.engineSettings = some { s.eMap with engines := some s.eList }) := by
  rw [finishMatch_eq] at h
  split_ifs at h with hok
  have hok' : (bookStage s (openingsStage menv s
            ((eachStage env s).1 && (addPlayers env (eachStage env s).2 s.tournament).1)
            (addPlayers env (eachStage env s).2 s.tournament).2).1).1 = true
      ∧ 2 ≤ (eachStage env s).2.length := by
    simpa using hok
  obtain ⟨hb, hlen⟩ := hok'
  have ho := bookStage_ok _ _ hb
  have h2 := openingsStage_ok _ _ _ _ ho
  simp only [Bool.and_eq_true] at h2
  obtain ⟨hp, hw, hws⟩ := writeStage_some _ _ _ _ _ _ _ _ _ h
  refine ⟨h2.1, h2.2, hlen, ?_, fun w hw' => (hws w hw').1⟩
  rw [hp, openingsStage_players]

/-! ### The command-line loop and the roster -/

theorem applyOption_frame (env : Env) (o : MatchOption) (s s' : ParseState)
    (he : o.name ≠ "-engine") (hx : o.name ≠ "-each")
    (h : applyOption env o s = some s') :
    s'.eList = s.eList ∧ s'.eMap = s.eMap ∧ s'.engines = s.engines
      ∧ s'.eachOptions = s.eachOptions ∧ s'.tfMap = s.tfMap
      ∧ s'.tournament.players = s.tournament.players := by
  unfold applyOption at h
  dsimp only at h
  rw [if_neg he, if_neg hx] at h
  by_cases h_variant : o.name = "-variant"
  · rw [if_pos h_variant] at h
    repeat' split at h
    all_goals first
      | (cases h; exact ⟨rfl, rfl, rfl, rfl, rfl, rfl⟩)
      | exact absurd h (by simp)
  rw [if_neg h_variant] at h
  by_cases h_concurrency : o.name = "-concurrency"
  · rw [if_pos h_concurrency] at h
    repeat' split at h
    all_goals first
      | (cases h; exact ⟨rfl, rfl, rfl, rfl, rfl, rfl⟩)
      | exact absurd h (by simp)
  rw [if_neg h_concurrency] at h
  by_cases h_draw : o.name = "-draw"
  · rw [if_pos h_draw] at h
    repeat' split at h
    all_goals first
      | (cases h; exact ⟨rfl, rfl, rfl, rfl, rfl, rfl⟩)
      | exact absurd h (by simp)
  rw [if_neg h_draw] at h
  by_cases h_resign : o.name = "-resign"
  · rw [if_pos h_resign] at h
    repeat' split at h
    all_goals first
      | (cases h; exact ⟨rfl, rfl, rfl, rfl, rfl, rfl⟩)
      | exact absurd h (by simp)
  rw [if_neg h_resign] at h
  by_cases h_maxmoves : o.name = "-maxmoves"
  · rw [if_pos h_maxmoves] at h
    repeat' split at h
    all_goals first
      | (cases h; exact ⟨rfl, rfl, rfl, rfl, rfl, rfl⟩)
      | exact absurd h (by simp)
  rw [if_neg h_maxmoves] at h
  by_cases h_tbdrawonly : o.name = "-tbdrawonly"
  · rw [if_pos h_tbdrawonly] at h
    cases h
    exact ⟨rfl, rfl, rfl, rfl, rfl, rfl⟩
  rw [if_neg h_tbdrawonly] at h
  by_cases h_tb : o.name = "-tb"
  · rw [if_pos h_tb] at h
    repeat' split at h
    all_goals first
      | (cases h; exact ⟨rfl, rfl, rfl, rfl, rfl, rfl⟩)
      | exact absurd h (by simp)
  rw [if_neg h_tb] at h
  by_cases h_tbpieces : o.name = "-tbpieces"
  · rw [if_pos h_tbpieces] at h
    repeat' split at h
    all_goals first
      | (cases h; exact ⟨rfl, rfl, rfl, rfl, rfl, rfl⟩)
      | exact absurd h (by simp)
  rw [if_neg h_tbpieces] at h
  by_cases h_tbignore50 : o.name = "-tbignore50"
  · rw [if_pos h_tbignore50] at h
    repeat' split at h
    all_goals (cases h; exact ⟨rfl, rfl, rfl, rfl, rfl, rfl⟩)
  rw [if_neg h_tbignore50] at h
  by_cases h_event : o.name = "-event"
  · rw [if_pos h_event] at h
    cases h
    exact ⟨rfl, rfl, rfl, rfl, rfl, rfl⟩
  rw [if_neg h_event] at h
  by_cases h_games : o.name = "-games"
  · rw [if_pos h_games] at h
    repeat' split at h
    all_goals first
      | (cases h; exact ⟨rfl, rfl, rfl, rfl, rfl, rfl⟩)
      | exact absurd h (by simp)
  rw [if_neg h_games] at h
  by_cases h_rounds : o.name = "-rounds"
  · rw [if_pos h_rounds] at h
    repeat' split at h
    all_goals first
      | (cases h; exact ⟨rfl, rfl, rfl, rfl, rfl, rfl⟩)
      | exact absurd h (by simp)
  rw [if_neg h_rounds] at h
  by_cases h_sprt : o.name = "-sprt"
  · rw [if_pos h_sprt] at h
    repeat' split at h
    all_goals first
      | (cases h; exact ⟨rfl, rfl, rfl, rfl, rfl, rfl⟩)
      | exact absurd h (by simp)
  rw [if_neg h_sprt] at h
  by_cases h_ratinginterval : o.name = "-ratinginterval"
  · rw [if_pos h_ratinginterval] at h
    cases h
    exact ⟨rfl, rfl, rfl, rfl, rfl, rfl⟩
  rw [if_neg h_ratinginterval] at h
  by_cases h_openings : o.name = "-openings"
  · rw [if_pos h_openings] at h
    cases h
    exact ⟨rfl, rfl, rfl, rfl, rfl, rfl⟩
  rw [if_neg h_openings] at h
  by_cases h_bookmode : o.name = "-bookmode"
  · rw [if_pos h_bookmode] at h
    cases h
    exact ⟨rfl, rfl, rfl, rfl, rfl, rfl⟩
  rw [if_neg h_bookmode] at h
  by_cases h_pgnout : o.name = "-pgnout"
  · rw [if_pos h_pgnout] at h
    repeat' split at h
    all_goals first
      | (cases h; exact ⟨rfl, rfl, rfl, rfl, rfl, rfl⟩)
      | exact absurd h (by simp)
  rw [if_neg h_pgnout] at h
  by_cases h_livepgnout : o.name = "-livepgnout"
  · rw [if_pos h_livepgnout] at h
    repeat' split at h
    all_goals first
      | (cases h; exact ⟨rfl, rfl, rfl, rfl, rfl, rfl⟩)
      | exact absurd h (by simp)
  rw [if_neg h_livepgnout] at h
  by_cases h_strikes : o.name = "-strikes"
  · rw [if_pos h_strikes] at h
    repeat' split at h
    all_goals first
      | (cases h; exact ⟨rfl, rfl, rfl, rfl, rfl, rfl⟩)
      | exact absurd h (by simp)
  rw [if_neg h_strikes] at h
  by_cases h_epdout : o.name = "-epdout"
  · rw [if_pos h_epdout] at h
    cases h
    exact ⟨rfl, rfl, rfl, rfl, rfl, rfl⟩
  rw [if_neg h_epdout] at h
  by_cases h_repeat : o.name = "-repeat"
  · rw [if_pos h_repeat] at h
    repeat' split at h
    all_goals first
      | (cases h; exact ⟨rfl, rfl, rfl, rfl, rfl, rfl⟩)
      | exact absurd h (by simp)
  rw [if_neg h_repeat] at h
  by_cases h_noswap : o.name = "-noswap"
  · rw [if_pos h_noswap] at h
    cases h
    exact ⟨rfl, rfl, rfl, rfl, rfl, rfl⟩
  rw [if_neg h_noswap] at h
  by_cases h_recover : o.name = "-recover"
  · rw [if_pos h_recover] at h
    cases h
    exact ⟨rfl, rfl, rfl, rfl, rfl, rfl⟩
  rw [if_neg h_recover] at h
  by_cases h_site : o.name = "-site"
  · rw [if_pos h_site] at h
    cases h
    exact ⟨rfl, rfl, rfl, rfl, rfl, rfl⟩
  rw [if_neg h_site] at h
  by_cases h_wait : o.name = "-wait"
  · rw [if_pos h_wait] at h
    repeat' split at h
    all_goals first
      | (cases h; exact ⟨rfl, rfl, rfl, rfl, rfl, rfl⟩)
      | exact absurd h (by simp)
  rw [if_neg h_wait] at h
  by_cases h_seeds : o.name = "-seeds"
  · rw [if_pos h_seeds] at h
    repeat' split at h
    all_goals first
      | (cases h; exact ⟨rfl, rfl, rfl, rfl, rfl, rfl⟩)
      | exact absurd h (by simp)
  rw [if_neg h_seeds] at h
  by_cases h_resume : o.name = "-resume"
  · rw [if_pos h_resume] at h
    cases h
    exact ⟨rfl, rfl, rfl, rfl, rfl, rfl⟩
  rw [if_neg h_resume] at h
  by_cases h_bergerschedule : o.name = "-bergerschedule"
  · rw [if_pos h_bergerschedule] at h
    cases h
    exact ⟨rfl, rfl, rfl, rfl, rfl, rfl⟩
  rw [if_neg h_bergerschedule] at h
  by_cases h_kfactor : o.name = "-kfactor"
  · rw [if_pos h_kfactor] at h
    repeat' split at h
    all_goals first
      | (cases h; exact ⟨rfl, rfl, rfl, rfl, rfl, rfl⟩)
      | exact absurd h (by simp)
  rw [if_neg h_kfactor] at h
  by_cases h_reloadconf : o.name = "-reloadconf"
  · rw [if_pos h_reloadconf] at h
    cases h
    exact ⟨rfl, rfl, rfl, rfl, rfl, rfl⟩
  rw [if_neg h_reloadconf] at h
  by_cases h_tcecadj : o.name = "-tcecadj"
  · rw [if_pos h_tcecadj] at h
    cases h
    exact ⟨rfl, rfl, rfl, rfl, rfl, rfl⟩
  rw [if_neg h_tcecadj] at h
  exact absurd h (by simp)

theorem applyOption_engine (env : Env) (o : MatchOption) (s s' : ParseState)
    (he : o.name = "-engine") (h : applyOption env o s = some s') :
    (parseEngine env [] [] o.value.toStringList freshEngine).1 = true
      ∧ s'.engines = rosterStep env s.engines o.value.toStringList
      ∧ s'.eList = s.eList ++ [o.value.toStringList]
      ∧ s'.eMap = s.eMap ∧ s'.eachOptions = s.eachOptions
      ∧ s'.tournament.players = s.tournament.players := by
  unfold applyOption at h
  dsimp only at h
  rw [if_pos he] at h
  by_cases hp : (parseEngine env [] [] o.value.toStringList freshEngine).1 = true
  · rw [← freshEngine.eq_1, if_pos hp] at h
    cases h
    refine ⟨hp, ?_, rfl, rfl, rfl, rfl⟩
    simp only [rosterStep, hp, Bool.true_and]
  · rw [← freshEngine.eq_1, if_neg hp] at h
    exact absurd h (by simp)

theorem applyOption_each (env : Env) (o : MatchOption) (s s' : ParseState)
    (he : o.name = "-each") (h : applyOption env o s = some s') :
    s'.engines = s.engines ∧ s'.eList = s.eList
      ∧ s'.eMap = { s.eMap with each := some o.value.toStringList }
      ∧ s'.eachOptions = o.value.toStringList
      ∧ s'.tournament.players = s.tournament.players := by
  unfold applyOption at h
  dsimp only at h
  rw [if_neg (by rw [he]; decide), if_pos he] at h
  cases h
  exact ⟨rfl, rfl, rfl, rfl, rfl⟩

theorem engineLists_cons (o : MatchOption) (rest : List MatchOption) :
    engineLists (o :: rest) =
      if o.name = "-engine" then o.value.toStringList :: engineLists rest
      else engineLists rest := by
  unfold engineLists
  by_cases h : o.name = "-engine"
  · simp [h]
  · simp [h]

theorem eachList_cons (o : MatchOption) (rest : List MatchOption) :
    eachList (o :: rest) =
      match eachList rest with
      | some l => some l
      | none => if o.name = "-each" then some o.value.toStringList else none := rfl

theorem applyOptions_roster (env : Env) (options : List MatchOption) (s s' : ParseState)
    (h : applyOptions env options s = some s') :
    s'.eList = s.eList ++ engineLists options
      ∧ s'.engines = (engineLists options).foldl (rosterStep env) s.engines
      ∧ s'.eMap.engines = s.eMap.engines
      ∧ s'.eMap.each = (match eachList options with
          | some l => some l
          | none => s.eMap.each)
      ∧ s'.eachOptions = (match eachList options with
          | some l => l
          | none => s.eachOptions)
      ∧ (∀ l ∈ engineLists options, (parseEngine env [] [] l freshEngine).1 = true)
      ∧ s'.tournament.players = s.tournament.players := by
  induction options generalizing s with
  | nil =>
    simp only [applyOptions, Option.some.injEq] at h
    subst h
    simp [engineLists, eachList]
  | cons o rest ih =>
    unfold applyOptions at h
    cases h1 : applyOption env o s with
    | none => rw [h1] at h; exact absurd h (by simp)
    | some s1 =>
      rw [h1] at h
      obtain ⟨a1, a2, a3, a4, a5, a6, a7⟩ := ih s1 h
      rw [engineLists_cons]
      by_cases he : o.name = "-engine"
      · obtain ⟨b0, b1, b2, b3, b4, b5⟩ := applyOption_engine env o s s1 he h1
        have hx : ¬ o.name = "-each" := by rw [he]; decide
        rw [if_pos he]
        refine ⟨?_, ?_, ?_, ?_, ?_, ?_, a7.trans b5⟩
        · rw [a1, b2]; simp
        · rw [a2, b1]; rfl
        · rw [a3, b3]
        · rw [a4, b3]
          rw [eachList_cons]
          cases eachList rest <;> simp [hx]
        · rw [a5, b4]
          rw [eachList_cons]
          cases eachList rest <;> simp [hx]
        · intro l hl
          rcases List.mem_cons.1 hl with rfl | hl
          · exact b0
          · exact a6 l hl
      · rw [if_neg he]
        by_cases hx : o.name = "-each"
        · obtain ⟨b1, b2, b3, b4, b5⟩ := applyOption_each env o s s1 hx h1
          refine ⟨?_, ?_, ?_, ?_, ?_, a6, a7.trans b5⟩
          · rw [a1, b2]
          · rw [a2, b1]
          · rw [a3, b3]
          · rw [a4, b3]
            rw [eachList_cons]
            cases eachList rest <;> simp [hx]
          · rw [a5, b4]
            rw [eachList_cons]
            cases eachList rest <;> simp [hx]
        · obtain ⟨b1, b2, b3, b4, _, b5⟩ := applyOption_frame env o s s1 he hx h1
          refine ⟨?_, ?_, ?_, ?_, ?_, a6, a7.trans b5⟩
          · rw [a1, b1]
          · rw [a2, b3]
          · rw [a3, b2]
          · rw [a4, b2]
            rw [eachList_cons]
            cases eachList rest <;> simp [hx]
          · rw [a5, b4]
            rw [eachList_cons]
            cases eachList rest <;> simp [hx]

/-! ### The keys of `parseEngine` -/

theorem parseEngineArg_unknown (env : Env) (stMap engineMap : QVariantMap)
    (name val : String) (data : EngineData) (h : recognised name = false) :
    parseEngineArg env stMap engineMap name val data = (false, data) := by
  simp [recognised, knownKeys] at h
  obtain ⟨⟨h1, h2, h3, h4, h5, h6, h7, h8, h9, h10, h11, h12, h13, h14, h15, h16, h17, h18,
    h19, h20⟩, ho⟩ := h
  unfold parseEngineArg
  rw [if_neg h1, if_neg h2, if_neg h3, if_neg h4, if_neg h5, if_neg h6, if_neg h7,
    if_neg h8, if_neg h9, if_neg h10, if_neg h11, if_neg h12, if_neg h13, if_neg h14,
    if_neg h15, if_neg h16, if_neg h17, if_neg h18, if_neg h19, if_neg (by simp [ho]),
    if_neg h20]

theorem parseEngine_cons (env : Env) (stMap engineMap : QVariantMap) (arg : String)
    (rest : List String) (data : EngineData) :
    parseEngine env stMap engineMap (arg :: rest) data =
      if (sectionHead '=' arg).isEmpty = true then parseEngine env stMap engineMap rest data
      else if (parseEngineArg env stMap engineMap (sectionHead '=' arg)
          (sectionTail '=' arg) data).1 = true then
        parseEngine env stMap engineMap rest
          (parseEngineArg env stMap engineMap (sectionHead '=' arg)
            (sectionTail '=' arg) data).2
      else (false, (parseEngineArg env stMap engineMap (sectionHead '=' arg)
            (sectionTail '=' arg) data).2) := by
  conv_lhs => unfold parseEngine
  dsimp only
  split_ifs with h1 h2
  · rfl
  · cases hr : parseEngineArg env stMap engineMap (sectionHead '=' arg)
        (sectionTail '=' arg) data with
    | mk ok d =>
      rw [hr] at h2
      simp only at h2
      subst h2
      rfl
  · cases hr : parseEngineArg env stMap engineMap (sectionHead '=' arg)
        (sectionTail '=' arg) data with
    | mk ok d =>
      rw [hr] at h2
      simp only [Bool.not_eq_true] at h2
      subst h2
      rfl

theorem parseEngine_append (env : Env) (stMap engineMap : QVariantMap)
    (pre post : List String) (data : EngineData) :
    parseEngine env stMap engineMap (pre ++ post) data =
      if (parseEngine env stMap engineMap pre data).1 = true then
        parseEngine env stMap engineMap post (parseEngine env stMap engineMap pre data).2
      else parseEngine env stMap engineMap pre data := by
  induction pre generalizing data with
  | nil => simp [parseEngine]
  | cons arg rest ih =>
    rw [List.cons_append, parseEngine_cons, parseEngine_cons]
    split_ifs with h1 h2 h3 h4 <;> first
      | exact ih _
      | (rw [ih]; simp_all)
      | simp_all


theorem parseEngine_true_args (env : Env) (stMap engineMap : QVariantMap)
    (args : List String) (data : EngineData)
    (h : (parseEngine env stMap engineMap args data).1 = true) :
    ∀ arg ∈ args, (sectionHead '=' arg).isEmpty = true
      ∨ (recognised (sectionHead '=' arg) = true
          ∧ ∃ d, (parseEngineArg env stMap engineMap (sectionHead '=' arg)
              (sectionTail '=' arg) d).1 = true) := by
  induction args generalizing data with
  | nil => intro arg harg; simp at harg
  | cons a rest ih =>
    intro arg harg
    rw [parseEngine_cons] at h
    by_cases h1 : (sectionHead '=' a).isEmpty = true
    · rw [if_pos h1] at h
      rcases List.mem_cons.1 harg with rfl | hr
      · exact Or.inl h1
      · exact ih data h arg hr
    · rw [if_neg h1] at h
      by_cases h2 : (parseEngineArg env stMap engineMap (sectionHead '=' a)
          (sectionTail '=' a) data).1 = true
      · rw [if_pos h2] at h
        rcases List.mem_cons.1 harg with rfl | hr
        · right
          refine ⟨?_, data, h2⟩
          by_contra hrec
          have := parseEngineArg_unknown env stMap engineMap (sectionHead '=' arg)
            (sectionTail '=' arg) data (by simpa using hrec)
          rw [this] at h2
          exact absurd h2 (by simp)
        · exact ih _ h arg hr
      · rw [if_neg h2] at h
        exact absurd h (by simp)

/-! ### Engine keys: `restart` and unknown keys -/

theorem sectionHead_key (k v : String) (hk : '=' ∉ k.data) :
    sectionHead '=' (k ++ "=" ++ v) = k := by
  have h : ∀ (l r : List Char), '=' ∉ l →
      List.takeWhile (fun c => c != '=') (l ++ '=' :: r) = l := by
    intro l r hl
    induction l with
    | nil => simp
    | cons c l ih =>
      have hc : c ≠ '=' := fun e => hl (e ▸ List.mem_cons_self _ _)
      have hl' : '=' ∉ l := fun e => hl (List.mem_cons_of_mem _ e)
      have hb : (c != '=') = true := by simpa using hc
      simp [List.takeWhile, hb, ih hl']
  unfold sectionHead
  have hd : (k ++ "=" ++ v).data = k.data ++ '=' :: v.data := by
    simp [String.data_append]
  rw [hd, h k.data v.data hk]

theorem sectionTail_key (k v : String) (hk : '=' ∉ k.data) :
    sectionTail '=' (k ++ "=" ++ v) = v := by
  have h : ∀ (l r : List Char), '=' ∉ l →
      List.dropWhile (fun c => c != '=') (l ++ '=' :: r) = '=' :: r := by
    intro l r hl
    induction l with
    | nil => simp
    | cons c l ih =>
      have hc : c ≠ '=' := fun e => hl (e ▸ List.mem_cons_self _ _)
      have hl' : '=' ∉ l := fun e => hl (List.mem_cons_of_mem _ e)
      have hb : (c != '=') = true := by simpa using hc
      simp [List.dropWhile, hb, ih hl']
  unfold sectionTail
  have hd : (k ++ "=" ++ v).data = k.data ++ '=' :: v.data := by
    simp [String.data_append]
  rw [hd, h k.data v.data hk]
  rfl

theorem parseEngineArg_restart (env : Env) (stMap engineMap : QVariantMap) (v : String)
    (data : EngineData) :
    parseEngineArg env stMap engineMap "restart" v data =
      if v = "auto" then
        (true, { data with config := data.config.setRestartMode .RestartAuto })
      else if v = "on" then
        (true, { data with config := data.config.setRestartMode .RestartOn })
      else if v = "off" then
        (true, { data with config := data.config.setRestartMode .RestartOff })
      else (false, data) := by
  unfold parseEngineArg
  simp

/-- C16: for every value `v`, `parseEngine` on the argument `restart=v` sets the restart
mode to `RestartAuto`, `RestartOn` or `RestartOff` and returns true when `v` is exactly
`auto`, `on` or `off`; for any other `v` it returns false and leaves the engine data, the
restart mode with it, as it was.  So it succeeds if and only if `v` is one of the three. -/
theorem restart_values (env : Env) (stMap engineMap : QVariantMap) (v : String)
    (data : EngineData) :
    parseEngine env stMap engineMap ["restart=" ++ v] data =
        (if v = "auto" then
          (true, { data with config := data.config.setRestartMode .RestartAuto })
        else if v = "on" then
          (true, { data with config := data.config.setRestartMode .RestartOn })
        else if v = "off" then
          (true, { data with config := data.config.setRestartMode .RestartOff })
        else (false, data))
      ∧ ((parseEngine env stMap engineMap ["restart=" ++ v] data).1 = true ↔
          v = "auto" ∨ v = "on" ∨ v = "off")
      ∧ (parseEngine env stMap engineMap ["restart=auto"] data).2.config.m_restartMode =
          RestartMode.RestartAuto
      ∧ (parseEngine env stMap engineMap ["restart=on"] data).2.config.m_restartMode =
          RestartMode.RestartOn
      ∧ (parseEngine env stMap engineMap ["restart=off"] data).2.config.m_restartMode =
          RestartMode.RestartOff := by
  have hk : '=' ∉ "restart".data := by decide
  have key : ∀ w : String, parseEngine env stMap engineMap ["restart=" ++ w] data =
      (if w = "auto" then
          (true, { data with config := data.config.setRestartMode .RestartAuto })
        else if w = "on" then
          (true, { data with config := data.config.setRestartMode .RestartOn })
        else if w = "off" then
          (true, { data with config := data.config.setRestartMode .RestartOff })
        else (false, data)) := by
    intro w
    have e1 : sectionHead '=' ("restart=" ++ w) = "restart" := by
      have := sectionHead_key "restart" w hk
      simpa using this
    have e2 : sectionTail '=' ("restart=" ++ w) = w := by
      have := sectionTail_key "restart" w hk
      simpa using this
    have h0 : ("restart" : String).isEmpty = false := by decide
    rw [parseEngine_cons, e1, e2, parseEngineArg_restart]
    simp only [h0, Bool.false_eq_true, if_false]
    by_cases h1 : w = "auto"
    · simp [h1, parseEngine]
    · by_cases h2 : w = "on"
      · simp [h2, parseEngine]
      · by_cases h3 : w = "off"
        · simp [h3, parseEngine]
        · simp [h1, h2, h3]
  refine ⟨key v, ?_, ?_, ?_, ?_⟩
  · rw [key v]
    by_cases h1 : v = "auto"
    · simp [h1]
    · by_cases h2 : v = "on"
      · simp [h2]
      · by_cases h3 : v = "off"
        · simp [h3]
        · simp [h1, h2, h3]
  · rw [show ("restart=auto" : String) = "restart=" ++ "auto" from rfl, key "auto"]
    rfl
  · rw [show ("restart=on" : String) = "restart=" ++ "on" from rfl, key "on"]
    rfl
  · rw [show ("restart=off" : String) = "restart=" ++ "off" from rfl, key "off"]
    rfl

/-- C20: `parseEngine` returns false at the first argument whose key is not empty and not
recognised (the arguments after it are not looked at and the data stays as the arguments
before it left it); an argument with an empty key is skipped without effect; and when
`parseEngine` returns true, every argument with a key has a recognised key and a value
its branch accepts.  The keys recognised are those of `knownKeys` and the keys starting
with `option.`. -/
theorem unknown_key_rejected (env : Env) (stMap engineMap : QVariantMap) :
    (∀ (pre post : List String) (arg : String) (data : EngineData),
        (parseEngine env stMap engineMap pre data).1 = true →
        (sectionHead '=' arg).isEmpty = false →
        recognised (sectionHead '=' arg) = false →
        parseEngine env stMap engineMap (pre ++ arg :: post) data =
          (false, (parseEngine env stMap engineMap pre data).2))
      ∧ (∀ (arg : String) (rest : List String) (data : EngineData),
        (sectionHead '=' arg).isEmpty = true →
        parseEngine env stMap engineMap (arg :: rest) data =
          parseEngine env stMap engineMap rest data)
      ∧ (∀ (args : List String) (data : EngineData),
        (parseEngine env stMap engineMap args data).1 = true →
        ∀ arg ∈ args, (sectionHead '=' arg).isEmpty = true
          ∨ (recognised (sectionHead '=' arg) = true
              ∧ ∃ d, (parseEngineArg env stMap engineMap (sectionHead '=' arg)
                  (sectionTail '=' arg) d).1 = true))
      ∧ ((parseEngine sampleEnv [] [] ["name=A", "=x", "bogus=1", "cmd=a"] freshEngine).1
            = false
          ∧ (parseEngine sampleEnv [] [] ["name=A", "=x", "bogus=1", "cmd=a"]
              freshEngine).2.config.m_name = "A"
          ∧ (parseEngine sampleEnv [] [] ["name=A", "=x", "bogus=1", "cmd=a"]
              freshEngine).2.config.m_command = "") := by
  refine ⟨?_, ?_, parseEngine_true_args env stMap engineMap, by decide, by decide, by decide⟩
  · intro pre post arg data hpre hne hrec
    rw [parseEngine_append, if_pos hpre, parseEngine_cons, if_neg (by simp [hne]),
      parseEngineArg_unknown env stMap engineMap _ _ _ hrec]
    simp
  · intro arg rest data he
    rw [parseEngine_cons, if_pos he]

/-! ### The integer options and the tournament type -/

/-- C19 fails when the `type` entry of the file is empty text: resuming from the usable
file `emptyTypeFile` with `-tournament gauntlet`, the type chosen is `round-robin`, not the
entry (for which `TournamentFactory::create` gives the null pointer) and not the
`-tournament` value, and a round-robin tournament is created. -/
theorem type_entry_empty :
    QMap.contains (emptyTypeFile.tournamentSettings.getD []) "type" = true
      ∧ (QMap.value (emptyTypeFile.tournamentSettings.getD []) "type").toQString = ""
      ∧ TournamentFactory.create "" = none
      ∧ resumes (sampleMatchEnv (.content emptyTypeFile)) gauntletResumeRun = true
      ∧ (chooseType true (emptyTypeFile.tournamentSettings.getD [])
          [opt "-tournament" (.string "gauntlet")]).1 = "round-robin"
      ∧ (parseMatch sampleEnv (sampleMatchEnv (.content emptyTypeFile)) gauntletResumeRun).map
          (fun m => m.tournament.kind) = some TournamentKind.roundRobin := by
  refine ⟨?_, ?_, ?_, ?_, ?_, ?_⟩
  · decide
  · decide
  · decide
  · decide
  · decide
  · decide

/-- C19, amended: the type `parseMatch` passes to `TournamentFactory::create` is, when
resuming from a usable tournament file whose `tournamentSettings` has a `type` entry, the
text of that entry, or `round-robin` when that text is empty (whatever `-tournament`
says); otherwise the `-tournament` value when it is not empty; otherwise `round-robin`. -/
theorem tournament_type (usable : Bool) (tMap : QVariantMap) (options : List MatchOption) :
    (chooseType usable tMap options).1 =
      if usable = true ∧ QMap.contains tMap "type" = true then
        (if (QMap.value tMap "type").toQString = "" then "round-robin"
          else (QMap.value tMap "type").toQString)
      else if (takeOption "-tournament" options).1.toQString = "" then "round-robin"
      else (takeOption "-tournament" options).1.toQString := by
  unfold chooseType
  by_cases h : usable = true ∧ QMap.contains tMap "type" = true
  · obtain ⟨h1, h2⟩ := h
    simp only [h1, h2, Bool.and_self, if_true, and_self]
    by_cases he : (QMap.value tMap "type").toQString = ""
    · have h0 : ("" : String).isEmpty = true := by decide
      simp [he, h0]
    · simp [he, String.isEmpty_iff]
  · have h' : (usable && QMap.contains tMap "type") = false := by
      cases usable <;> simp_all
    simp only [h', Bool.false_eq_true, if_false, h]
    by_cases he : (takeOption "-tournament" options).1.toQString = ""
    · have h0 : ("" : String).isEmpty = true := by decide
      simp [he, h0]
    · simp [he, String.isEmpty_iff]

/-! ### From the command line to the roster -/

theorem takeOption_engineLists (n : String) (hn : n ≠ "-engine") (l : List MatchOption) :
    engineLists (takeOption n l).2 = engineLists l := by
  induction l with
  | nil => rfl
  | cons o rest ih =>
    unfold takeOption
    by_cases h : o.name = n
    · have he : ¬ o.name = "-engine" := by rw [h]; exact hn
      rw [if_pos h, engineLists_cons, if_neg he]
    · rw [if_neg h]
      simp only [engineLists_cons, ih]

theorem takeOption_eachList (n : String) (hn : n ≠ "-each") (l : List MatchOption) :
    eachList (takeOption n l).2 = eachList l := by
  induction l with
  | nil => rfl
  | cons o rest ih =>
    unfold takeOption
    by_cases h : o.name = n
    · have he : ¬ o.name = "-each" := by rw [h]; exact hn
      rw [if_pos h, eachList_cons, if_neg he]
      cases eachList rest <;> rfl
    · rw [if_neg h]
      simp only [eachList_cons, ih]

theorem openFile_lists (menv : MatchEnv) (options rest : List MatchOption) (file : String)
    (wants : Bool) (tfMap : TournamentFileMap)
    (h : openFile menv options = some (file, wants, tfMap, rest)) :
    engineLists rest = engineLists options ∧ eachList rest = eachList options
      ∧ (wants = false → tfMap = TournamentFileMap.empty) := by
  have e3 : engineLists (takeOption "-tournamentfile"
      (takeOption "-ecopgn" (takeOption "-debug" options).2).2).2 = engineLists options := by
    rw [takeOption_engineLists _ (by decide), takeOption_engineLists _ (by decide),
      takeOption_engineLists _ (by decide)]
  have x3 : eachList (takeOption "-tournamentfile"
      (takeOption "-ecopgn" (takeOption "-debug" options).2).2).2 = eachList options := by
    rw [takeOption_eachList _ (by decide), takeOption_eachList _ (by decide),
      takeOption_eachList _ (by decide)]
  unfold openFile at h
  dsimp only at h
  cases hf : menv.file with
  | unreadable =>
    rw [hf] at h
    split_ifs at h
    all_goals
      simp only [Option.some.injEq, Prod.mk.injEq] at h
      obtain ⟨_, _, ht, hr⟩ := h
      subst hr
      exact ⟨e3, x3, fun _ => ht.symm⟩
  | missing =>
    rw [hf] at h
    split_ifs at h
    all_goals
      simp only [Option.some.injEq, Prod.mk.injEq] at h
      obtain ⟨_, _, ht, hr⟩ := h
      subst hr
      exact ⟨e3, x3, fun _ => ht.symm⟩
  | content t =>
    rw [hf] at h
    split_ifs at h
    all_goals
      simp only [Option.some.injEq, Prod.mk.injEq] at h
      obtain ⟨_, hw, ht, hr⟩ := h
      subst hr
      first
        | exact ⟨e3, x3, fun _ => ht.symm⟩
        | exact ⟨by rw [takeOption_engineLists _ (by decide), e3],
            by rw [takeOption_eachList _ (by decide), x3], fun _ => ht.symm⟩
        | exact ⟨by rw [takeOption_engineLists _ (by decide), e3],
            by rw [takeOption_eachList _ (by decide), x3],
            fun hwf => by simp_all⟩

theorem chooseType_lists (usable : Bool) (tMap : QVariantMap) (options : List MatchOption) :
    engineLists (chooseType usable tMap options).2.2 = engineLists options
      ∧ eachList (chooseType usable tMap options).2.2 = eachList options := by
  unfold chooseType
  dsimp only
  split_ifs
  all_goals first
    | exact ⟨rfl, rfl⟩
    | exact ⟨takeOption_engineLists _ (by decide) _, takeOption_eachList _ (by decide) _⟩

theorem chooseSeed_lists (wants : Bool) (tMap : QVariantMap) (file : String)
    (qrand : List Nat) (options rest : List MatchOption) (seed : Nat)
    (h : chooseSeed wants tMap file qrand options = some (seed, rest)) :
    engineLists rest = engineLists options ∧ eachList rest = eachList options := by
  unfold chooseSeed at h
  dsimp only at h
  split_ifs at h
  all_goals
    simp only [Option.map_eq_some', Option.some.injEq, Prod.mk.injEq] at h
    obtain ⟨_, _, _, rfl⟩ := h
    first
      | exact ⟨rfl, rfl⟩
      | exact ⟨takeOption_engineLists _ (by decide) _, takeOption_eachList _ (by decide) _⟩


theorem parseMatch_cli (env : Env) (menv : MatchEnv) (options : List MatchOption)
    (m : EngineMatch) (hres : resumes menv options = false)
    (hm : parseMatch env menv options = some m) :
    ∃ (file : String) (seed : Option Nat) (kind : TournamentKind) (s : ParseState),
      finishMatch env menv (resumeWanted menv options) file seed s = some m
        ∧ s.engines = cliRoster env options
        ∧ s.eList = engineLists options
        ∧ (resumeWanted menv options = false →
            s.eMap = { engines := none, each := eachList options })
        ∧ s.eachOptions = (eachList options).getD []
        ∧ s.tournament.players = (menv.newTournament kind).players
        ∧ ∀ l ∈ engineLists options, (parseEngine env [] [] l freshEngine).1 = true := by
  rw [parseMatch_eq] at hm
  cases ho : openFile menv options with
  | none => rw [ho] at hm; exact absurd hm (by simp)
  | some q =>
    obtain ⟨file, wants, tfMap, rest⟩ := q
    rw [ho] at hm
    have hu : usingTournamentFile wants tfMap = false := by
      simpa [resumes, ho] using hres
    have hw : resumeWanted menv options = wants := by simp [resumeWanted, ho]
    obtain ⟨o1, o2, o3⟩ := openFile_lists menv options rest file wants tfMap ho
    simp only [parseMatchFrom, hu] at hm
    obtain ⟨t1, t2⟩ := chooseType_lists false (tfMap.tournamentSettings.getD []) rest
    cases hk : TournamentFactory.create
        (chooseType false (tfMap.tournamentSettings.getD []) rest).1 with
    | none => rw [hk] at hm; exact absurd hm (by simp)
    | some kind =>
      rw [hk] at hm
      simp only at hm
      cases hs : chooseSeed wants
          (chooseType false (tfMap.tournamentSettings.getD []) rest).2.1 file menv.qrand
          (chooseType false (tfMap.tournamentSettings.getD []) rest).2.2 with
      | none => rw [hs] at hm; exact absurd hm (by simp)
      | some sr =>
        obtain ⟨srand, opts⟩ := sr
        rw [hs] at hm
        simp only [Bool.false_eq_true, if_false] at hm
        obtain ⟨c1, c2⟩ := chooseSeed_lists _ _ _ _ _ _ _ hs
        cases ha : applyOptions env opts (initialState menv kind tfMap
            (applySeed srand
              (chooseType false (tfMap.tournamentSettings.getD []) rest).2.1).2) with
        | none => rw [ha] at hm; exact absurd hm (by simp)
        | some s =>
          rw [ha] at hm
          simp only at hm
          obtain ⟨a1, a2, a3, a4, a5, a6, a7⟩ := applyOptions_roster env opts _ s ha
          have el : engineLists opts = engineLists options := by rw [c1, t1, o1]
          have xl : eachList opts = eachList options := by rw [c2, t2, o2]
          rw [el] at a1 a2 a6
          rw [xl] at a4 a5
          refine ⟨file, (applySeed srand
            (chooseType false (tfMap.tournamentSettings.getD []) rest).2.1).1, kind, s,
            ?_, ?_, ?_, ?_, ?_, ?_, a6⟩
          · rw [hw]; exact hm
          · rw [a2]; rfl
          · rw [a1]; rfl
          · intro hwf
            rw [hw] at hwf
            have he := o3 hwf
            subst he
            have e1 : s.eMap.engines = none := by rw [a3]; rfl
            have e2 : s.eMap.each = eachList options := by
              rw [a4]
              cases eachList options <;> rfl
            cases hse : s.eMap with
            | mk en ea =>
              rw [hse] at e1 e2
              simp only at e1 e2
              rw [e1, e2]
          · rw [a5]
            cases eachList options <;> rfl
          · rw [a7]; rfl

/-! ### From the tournament file to the roster -/

theorem applyEach_length (env : Env) (each : List String) (engines : List EngineData) :
    (applyEach env each engines).2.length = engines.length := by
  induction engines with
  | nil => rfl
  | cons e rest ih =>
    unfold applyEach
    dsimp only
    split_ifs
    · rfl
    · simp [ih]

theorem eachStage_length (env : Env) (s : ParseState) :
    (eachStage env s).2.length = s.engines.length := by
  unfold eachStage
  split_ifs
  · exact applyEach_length env _ _
  · rfl

theorem replayProgress_roster (wantsResume : Bool) (s : ParseState) :
    (replayProgress wantsResume s).eMap = s.eMap
      ∧ (replayProgress wantsResume s).eList = s.eList
      ∧ (replayProgress wantsResume s).engines = s.engines
      ∧ (replayProgress wantsResume s).eachOptions = s.eachOptions := by
  unfold replayProgress
  cases s.tfMap.matchProgress with
  | none => exact ⟨rfl, rfl, rfl, rfl⟩
  | some p =>
    dsimp only
    split_ifs <;> exact ⟨rfl, rfl, rfl, rfl⟩

theorem hydrateStrikes_roster (s : ParseState) :
    (hydrateStrikes s).eMap = s.eMap ∧ (hydrateStrikes s).eList = s.eList
      ∧ (hydrateStrikes s).engines = s.engines
      ∧ (hydrateStrikes s).eachOptions = s.eachOptions := by
  unfold hydrateStrikes
  cases s.tfMap.strikes <;> exact ⟨rfl, rfl, rfl, rfl⟩

theorem hydrate_roster (env : Env) (wantsResume : Bool) (s : ParseState) :
    (hydrate env wantsResume s).eMap = s.eMap
      ∧ (s.eMap.engines = none →
          (hydrate env wantsResume s).engines = s.engines)
      ∧ (∀ L, s.eMap.engines = some L → (hydrate env wantsResume s).eList = L) := by
  obtain ⟨r1, r2, r3, _⟩ := replayProgress_roster wantsResume
    (hydrateStrikes (hydrateAdjudication env (hydrateSettings s)))
  obtain ⟨s1, s2, s3, _⟩ := hydrateStrikes_roster (hydrateAdjudication env (hydrateSettings s))
  have b1 : (hydrateAdjudication env (hydrateSettings s)).eMap = s.eMap := rfl
  have b3 : (hydrateAdjudication env (hydrateSettings s)).engines = s.engines := rfl
  have e1 : (replayProgress wantsResume
      (hydrateStrikes (hydrateAdjudication env (hydrateSettings s)))).eMap = s.eMap := by
    rw [r1, s1, b1]
  have e3 : (replayProgress wantsResume
      (hydrateStrikes (hydrateAdjudication env (hydrateSettings s)))).engines = s.engines := by
    rw [r3, s3, b3]
  unfold hydrate hydrateEngines
  generalize replayProgress wantsResume
      (hydrateStrikes (hydrateAdjudication env (hydrateSettings s))) = u at e1 e3
  have k : ∀ v : ParseState, (hydrateEach v).eMap = v.eMap
      ∧ (hydrateEach v).engines = v.engines ∧ (hydrateEach v).eList = v.eList := by
    intro v
    unfold hydrateEach
    cases v.eMap.each <;> exact ⟨rfl, rfl, rfl⟩
  rw [(k _).1, (k _).2.1, (k _).2.2]
  unfold hydrateRoster
  cases hu : u.eMap.engines with
  | none =>
    refine ⟨e1, fun _ => e3, ?_⟩
    intro L hL
    rw [← e1, hu] at hL
    exact absurd hL (by simp)
  | some L0 =>
    refine ⟨e1, ?_, ?_⟩
    · intro hn
      rw [← e1, hu] at hn
      exact absurd hn (by simp)
    · intro L hL
      rw [← e1, hu] at hL
      cases hL
      rfl

theorem parseMatch_resume (env : Env) (menv : MatchEnv) (options : List MatchOption)
    (m : EngineMatch) (hres : resumes menv options = true)
    (hm : parseMatch env menv options = some m) :
    ∃ (file : String) (seed : Option Nat) (s0 : ParseState) (e : EngineSettings),
      fileEngineSettings menv = some e ∧ s0.eMap = e ∧ s0.engines = []
        ∧ finishMatch env menv true file seed (hydrate env true s0) = some m := by
  rw [parseMatch_eq] at hm
  cases ho : openFile menv options with
  | none => rw [ho] at hm; exact absurd hm (by simp)
  | some q =>
    obtain ⟨file, wants, tfMap, rest⟩ := q
    rw [ho] at hm
    have hu : usingTournamentFile wants tfMap = true := by
      simpa [resumes, ho] using hres
    have hwt : wants = true := by
      unfold usingTournamentFile at hu
      simp only [Bool.and_eq_true] at hu
      exact hu.1
    subst hwt
    have hne : ∃ e, tfMap.engineSettings = some e := by
      unfold usingTournamentFile at hu
      cases he : tfMap.engineSettings with
      | none =>
        rw [he] at hu
        simp [EngineSettings.isEmpty] at hu
      | some e => exact ⟨e, rfl⟩
    obtain ⟨e, he⟩ := hne
    have hfile : fileEngineSettings menv = some e := by
      unfold openFile at ho
      dsimp only at ho
      unfold fileEngineSettings
      cases hf : menv.file with
      | missing =>
        rw [hf] at ho
        split_ifs at ho
        all_goals
          simp only [Option.some.injEq, Prod.mk.injEq] at ho
          obtain ⟨_, hb, _, _⟩ := ho
          simp at hb
      | unreadable =>
        rw [hf] at ho
        split_ifs at ho
        all_goals
          simp only [Option.some.injEq, Prod.mk.injEq] at ho
          obtain ⟨_, hb, _, _⟩ := ho
          simp at hb
      | content t =>
        rw [hf] at ho
        show t.engineSettings = some e
        split_ifs at ho
        all_goals
          simp only [Option.some.injEq, Prod.mk.injEq] at ho
          obtain ⟨_, hb, ht, _⟩ := ho
          first
            | (rw [ht]; exact he)
            | (subst ht; simp [TournamentFileMap.empty] at he)
    simp only [parseMatchFrom, hu] at hm
    cases hk : TournamentFactory.create
        (chooseType true (tfMap.tournamentSettings.getD []) rest).1 with
    | none => rw [hk] at hm; exact absurd hm (by simp)
    | some kind =>
      rw [hk] at hm
      simp only at hm
      cases hs : chooseSeed true
          (chooseType true (tfMap.tournamentSettings.getD []) rest).2.1 file menv.qrand
          (chooseType true (tfMap.tournamentSettings.getD []) rest).2.2 with
      | none => rw [hs] at hm; exact absurd hm (by simp)
      | some sr =>
        obtain ⟨srand, opts⟩ := sr
        rw [hs] at hm
        simp only [if_true] at hm
        refine ⟨file, _, _, e, hfile, ?_, ?_, hm⟩
        · simp [initialState, he]
        · rfl

/-! ### The engine settings written to the tournament file -/

theorem resumes_of_resumeWanted (menv : MatchEnv) (options : List MatchOption)
    (h : resumeWanted menv options = false) : resumes menv options = false := by
  unfold resumeWanted at h
  unfold resumes
  cases ho : openFile menv options with
  | none => rfl
  | some q =>
    obtain ⟨file, wants, tfMap, rest⟩ := q
    rw [ho] at h
    simp only at h
    subst h
    rfl

theorem openFile_wants (menv : MatchEnv) (options rest : List MatchOption) (file : String)
    (tfMap : TournamentFileMap)
    (h : openFile menv options = some (file, true, tfMap, rest)) :
    menv.file = .content tfMap := by
  unfold openFile at h
  dsimp only at h
  cases hf : menv.file with
  | missing =>
    rw [hf] at h
    split_ifs at h
    all_goals
      simp only [Option.some.injEq, Prod.mk.injEq] at h
      obtain ⟨_, hb, _, _⟩ := h
      simp at hb
  | unreadable =>
    rw [hf] at h
    split_ifs at h
    all_goals
      simp only [Option.some.injEq, Prod.mk.injEq] at h
      obtain ⟨_, hb, _, _⟩ := h
      simp at hb
  | content t =>
    rw [hf] at h
    split_ifs at h
    all_goals
      simp only [Option.some.injEq, Prod.mk.injEq] at h
      obtain ⟨_, hb, ht, _⟩ := h
      first
        | (rw [ht])
        | contradiction

theorem parseMatch_cli_each (env : Env) (menv : MatchEnv) (options : List MatchOption)
    (m : EngineMatch) (w : TournamentFileMap) (hres : resumes menv options = false)
    (hm : parseMatch env menv options = some m) (hw : m.written = some w) :
    w.engineSettings = some
      { engines := some (engineLists options)
        each := match eachList options with
          | some l => some l
          | none =>
            if resumeWanted menv options = true then
              (fileEngineSettings menv).bind (fun e => e.each)
            else none } := by
  rw [parseMatch_eq] at hm
  cases ho : openFile menv options with
  | none => rw [ho] at hm; exact absurd hm (by simp)
  | some q =>
    obtain ⟨file, wants, tfMap, rest⟩ := q
    rw [ho] at hm
    have hu : usingTournamentFile wants tfMap = false := by
      simpa [resumes, ho] using hres
    have hwr : resumeWanted menv options = wants := by simp [resumeWanted, ho]
    obtain ⟨o1, o2, o3⟩ := openFile_lists menv options rest file wants tfMap ho
    simp only [parseMatchFrom, hu] at hm
    obtain ⟨t1, t2⟩ := chooseType_lists false (tfMap.tournamentSettings.getD []) rest
    cases hk : TournamentFactory.create
        (chooseType false (tfMap.tournamentSettings.getD []) rest).1 with
    | none => rw [hk] at hm; exact absurd hm (by simp)
    | some kind =>
      rw [hk] at hm
      simp only at hm
      cases hs : chooseSeed wants
          (chooseType false (tfMap.tournamentSettings.getD []) rest).2.1 file menv.qrand
          (chooseType false (tfMap.tournamentSettings.getD []) rest).2.2 with
      | none => rw [hs] at hm; exact absurd hm (by simp)
      | some sr =>
        obtain ⟨srand, opts⟩ := sr
        rw [hs] at hm
        simp only [Bool.false_eq_true, if_false] at hm
        obtain ⟨c1, c2⟩ := chooseSeed_lists _ _ _ _ _ _ _ hs
        cases ha : applyOptions env opts (initialState menv kind tfMap
            (applySeed srand
              (chooseType false (tfMap.tournamentSettings.getD []) rest).2.1).2) with
        | none => rw [ha] at hm; exact absurd hm (by simp)
        | some s =>
          rw [ha] at hm
          simp only at hm
          obtain ⟨a1, _, _, a4, _, _, _⟩ := applyOptions_roster env opts _ s ha
          have el : engineLists opts = engineLists options := by rw [c1, t1, o1]
          have xl : eachList opts = eachList options := by rw [c2, t2, o2]
          rw [el] at a1
          rw [xl] at a4
          obtain ⟨_, _, _, _, hws⟩ := finishMatch_some env menv _ file _ s m hm
          rw [hws w hw, hwr]
          have e0 : (initialState menv kind tfMap (applySeed srand
              (chooseType false (tfMap.tournamentSettings.getD []) rest).2.1).2).eMap.each
              = if wants = true then (fileEngineSettings menv).bind (fun e => e.each)
                else none := by
            cases wants with
            | false =>
              rw [o3 rfl]
              rfl
            | true =>
              have hf := openFile_wants menv options rest file tfMap ho
              simp only [initialState, fileEngineSettings, hf, if_true]
              cases tfMap.engineSettings <;> rfl
          have e1 : s.eList = engineLists options := by rw [a1]; rfl
          rw [e1]
          congr 1
          cases hse : s.eMap with
          | mk en ea =>
            rw [hse] at a4
            simp only at a4
            rw [a4, e0]

/-- C12 on the code: when `parseMatch` accepts a command line and writes the tournament
file, then (1) without `-resume` in effect the `engineSettings` written hold under
`engines` the argument lists of the `-engine` options in command-line order, each list
as given, and under `each` the argument list of the (last) `-each` option, with no
`each` entry when there is none; (2) when the run resumes from the file, the
`engineSettings` written are those read from it; (3) with `-resume` in effect on a file
the run does not resume from, `engines` is as in (1) and `each` is the argument list of
the (last) `-each` option or, without one, the `each` entry of the file. -/
theorem engine_settings_written (env : Env) (menv : MatchEnv) (options : List MatchOption)
    (m : EngineMatch) (w : TournamentFileMap)
    (hm : parseMatch env menv options = some m) (hw : m.written = some w) :
    (resumeWanted menv options = false →
        w.engineSettings =
          some { engines := some (engineLists options), each := eachList options })
      ∧ (resumes menv options = true → w.engineSettings = fileEngineSettings menv)
      ∧ (resumeWanted menv options = true → resumes menv options = false →
          w.engineSettings = some
            { engines := some (engineLists options)
              each := match eachList options with
                | some l => some l
                | none => (fileEngineSettings menv).bind (fun e => e.each) }) := by
  refine ⟨?_, ?_, ?_⟩
  · intro hno
    rw [parseMatch_cli_each env menv options m w (resumes_of_resumeWanted menv options hno)
      hm hw, hno]
    cases eachList options <;> rfl
  · intro hres
    obtain ⟨file, seed, s0, e, hfe, he, hn, hf⟩ := parseMatch_resume env menv options m hres hm
    obtain ⟨_, _, hlen, _, hws⟩ := finishMatch_some env menv true file seed _ m hf
    obtain ⟨r1, r2, r3⟩ := hydrate_roster env true s0
    rw [eachStage_length] at hlen
    rw [hws w hw, hfe, r1, he]
    cases hen : e.engines with
    | none =>
      rw [r2 (by rw [he]; exact hen), hn] at hlen
      simp at hlen
    | some L =>
      rw [r3 L (by rw [he]; exact hen)]
      cases e with
      | mk en ea =>
        simp only at hen
        subst hen
        rfl
  · intro hyes hres
    rw [parseMatch_cli_each env menv options m w hres hm hw, hyes]
    rfl

/-- C12, instances: the first run of `openingsRun` writes its two `-engine` lists and no
`each`; the run resumed from that file, whose settings hold an `openings` entry, is
accepted and writes back the engine settings it read; and `staleRun`, with `-resume` on
a file it does not resume from, writes the `each` entry of that file. -/
theorem engine_settings_written_witness :
    (∃ m w, parseMatch sampleEnv (sampleMatchEnv .missing) openingsRun = some m
      ∧ m.written = some w
      ∧ resumeWanted (sampleMatchEnv .missing) openingsRun = false
      ∧ w.engineSettings = some
          { engines := some [["name=A", "cmd=a", "proto=uci", "tc=40/60"],
                             ["name=B", "cmd=b", "proto=uci", "tc=40/60"]]
            each := none }
      ∧ ∃ m' w', parseMatch sampleEnv (sampleMatchEnv (.content w)) resumeRun = some m'
        ∧ m'.written = some w'
        ∧ resumes (sampleMatchEnv (.content w)) resumeRun = true
        ∧ w'.engineSettings = w.engineSettings)
      ∧ ∃ m w, parseMatch sampleEnv (sampleMatchEnv (.content staleEachFile)) staleRun = some m
        ∧ m.written = some w
        ∧ resumeWanted (sampleMatchEnv (.content staleEachFile)) staleRun = true
        ∧ resumes (sampleMatchEnv (.content staleEachFile)) staleRun = false
        ∧ w.engineSettings = some
            { engines := some [["name=A", "cmd=a", "proto=uci", "tc=40/60"],
                               ["name=B", "cmd=b", "proto=uci", "tc=40/60"]]
              each := some ["ponder"] } := by
  constructor
  · have h1 : (parseMatch sampleEnv (sampleMatchEnv .missing) openingsRun).isSome = true := by
      decide
    obtain ⟨m, hm⟩ := Option.isSome_iff_exists.1 h1
    have h2 : ((parseMatch sampleEnv (sampleMatchEnv .missing) openingsRun).bind
        (fun m => m.written)).isSome = true := by decide
    rw [hm] at h2
    obtain ⟨w, hw0⟩ := Option.isSome_iff_exists.1 h2
    have hw : m.written = some w := hw0
    have hno : resumeWanted (sampleMatchEnv .missing) openingsRun = false := by decide
    have hes := (engine_settings_written sampleEnv (sampleMatchEnv .missing) openingsRun m w
      hm hw).1 hno
    have hwv : (firstMatch openingsRun).bind (fun m => m.written) = some w := by
      unfold firstMatch
      rw [hm]
      exact hw
    have h3 : (resumedMatch openingsRun).isSome = true := by decide
    have hres : ∀ w0, (firstMatch openingsRun).bind (fun m => m.written) = some w0 →
        resumes (sampleMatchEnv (.content w0)) resumeRun = true := by
      intro w0 h0
      have : ((firstMatch openingsRun).bind (fun m => m.written)).map
          (fun w0 => resumes (sampleMatchEnv (.content w0)) resumeRun) = some true := by
        decide
      rw [h0] at this
      simpa using this
    have hrm : resumedMatch openingsRun =
        parseMatch sampleEnv (sampleMatchEnv (.content w)) resumeRun := by
      unfold resumedMatch firstMatch
      rw [hm]
      simp only
      rw [hw]
    rw [hrm] at h3
    obtain ⟨m', hm'⟩ := Option.isSome_iff_exists.1 h3
    have h4 : ((resumedMatch openingsRun).bind (fun m => m.written)).isSome = true := by
      decide
    rw [hrm, hm'] at h4
    obtain ⟨w', hw1⟩ := Option.isSome_iff_exists.1 h4
    have hw' : m'.written = some w' := hw1
    have hes' := (engine_settings_written sampleEnv (sampleMatchEnv (.content w)) resumeRun
      m' w' hm' hw').2.1 (hres w hwv)
    exact ⟨m, w, hm, hw, hno, hes, m', w', hm', hw', hres w hwv, hes'⟩
  · have h1 : (parseMatch sampleEnv (sampleMatchEnv (.content staleEachFile))
        staleRun).isSome = true := by decide
    obtain ⟨m, hm⟩ := Option.isSome_iff_exists.1 h1
    have h2 : ((parseMatch sampleEnv (sampleMatchEnv (.content staleEachFile)) staleRun).bind
        (fun m => m.written)).isSome = true := by decide
    rw [hm] at h2
    obtain ⟨w, hw0⟩ := Option.isSome_iff_exists.1 h2
    have hw : m.written = some w := hw0
    have hyes : resumeWanted (sampleMatchEnv (.content staleEachFile)) staleRun = true := by
      decide
    have hres : resumes (sampleMatchEnv (.content staleEachFile)) staleRun = false := by
      decide
    exact ⟨m, w, hm, hw, hyes, hres,
      (engine_settings_written sampleEnv (sampleMatchEnv (.content staleEachFile)) staleRun
        m w hm hw).2.2 hyes hres⟩

/-- C12 fails on the code for `-resume` on a tournament file the run does not resume
from.  The file `staleEachFile` has no tournament settings and an `each` entry `ponder`
in its engine settings; `staleRun` gives `-resume`, two `-engine` options and no `-each`.
The run is accepted without hydrating from the file and no player ponders, yet the
`engineSettings` written hold `each = ponder`, which the command line never supplied;
the run resumed from the file written applies it, and both players ponder. -/
theorem stale_each_written :
    resumes (sampleMatchEnv (.content staleEachFile)) staleRun = false
      ∧ eachList staleRun = none
      ∧ fileEngineSettings (sampleMatchEnv (.content staleEachFile)) =
          some { engines := none, each := some ["ponder"] }
      ∧ staleMatch.map (fun m => m.tournament.players.map (fun p => p.config.m_pondering)) =
          some [false, false]
      ∧ staleMatch.map (fun m => m.written.map (fun w => w.engineSettings)) =
          some (some (some
            { engines := some [["name=A", "cmd=a", "proto=uci", "tc=40/60"],
                               ["name=B", "cmd=b", "proto=uci", "tc=40/60"]]
              each := some ["ponder"] }))
      ∧ staleResumed.map
          (fun m => m.tournament.players.map (fun p => p.config.m_pondering)) =
          some [true, true] := by
  refine ⟨by decide, by decide, by decide, by decide, by decide, by decide⟩

/-! ### The number of engines -/

theorem rosterStep_length (env : Env) (engines : List EngineData) (args : List String) :
    (rosterStep env engines args).length ≤ engines.length + 1 := by
  unfold rosterStep
  split_ifs
  · simp
  · omega

theorem roster_length (env : Env) (lists : List (List String)) (engines : List EngineData) :
    (lists.foldl (rosterStep env) engines).length ≤ engines.length + lists.length := by
  induction lists generalizing engines with
  | nil => simp
  | cons l rest ih =>
    have h1 := ih (rosterStep env engines l)
    have h2 := rosterStep_length env engines l
    simp only [List.foldl_cons, List.length_cons]
    omega

theorem rosterStep_names (env : Env) (engines : List EngineData) (args : List String)
    (h : (engines.map (fun e => e.config.m_name)).Nodup) :
    ((rosterStep env engines args).map (fun e => e.config.m_name)).Nodup := by
  unfold rosterStep
  split_ifs with hc
  · simp only [Bool.and_eq_true, Bool.not_eq_true', List.any_eq_false] at hc
    rw [List.map_append, List.nodup_append]
    refine ⟨h, by simp, ?_⟩
    intro a ha hb
    simp only [List.map_cons, List.map_nil, List.mem_singleton] at hb
    obtain ⟨e, he, hn⟩ := List.mem_map.1 ha
    have := hc.2 e he
    apply this
    simp [EngineData.eq, hn, hb]
  · exact h

theorem roster_names (env : Env) (lists : List (List String)) (engines : List EngineData)
    (h : (engines.map (fun e => e.config.m_name)).Nodup) :
    ((lists.foldl (rosterStep env) engines).map (fun e => e.config.m_name)).Nodup := by
  induction lists generalizing engines with
  | nil => exact h
  | cons l rest ih => exact ih _ (rosterStep_names env engines l h)

/-- C14 fails on resume: `resumeRun` has no `-engine` option at all, and the run of it on
the file that the first run of `settingsRun` wrote is accepted, with the two engines of
the file as players. -/
theorem resume_needs_no_engine_option :
    engineLists resumeRun = []
      ∧ (cliRoster sampleEnv resumeRun).length = 0
      ∧ (resumedMatch settingsRun).map
          (fun m => m.tournament.players.map (fun p => p.config.m_name)) =
        some ["A", "B"] := by
  refine ⟨?_, ?_, ?_⟩
  · decide
  · decide
  · decide

/-- C14, amended: for every command line of a run that does not resume from a usable
tournament file, `parseMatch` returns no match when the `-engine` options yield fewer
than two engines in the roster, where the roster holds one engine per name (its names are
pairwise distinct); in particular when there are fewer than two `-engine` options. -/
theorem two_engines_required (env : Env) (menv : MatchEnv) (options : List MatchOption)
    (hres : resumes menv options = false) :
    ((cliRoster env options).length < 2 → parseMatch env menv options = none)
      ∧ ((engineLists options).length < 2 → parseMatch env menv options = none)
      ∧ ((cliRoster env options).map (fun e => e.config.m_name)).Nodup := by
  have key : (cliRoster env options).length < 2 → parseMatch env menv options = none := by
    intro hlt
    cases hm : parseMatch env menv options with
    | none => rfl
    | some m =>
      obtain ⟨file, seed, kind, s, hf, h1, _⟩ := parseMatch_cli env menv options m hres hm
      obtain ⟨_, _, hlen, _⟩ := finishMatch_some env menv _ file seed s m hf
      rw [eachStage_length, h1] at hlen
      omega
  refine ⟨key, ?_, roster_names env _ [] (by simp)⟩
  intro hlt
  apply key
  have := roster_length env (engineLists options) []
  simp only [List.length_nil, zero_add] at this
  unfold cliRoster
  omega

/-- C14, an instance: two `-engine` options that both name their engine A give a roster
of one engine, and the command line is rejected. -/
theorem two_engines_required_witness :
    resumes (sampleMatchEnv .missing) sameNameRun = false
      ∧ (engineLists sameNameRun).length = 2
      ∧ (cliRoster sampleEnv sameNameRun).length = 1
      ∧ parseMatch sampleEnv (sampleMatchEnv .missing) sameNameRun = none :=
  ⟨by decide, by decide, by decide,
   (two_engines_required sampleEnv (sampleMatchEnv .missing) sameNameRun (by decide)).1
    (by decide)⟩

/-! ### The players -/

theorem playable_iff (env : Env) (e : EngineData) :
    playable env e = true ↔
      e.config.m_command ≠ "" ∧ e.config.m_protocol ≠ "" ∧ env.tcIsValid e.tc = true := by
  unfold playable
  simp only [Bool.and_eq_true, Bool.not_eq_true', ne_eq]
  rw [← Bool.not_eq_true, ← Bool.not_eq_true, String.isEmpty_iff, String.isEmpty_iff]
  tauto

/-- C15: in the tail of `parseMatch`, with the roster as the `-each` loop leaves it: when
some engine of the roster has an empty command, an empty protocol or an invalid time
control, no match is returned; the players added are the engines before the first such
engine, none after it; every engine added as a player has a command, a protocol and a
valid time control; and a match that is returned has the whole roster as its players.
The command line `noCommandRun`, whose second engine has no command, is rejected after
its first engine alone was added. -/
theorem unplayable_engine_rejected (env : Env) (menv : MatchEnv) (wantsResume : Bool)
    (tournamentFile : String) (seed : Option Nat) (s : ParseState) :
    ((∃ e ∈ (eachStage env s).2, e.config.m_command = "" ∨ e.config.m_protocol = ""
          ∨ env.tcIsValid e.tc = false) →
        finishMatch env menv wantsResume tournamentFile seed s = none)
      ∧ (addPlayers env (eachStage env s).2 s.tournament).2.players =
          s.tournament.players
            ++ ((eachStage env s).2.takeWhile (playable env)).map toPlayer
      ∧ (∀ e ∈ (eachStage env s).2.takeWhile (playable env),
          e.config.m_command ≠ "" ∧ e.config.m_protocol ≠ ""
            ∧ env.tcIsValid e.tc = true)
      ∧ (∀ m, finishMatch env menv wantsResume tournamentFile seed s = some m →
          m.tournament.players = s.tournament.players ++ (eachStage env s).2.map toPlayer)
      ∧ (firstMatch noCommandRun).isNone = true
      ∧ ((addPlayers sampleEnv (cliRoster sampleEnv noCommandRun)
            (sampleTournament .roundRobin)).2.players.map (fun p => p.config.m_name)) =
          ["A"] := by
  have hall : ∀ m, finishMatch env menv wantsResume tournamentFile seed s = some m →
      (eachStage env s).2.all (playable env) = true
        ∧ m.tournament.players =
            (addPlayers env (eachStage env s).2 s.tournament).2.players := by
    intro m hm
    obtain ⟨_, h2, _, h4, _⟩ := finishMatch_some env menv wantsResume tournamentFile seed s m hm
    rw [(addPlayers_eq env _ _).1] at h2
    exact ⟨h2, h4⟩
  refine ⟨?_, (addPlayers_eq env _ _).2, ?_, ?_, by decide, by decide⟩
  · rintro ⟨e, he, hbad⟩
    cases hm : finishMatch env menv wantsResume tournamentFile seed s with
    | none => rfl
    | some m =>
      have hp := List.all_eq_true.1 (hall m hm).1 e he
      obtain ⟨c1, c2, c3⟩ := (playable_iff env e).1 hp
      rcases hbad with hb | hb | hb
      · exact absurd hb c1
      · exact absurd hb c2
      · rw [c3] at hb
        exact absurd hb (by simp)
  · intro e he
    exact (playable_iff env e).1 (List.mem_takeWhile_imp he)
  · intro m hm
    obtain ⟨ha, hp⟩ := hall m hm
    rw [hp, (addPlayers_eq env _ _).2, List.takeWhile_eq_self_iff.2]
    intro x hx
    exact List.all_eq_true.1 ha x hx

/-! ### What the tournament file records -/

/-- C11 fails on the code for `-bookmode`: the branch of the command-line loop stores the
option for later and leaves `tMap` as it was, and nothing after the loop inserts it.
After the accepted command line `bookmodeRun` (a tournament file, two engines,
`-bookmode ram`) the book mode of the match is `ram`, and the `tournamentSettings`
written to the file hold `eventDate` and `srand` only. -/
theorem bookmode_not_recorded :
    (∀ (env : Env) (o : MatchOption) (s : ParseState), o.name = "-bookmode" →
        (applyOption env o s).map (fun s' => (s'.tMap, s'.bookmodeOption.value)) =
          some (s.tMap, o.value))
      ∧ resumeWanted (sampleMatchEnv .missing) bookmodeRun = false
      ∧ (firstMatch bookmodeRun).map (fun m => m.bookMode) = some (some "ram")
      ∧ (firstMatch bookmodeRun).map (fun m => m.written.map (fun w =>
          (w.tournamentSettings.getD []).map Prod.fst)) = some (some ["eventDate", "srand"])
      ∧ (firstMatch bookmodeRun).map (fun m => m.written.map (fun w =>
          QMap.contains (w.tournamentSettings.getD []) "bookmode")) =
          some (some false) := by
  refine ⟨?_, by decide, by decide, by decide, by decide⟩
  intro env o s ho
  simp [applyOption, ho]

/-- C13 fails on the code when two `-engine` options name the same engine: the
command-line loop keeps one engine per name in the roster and still appends every
argument list to the `engines` list it writes, and the resume branch adds an engine for
every list.  After `duplicateRun` (engines named A, A, B) the roster is A, B; the file
holds three argument lists; the roster of the run resumed from that file is A, A, B. -/
theorem resumed_roster_differs :
    resumeWanted (sampleMatchEnv .missing) duplicateRun = false
      ∧ (firstMatch duplicateRun).map
          (fun m => m.tournament.players.map (fun p => p.config.m_name)) = some ["A", "B"]
      ∧ (firstMatch duplicateRun).map (fun m => m.written.map (fun w => w.engineSettings)) =
          some (some (some
            { engines := some [["name=A", "cmd=a", "proto=uci", "tc=40/60"],
                               ["name=A", "cmd=a2", "proto=uci", "tc=40/60"],
                               ["name=B", "cmd=b", "proto=uci", "tc=40/60"]]
              each := none }))
      ∧ (resumedMatch duplicateRun).map
          (fun m => m.tournament.players.map (fun p => p.config.m_name)) =
          some ["A", "A", "B"] := by
  refine ⟨by decide, by decide, by decide, by decide⟩

/-! ### What one engine argument changes -/

theorem QMap.contains_eq_isSome {V : Type} (m : QMap V) (k : String) :
    QMap.contains m k = (QMap.find m k).isSome := by
  cases h : QMap.find m k with
  | none =>
    have := (QMap.find_eq_none_iff m k).1 h
    rw [← QMap.contains_iff] at this
    simpa using this
  | some v =>
    have hne : QMap.find m k ≠ none := by rw [h]; simp
    rw [Ne, QMap.find_eq_none_iff, not_not, ← QMap.contains_iff] at hne
    simpa using hne

theorem QMap.find_cond_insert {V : Type} (p : Prop) [Decidable p] (k j : String) (v : V)
    (m : QMap V) (h : j ≠ k) :
    QMap.find (if p then QMap.insert k v m else m) j = QMap.find m j := by
  split_ifs
  · exact QMap.find_insert_other k j v m h
  · rfl

theorem QMap.find_cond_self {V : Type} (p : Prop) [Decidable p] (k : String) (v : V)
    (m : QMap V) :
    QMap.find (if p then QMap.insert k v m else m) k =
      if p then some v else QMap.find m k := by
  split_ifs
  · exact QMap.find_insert_self k v m
  · rfl

theorem toVariant_entries (codec : OptionCodec) (c : EngineConfiguration) :
    QMap.find (c.toVariant codec).entries "name" = some (.string c.m_name)
      ∧ QMap.find (c.toVariant codec).entries "command" = some (.string c.m_command)
      ∧ QMap.find (c.toVariant codec).entries "workingDirectory" =
          some (.string c.m_workingDirectory)
      ∧ QMap.find (c.toVariant codec).entries "stderrFile" = some (.string c.m_stderrFile)
      ∧ QMap.find (c.toVariant codec).entries "protocol" = some (.string c.m_protocol)
      ∧ QMap.find (c.toVariant codec).entries "initStrings" =
          (if c.m_initStrings.isEmpty = true then none
            else some (.stringList c.m_initStrings))
      ∧ QMap.find (c.toVariant codec).entries "whitepov" =
          (if c.m_whiteEvalPov = true then some (.bool true) else none)
      ∧ QMap.find (c.toVariant codec).entries "ponder" =
          (if c.m_pondering = true then some (.bool true) else none)
      ∧ QMap.find (c.toVariant codec).entries "restart" =
          (if c.m_restartMode = .RestartOn then some (.string "on")
            else if c.m_restartMode = .RestartOff then some (.string "off") else none)
      ∧ QMap.find (c.toVariant codec).entries "validateClaims" =
          (if c.m_validateClaims = true then none else some (.bool false))
      ∧ QMap.find (c.toVariant codec).entries "variants" =
          (if c.m_variants.count "standard" = c.m_variants.length then none
            else some (.stringList c.m_variants))
      ∧ QMap.find (c.toVariant codec).entries "rating" =
          (if c.m_rating = 0 then none else some (.int c.m_rating)) := by
  unfold EngineConfiguration.toVariant
  lift_lets
  intro m0 m1 m2 m3 m4 m5 m6 m7 m8 m9 m10 m11 o m12
  have z : ∀ j, QMap.find m0 j = none := fun _ => rfl
  have s1 : ∀ j, j ≠ "name" → QMap.find m1 j = QMap.find m0 j :=
    fun j h => QMap.find_insert_other _ j _ _ h
  have s2 : ∀ j, j ≠ "command" → QMap.find m2 j = QMap.find m1 j :=
    fun j h => QMap.find_insert_other _ j _ _ h
  have s3 : ∀ j, j ≠ "workingDirectory" → QMap.find m3 j = QMap.find m2 j :=
    fun j h => QMap.find_insert_other _ j _ _ h
  have s4 : ∀ j, j ≠ "stderrFile" → QMap.find m4 j = QMap.find m3 j :=
    fun j h => QMap.find_insert_other _ j _ _ h
  have s5 : ∀ j, j ≠ "protocol" → QMap.find m5 j = QMap.find m4 j :=
    fun j h => QMap.find_insert_other _ j _ _ h
  have s6 : ∀ j, j ≠ "initStrings" → QMap.find m6 j = QMap.find m5 j :=
    fun j h => QMap.find_cond_insert _ _ j _ _ h
  have s7 : ∀ j, j ≠ "whitepov" → QMap.find m7 j = QMap.find m6 j :=
    fun j h => QMap.find_cond_insert _ _ j _ _ h
  have s8 : ∀ j, j ≠ "ponder" → QMap.find m8 j = QMap.find m7 j :=
    fun j h => QMap.find_cond_insert _ _ j _ _ h
  have s9 : ∀ j, j ≠ "restart" → QMap.find m9 j = QMap.find m8 j := by
    intro j h
    show QMap.find (if _ then _ else if _ then _ else _) j = _
    split_ifs
    · exact QMap.find_insert_other _ j _ _ h
    · exact QMap.find_insert_other _ j _ _ h
    · rfl
  have s10 : ∀ j, j ≠ "validateClaims" → QMap.find m10 j = QMap.find m9 j :=
    fun j h => QMap.find_cond_insert _ _ j _ _ h
  have s11 : ∀ j, j ≠ "variants" → QMap.find m11 j = QMap.find m10 j :=
    fun j h => QMap.find_cond_insert _ _ j _ _ h
  have s12 : ∀ j, j ≠ "rating" → QMap.find m12 j = QMap.find m11 j :=
    fun j h => QMap.find_cond_insert _ _ j _ _ h
  have o1 : QMap.find m1 "name" = some (.string c.m_name) := QMap.find_insert_self _ _ _
  have o2 : QMap.find m2 "command" = some (.string c.m_command) :=
    QMap.find_insert_self _ _ _
  have o3 : QMap.find m3 "workingDirectory" = some (.string c.m_workingDirectory) :=
    QMap.find_insert_self _ _ _
  have o4 : QMap.find m4 "stderrFile" = some (.string c.m_stderrFile) :=
    QMap.find_insert_self _ _ _
  have o5 : QMap.find m5 "protocol" = some (.string c.m_protocol) :=
    QMap.find_insert_self _ _ _
  have o6 : QMap.find m6 "initStrings" = if (!c.m_initStrings.isEmpty) = true then
      some (.stringList c.m_initStrings) else QMap.find m5 "initStrings" :=
    QMap.find_cond_self _ _ _ _
  have o7 : QMap.find m7 "whitepov" = if c.m_whiteEvalPov = true then
      some (.bool true) else QMap.find m6 "whitepov" := QMap.find_cond_self _ _ _ _
  have o8 : QMap.find m8 "ponder" = if c.m_pondering = true then
      some (.bool true) else QMap.find m7 "ponder" := QMap.find_cond_self _ _ _ _
  have o9 : QMap.find m9 "restart" = if c.m_restartMode = .RestartOn then
      some (.string "on") else if c.m_restartMode = .RestartOff then some (.string "off")
      else QMap.find m8 "restart" := by
    show QMap.find (if _ then _ else if _ then _ else _) "restart" = _
    split_ifs
    · exact QMap.find_insert_self _ _ _
    · exact QMap.find_insert_self _ _ _
    · rfl
  have o10 : QMap.find m10 "validateClaims" = if (!c.m_validateClaims) = true then
      some (.bool false) else QMap.find m9 "validateClaims" := QMap.find_cond_self _ _ _ _
  have o11 : QMap.find m11 "variants" =
      if (c.m_variants.count "standard" != c.m_variants.length) = true then
        some (.stringList c.m_variants) else QMap.find m10 "variants" :=
    QMap.find_cond_self _ _ _ _
  have o12 : QMap.find m12 "rating" = if (c.m_rating != 0) = true then
      some (.int c.m_rating) else QMap.find m11 "rating" := QMap.find_cond_self _ _ _ _
  refine ⟨?_, ?_, ?_, ?_, ?_, ?_, ?_, ?_, ?_, ?_, ?_, ?_⟩
  · show QMap.find m12 "name" = _
    rw [s12 _ (by decide), s11 _ (by decide), s10 _ (by decide), s9 _ (by decide),
      s8 _ (by decide), s7 _ (by decide), s6 _ (by decide), s5 _ (by decide),
      s4 _ (by decide), s3 _ (by decide), s2 _ (by decide), o1]
  · show QMap.find m12 "command" = _
    rw [s12 _ (by decide), s11 _ (by decide), s10 _ (by decide), s9 _ (by decide),
      s8 _ (by decide), s7 _ (by decide), s6 _ (by decide), s5 _ (by decide),
      s4 _ (by decide), s3 _ (by decide), o2]
  · show QMap.find m12 "workingDirectory" = _
    rw [s12 _ (by decide), s11 _ (by decide), s10 _ (by decide), s9 _ (by decide),
      s8 _ (by decide), s7 _ (by decide), s6 _ (by decide), s5 _ (by decide),
      s4 _ (by decide), o3]
  · show QMap.find m12 "stderrFile" = _
    rw [s12 _ (by decide), s11 _ (by decide), s10 _ (by decide), s9 _ (by decide),
      s8 _ (by decide), s7 _ (by decide), s6 _ (by decide), s5 _ (by decide), o4]
  · show QMap.find m12 "protocol" = _
    rw [s12 _ (by decide), s11 _ (by decide), s10 _ (by decide), s9 _ (by decide),
      s8 _ (by decide), s7 _ (by decide), s6 _ (by decide), o5]
  · show QMap.find m12 "initStrings" = _
    rw [s12 _ (by decide), s11 _ (by decide), s10 _ (by decide), s9 _ (by decide),
      s8 _ (by decide), s7 _ (by decide), o6, s5 _ (by decide), s4 _ (by decide),
      s3 _ (by decide), s2 _ (by decide), s1 _ (by decide), z]
    cases c.m_initStrings.isEmpty <;> rfl
  · show QMap.find m12 "whitepov" = _
    rw [s12 _ (by decide), s11 _ (by decide), s10 _ (by decide), s9 _ (by decide),
      s8 _ (by decide), o7, s6 _ (by decide), s5 _ (by decide), s4 _ (by decide),
      s3 _ (by decide), s2 _ (by decide), s1 _ (by decide), z]
  · show QMap.find m12 "ponder" = _
    rw [s12 _ (by decide), s11 _ (by decide), s10 _ (by decide), s9 _ (by decide), o8,
      s7 _ (by decide), s6 _ (by decide), s5 _ (by decide), s4 _ (by decide),
      s3 _ (by decide), s2 _ (by decide), s1 _ (by decide), z]
  · show QMap.find m12 "restart" = _
    rw [s12 _ (by decide), s11 _ (by decide), s10 _ (by decide), o9, s8 _ (by decide),
      s7 _ (by decide), s6 _ (by decide), s5 _ (by decide), s4 _ (by decide),
      s3 _ (by decide), s2 _ (by decide), s1 _ (by decide), z]
  · show QMap.find m12 "validateClaims" = _
    rw [s12 _ (by decide), s11 _ (by decide), o10, s9 _ (by decide), s8 _ (by decide),
      s7 _ (by decide), s6 _ (by decide), s5 _ (by decide), s4 _ (by decide),
      s3 _ (by decide), s2 _ (by decide), s1 _ (by decide), z]
    cases c.m_validateClaims <;> rfl
  · show QMap.find m12 "variants" = _
    rw [s12 _ (by decide), o11, s10 _ (by decide), s9 _ (by decide), s8 _ (by decide),
      s7 _ (by decide), s6 _ (by decide), s5 _ (by decide), s4 _ (by decide),
      s3 _ (by decide), s2 _ (by decide), s1 _ (by decide), z]
    by_cases h : c.m_variants.count "standard" = c.m_variants.length <;> simp [h]
  · show QMap.find m12 "rating" = _
    rw [o12, s11 _ (by decide), s10 _ (by decide), s9 _ (by decide), s8 _ (by decide),
      s7 _ (by decide), s6 _ (by decide), s5 _ (by decide), s4 _ (by decide),
      s3 _ (by decide), s2 _ (by decide), s1 _ (by decide), z]
    by_cases h : c.m_rating = 0 <;> simp [h]

theorem fromVariant_fields (codec : OptionCodec) (v : ConfigurationMap)
    (ho : v.options = none) :
    (EngineConfiguration.fromVariant codec v).m_name = (QMap.value v.entries "name").toQString
      ∧ (EngineConfiguration.fromVariant codec v).m_command =
          (QMap.value v.entries "command").toQString
      ∧ (EngineConfiguration.fromVariant codec v).m_workingDirectory =
          (QMap.value v.entries "workingDirectory").toQString
      ∧ (EngineConfiguration.fromVariant codec v).m_stderrFile =
          (QMap.value v.entries "stderrFile").toQString
      ∧ (EngineConfiguration.fromVariant codec v).m_protocol =
          (QMap.value v.entries "protocol").toQString
      ∧ (EngineConfiguration.fromVariant codec v).m_arguments = []
      ∧ (EngineConfiguration.fromVariant codec v).m_options = []
      ∧ (EngineConfiguration.fromVariant codec v).m_initStrings =
          (if QMap.contains v.entries "initStrings" = true then
            (QMap.value v.entries "initStrings").toStringList else [])
      ∧ (EngineConfiguration.fromVariant codec v).m_whiteEvalPov =
          (if QMap.contains v.entries "whitepov" = true then
            (QMap.value v.entries "whitepov").toBool else false)
      ∧ (EngineConfiguration.fromVariant codec v).m_pondering =
          (if QMap.contains v.entries "ponder" = true then
            (QMap.value v.entries "ponder").toBool else false)
      ∧ (EngineConfiguration.fromVariant codec v).m_validateClaims =
          (if QMap.contains v.entries "validateClaims" = true then
            (QMap.value v.entries "validateClaims").toBool else true)
      ∧ (EngineConfiguration.fromVariant codec v).m_variants =
          (if QMap.contains v.entries "variants" = true then
            (QMap.value v.entries "variants").toStringList else ["standard"])
      ∧ (EngineConfiguration.fromVariant codec v).m_restartMode =
          (if QMap.contains v.entries "restart" = true then
            (if (QMap.value v.entries "restart").toQString = "auto" then .RestartAuto
             else if (QMap.value v.entries "restart").toQString = "on" then .RestartOn
             else if (QMap.value v.entries "restart").toQString = "off" then .RestartOff
             else .RestartAuto)
           else .RestartAuto)
      ∧ (EngineConfiguration.fromVariant codec v).m_rating =
          (if QMap.contains v.entries "rating" = true then
            (if (QMap.value v.entries "rating").toInt > 0 then
              (QMap.value v.entries "rating").toInt else 0)
           else 0) := by
  refine ⟨?_, ?_, ?_, ?_, ?_, ?_, ?_, ?_, ?_, ?_, ?_, ?_, ?_, ?_⟩
  · simp only [EngineConfiguration.fromVariant, ho, apply_ite EngineConfiguration.m_name,
      EngineConfiguration.setName, EngineConfiguration.setCommand,
      EngineConfiguration.setWorkingDirectory, EngineConfiguration.setStderrFile,
      EngineConfiguration.setProtocol, EngineConfiguration.setInitStrings,
      EngineConfiguration.setWhiteEvalPov, EngineConfiguration.setPondering,
      EngineConfiguration.setRestartMode, EngineConfiguration.setClaimsValidated,
      EngineConfiguration.setSupportedVariants, EngineConfiguration.setRating,
      EngineConfiguration.default, ite_self]
  · simp only [EngineConfiguration.fromVariant, ho, apply_ite EngineConfiguration.m_command,
      EngineConfiguration.setName, EngineConfiguration.setCommand,
      EngineConfiguration.setWorkingDirectory, EngineConfiguration.setStderrFile,
      EngineConfiguration.setProtocol, EngineConfiguration.setInitStrings,
      EngineConfiguration.setWhiteEvalPov, EngineConfiguration.setPondering,
      EngineConfiguration.setRestartMode, EngineConfiguration.setClaimsValidated,
      EngineConfiguration.setSupportedVariants, EngineConfiguration.setRating,
      EngineConfiguration.default, ite_self]
  · simp only [EngineConfiguration.fromVariant, ho, apply_ite EngineConfiguration.m_workingDirectory,
      EngineConfiguration.setName, EngineConfiguration.setCommand,
      EngineConfiguration.setWorkingDirectory, EngineConfiguration.setStderrFile,
      EngineConfiguration.setProtocol, EngineConfiguration.setInitStrings,
      EngineConfiguration.setWhiteEvalPov, EngineConfiguration.setPondering,
      EngineConfiguration.setRestartMode, EngineConfiguration.setClaimsValidated,
      EngineConfiguration.setSupportedVariants, EngineConfiguration.setRating,
      EngineConfiguration.default, ite_self]
  · simp only [EngineConfiguration.fromVariant, ho, apply_ite EngineConfiguration.m_stderrFile,
      EngineConfiguration.setName, EngineConfiguration.setCommand,
      EngineConfiguration.setWorkingDirectory, EngineConfiguration.setStderrFile,
      EngineConfiguration.setProtocol, EngineConfiguration.setInitStrings,
      EngineConfiguration.setWhiteEvalPov, EngineConfiguration.setPondering,
      EngineConfiguration.setRestartMode, EngineConfiguration.setClaimsValidated,
      EngineConfiguration.setSupportedVariants, EngineConfiguration.setRating,
      EngineConfiguration.default, ite_self]
  · simp only [EngineConfiguration.fromVariant, ho, apply_ite EngineConfiguration.m_protocol,
      EngineConfiguration.setName, EngineConfiguration.setCommand,
      EngineConfiguration.setWorkingDirectory, EngineConfiguration.setStderrFile,
      EngineConfiguration.setProtocol, EngineConfiguration.setInitStrings,
      EngineConfiguration.setWhiteEvalPov, EngineConfiguration.setPondering,
      EngineConfiguration.setRestartMode, EngineConfiguration.setClaimsValidated,
      EngineConfiguration.setSupportedVariants, EngineConfiguration.setRating,
      EngineConfiguration.default, ite_self]
  · simp only [EngineConfiguration.fromVariant, ho, apply_ite EngineConfiguration.m_arguments,
      EngineConfiguration.setName, EngineConfiguration.setCommand,
      EngineConfiguration.setWorkingDirectory, EngineConfiguration.setStderrFile,
      EngineConfiguration.setProtocol, EngineConfiguration.setInitStrings,
      EngineConfiguration.setWhiteEvalPov, EngineConfiguration.setPondering,
      EngineConfiguration.setRestartMode, EngineConfiguration.setClaimsValidated,
      EngineConfiguration.setSupportedVariants, EngineConfiguration.setRating,
      EngineConfiguration.default, ite_self]
  · simp only [EngineConfiguration.fromVariant, ho, apply_ite EngineConfiguration.m_options,
      EngineConfiguration.setName, EngineConfiguration.setCommand,
      EngineConfiguration.setWorkingDirectory, EngineConfiguration.setStderrFile,
      EngineConfiguration.setProtocol, EngineConfiguration.setInitStrings,
      EngineConfiguration.setWhiteEvalPov, EngineConfiguration.setPondering,
      EngineConfiguration.setRestartMode, EngineConfiguration.setClaimsValidated,
      EngineConfiguration.setSupportedVariants, EngineConfiguration.setRating,
      EngineConfiguration.default, ite_self]
  · simp only [EngineConfiguration.fromVariant, ho, apply_ite EngineConfiguration.m_initStrings,
      EngineConfiguration.setName, EngineConfiguration.setCommand,
      EngineConfiguration.setWorkingDirectory, EngineConfiguration.setStderrFile,
      EngineConfiguration.setProtocol, EngineConfiguration.setInitStrings,
      EngineConfiguration.setWhiteEvalPov, EngineConfiguration.setPondering,
      EngineConfiguration.setRestartMode, EngineConfiguration.setClaimsValidated,
      EngineConfiguration.setSupportedVariants, EngineConfiguration.setRating,
      EngineConfiguration.default, ite_self]
  · simp only [EngineConfiguration.fromVariant, ho, apply_ite EngineConfiguration.m_whiteEvalPov,
      EngineConfiguration.setName, EngineConfiguration.setCommand,
      EngineConfiguration.setWorkingDirectory, EngineConfiguration.setStderrFile,
      EngineConfiguration.setProtocol, EngineConfiguration.setInitStrings,
      EngineConfiguration.setWhiteEvalPov, EngineConfiguration.setPondering,
      EngineConfiguration.setRestartMode, EngineConfiguration.setClaimsValidated,
      EngineConfiguration.setSupportedVariants, EngineConfiguration.setRating,
      EngineConfiguration.default, ite_self]
  · simp only [EngineConfiguration.fromVariant, ho, apply_ite EngineConfiguration.m_pondering,
      EngineConfiguration.setName, EngineConfiguration.setCommand,
      EngineConfiguration.setWorkingDirectory, EngineConfiguration.setStderrFile,
      EngineConfiguration.setProtocol, EngineConfiguration.setInitStrings,
      EngineConfiguration.setWhiteEvalPov, EngineConfiguration.setPondering,
      EngineConfiguration.setRestartMode, EngineConfiguration.setClaimsValidated,
      EngineConfiguration.setSupportedVariants, EngineConfiguration.setRating,
      EngineConfiguration.default, ite_self]
  · simp only [EngineConfiguration.fromVariant, ho, apply_ite EngineConfiguration.m_validateClaims,
      EngineConfiguration.setName, EngineConfiguration.setCommand,
      EngineConfiguration.setWorkingDirectory, EngineConfiguration.setStderrFile,
      EngineConfiguration.setProtocol, EngineConfiguration.setInitStrings,
      EngineConfiguration.setWhiteEvalPov, EngineConfiguration.setPondering,
      EngineConfiguration.setRestartMode, EngineConfiguration.setClaimsValidated,
      EngineConfiguration.setSupportedVariants, EngineConfiguration.setRating,
      EngineConfiguration.default, ite_self]
  · simp only [EngineConfiguration.fromVariant, ho, apply_ite EngineConfiguration.m_variants,
      EngineConfiguration.setName, EngineConfiguration.setCommand,
      EngineConfiguration.setWorkingDirectory, EngineConfiguration.setStderrFile,
      EngineConfiguration.setProtocol, EngineConfiguration.setInitStrings,
      EngineConfiguration.setWhiteEvalPov, EngineConfiguration.setPondering,
      EngineConfiguration.setRestartMode, EngineConfiguration.setClaimsValidated,
      EngineConfiguration.setSupportedVariants, EngineConfiguration.setRating,
      EngineConfiguration.default, ite_self]
  · simp only [EngineConfiguration.fromVariant, ho, apply_ite EngineConfiguration.m_restartMode,
      EngineConfiguration.setName, EngineConfiguration.setCommand,
      EngineConfiguration.setWorkingDirectory, EngineConfiguration.setStderrFile,
      EngineConfiguration.setProtocol, EngineConfiguration.setInitStrings,
      EngineConfiguration.setWhiteEvalPov, EngineConfiguration.setPondering,
      EngineConfiguration.setRestartMode, EngineConfiguration.setClaimsValidated,
      EngineConfiguration.setSupportedVariants, EngineConfiguration.setRating,
      EngineConfiguration.default, ite_self]
  · simp only [EngineConfiguration.fromVariant, ho, apply_ite EngineConfiguration.m_rating,
      EngineConfiguration.setName, EngineConfiguration.setCommand,
      EngineConfiguration.setWorkingDirectory, EngineConfiguration.setStderrFile,
      EngineConfiguration.setProtocol, EngineConfiguration.setInitStrings,
      EngineConfiguration.setWhiteEvalPov, EngineConfiguration.setPondering,
      EngineConfiguration.setRestartMode, EngineConfiguration.setClaimsValidated,
      EngineConfiguration.setSupportedVariants, EngineConfiguration.setRating,
      EngineConfiguration.default, ite_self]

theorem toVariant_options (codec : OptionCodec) (c : EngineConfiguration)
    (h : c.m_options = []) : (c.toVariant codec).options = none := by
  unfold EngineConfiguration.toVariant
  rw [h]
  rfl

theorem round_trip_fields (codec : OptionCodec) (c : EngineConfiguration)
    (hopt : c.m_options = []) :
    (EngineConfiguration.fromVariant codec (c.toVariant codec)).m_name = c.m_name
      ∧ (EngineConfiguration.fromVariant codec (c.toVariant codec)).m_command = c.m_command
      ∧ (EngineConfiguration.fromVariant codec (c.toVariant codec)).m_workingDirectory =
          c.m_workingDirectory
      ∧ (EngineConfiguration.fromVariant codec (c.toVariant codec)).m_stderrFile =
          c.m_stderrFile
      ∧ (EngineConfiguration.fromVariant codec (c.toVariant codec)).m_protocol =
          c.m_protocol
      ∧ (EngineConfiguration.fromVariant codec (c.toVariant codec)).m_arguments = []
      ∧ (EngineConfiguration.fromVariant codec (c.toVariant codec)).m_options = []
      ∧ (EngineConfiguration.fromVariant codec (c.toVariant codec)).m_initStrings =
          c.m_initStrings
      ∧ (EngineConfiguration.fromVariant codec (c.toVariant codec)).m_whiteEvalPov =
          c.m_whiteEvalPov
      ∧ (EngineConfiguration.fromVariant codec (c.toVariant codec)).m_pondering =
          c.m_pondering
      ∧ (EngineConfiguration.fromVariant codec (c.toVariant codec)).m_validateClaims =
          c.m_validateClaims
      ∧ (EngineConfiguration.fromVariant codec (c.toVariant codec)).m_variants =
          (if c.m_variants.count "standard" = c.m_variants.length then ["standard"]
            else c.m_variants)
      ∧ (EngineConfiguration.fromVariant codec (c.toVariant codec)).m_restartMode =
          c.m_restartMode
      ∧ (EngineConfiguration.fromVariant codec (c.toVariant codec)).m_rating =
          (if c.m_rating > 0 then c.m_rating else 0) := by
  obtain ⟨f1, f2, f3, f4, f5, f6, f7, f8, f9, f10, f11, f12, f13, f14⟩ :=
    fromVariant_fields codec (c.toVariant codec) (toVariant_options codec c hopt)
  obtain ⟨e1, e2, e3, e4, e5, e6, e7, e8, e9, e10, e11, e12⟩ := toVariant_entries codec c
  refine ⟨?_, ?_, ?_, ?_, ?_, f6, f7, ?_, ?_, ?_, ?_, ?_, ?_, ?_⟩
  · rw [f1, QMap.value, e1]; rfl
  · rw [f2, QMap.value, e2]; rfl
  · rw [f3, QMap.value, e3]; rfl
  · rw [f4, QMap.value, e4]; rfl
  · rw [f5, QMap.value, e5]; rfl
  · rw [f8, QMap.contains_eq_isSome, QMap.value, e6]
    cases h : c.m_initStrings with
    | nil => simp
    | cons x l => simp [QVar.toStringList]
  · rw [f9, QMap.contains_eq_isSome, QMap.value, e7]
    cases c.m_whiteEvalPov <;> simp [QVar.toBool]
  · rw [f10, QMap.contains_eq_isSome, QMap.value, e8]
    cases c.m_pondering <;> simp [QVar.toBool]
  · rw [f11, QMap.contains_eq_isSome, QMap.value, e10]
    cases c.m_validateClaims <;> simp [QVar.toBool]
  · rw [f12, QMap.contains_eq_isSome, QMap.value, e11]
    by_cases h : c.m_variants.count "standard" = c.m_variants.length <;>
      simp [h, QVar.toStringList]
  · rw [f13, QMap.contains_eq_isSome, QMap.value, e9]
    cases c.m_restartMode <;> simp [QVar.toQString]
  · rw [f14, QMap.contains_eq_isSome, QMap.value, e12]
    by_cases h : c.m_rating = 0
    · simp [h]
    · simp [h, QVar.toInt]

theorem equivalent_standard (l : List String)
    (h : l.count "standard" = l.length) :
    equivalent ["standard"] l = true ↔ l ≠ [] := by
  rw [equivalent_iff]
  have hall : ∀ x ∈ l, x = "standard" := by
    intro x hx
    exact (List.count_eq_length.1 h x hx).symm
  constructor
  · intro hs hl
    have := (hs "standard").1 (by simp)
    rw [hl] at this
    simp at this
  · intro hne s
    constructor
    · intro hs
      simp only [List.mem_singleton] at hs
      subst hs
      obtain ⟨x, hx⟩ := List.exists_mem_of_ne_nil l hne
      rw [← hall x hx]
      exact hx
    · intro hs
      simp [hall s hs]

/-- C24 fails for the arguments: `toVariant` writes no entry for them and the constructor
reads none.  The configuration `cfgArgs` has no options and the argument `-x`; its variant
has the five text entries only, the configuration constructed from it has no arguments,
and `operator==` with `cfgArgs` is false. -/
theorem arguments_not_serialised :
    cfgArgs.m_options.length = 0
      ∧ cfgArgs.m_arguments = ["-x"]
      ∧ (cfgArgs.toVariant sampleCodec).entries.map Prod.fst =
          ["command", "name", "protocol", "stderrFile", "workingDirectory"]
      ∧ (EngineConfiguration.fromVariant sampleCodec
          (cfgArgs.toVariant sampleCodec)).m_arguments = []
      ∧ (EngineConfiguration.fromVariant sampleCodec
          (cfgArgs.toVariant sampleCodec)).eq cfgArgs = false := by
  refine ⟨by decide, by decide, by decide, by decide, by decide⟩

/-- C24, amended: for every configuration `c` without options, the configuration
constructed from `c.toVariant()` is equal to `c` (`operator==`) exactly when `c` has no
arguments, has at least one supported variant and its rating is not negative.  Name,
command, working directory, stderr file, protocol, init strings, whiteEvalPov, pondering,
validateClaims and restart mode always come back as they were; a rating that is not
negative comes back as it was; the supported variants come back as they were, or as the
single `standard` when every entry is `standard`; the arguments come back empty. -/
theorem variant_round_trip (codec : OptionCodec) (c : EngineConfiguration)
    (hopt : c.m_options = []) :
    ((EngineConfiguration.fromVariant codec (c.toVariant codec)).eq c = true ↔
        c.m_arguments = [] ∧ c.m_variants ≠ [] ∧ 0 ≤ c.m_rating)
      ∧ (EngineConfiguration.fromVariant codec (c.toVariant codec)).m_name = c.m_name
      ∧ (EngineConfiguration.fromVariant codec (c.toVariant codec)).m_command = c.m_command
      ∧ (EngineConfiguration.fromVariant codec (c.toVariant codec)).m_workingDirectory =
          c.m_workingDirectory
      ∧ (EngineConfiguration.fromVariant codec (c.toVariant codec)).m_stderrFile =
          c.m_stderrFile
      ∧ (EngineConfiguration.fromVariant codec (c.toVariant codec)).m_protocol =
          c.m_protocol
      ∧ (EngineConfiguration.fromVariant codec (c.toVariant codec)).m_initStrings =
          c.m_initStrings
      ∧ (EngineConfiguration.fromVariant codec (c.toVariant codec)).m_whiteEvalPov =
          c.m_whiteEvalPov
      ∧ (EngineConfiguration.fromVariant codec (c.toVariant codec)).m_pondering =
          c.m_pondering
      ∧ (EngineConfiguration.fromVariant codec (c.toVariant codec)).m_validateClaims =
          c.m_validateClaims
      ∧ (EngineConfiguration.fromVariant codec (c.toVariant codec)).m_restartMode =
          c.m_restartMode
      ∧ (0 ≤ c.m_rating →
          (EngineConfiguration.fromVariant codec (c.toVariant codec)).m_rating = c.m_rating)
      ∧ (EngineConfiguration.fromVariant codec (c.toVariant codec)).m_variants =
          (if c.m_variants.count "standard" = c.m_variants.length then ["standard"]
            else c.m_variants)
      ∧ (EngineConfiguration.fromVariant codec (c.toVariant codec)).m_arguments = [] := by
  obtain ⟨r1, r2, r3, r4, r5, r6, r7, r8, r9, r10, r11, r12, r13, r14⟩ :=
    round_trip_fields codec c hopt
  have hrate : (if c.m_rating > 0 then c.m_rating else 0) = c.m_rating ↔ 0 ≤ c.m_rating := by
    split_ifs <;> omega
  have hvar : equivalent (if c.m_variants.count "standard" = c.m_variants.length then
      ["standard"] else c.m_variants) c.m_variants = true ↔ c.m_variants ≠ [] := by
    split_ifs with h
    · exact equivalent_standard c.m_variants h
    · have hne : c.m_variants ≠ [] := by
        intro e
        rw [e] at h
        simp at h
      simp only [hne, ne_eq, not_false_eq_true, iff_true]
      rw [equivalent_iff]
      intro s
      rfl
  refine ⟨?_, r1, r2, r3, r4, r5, r8, r9, r10, r11, r13, fun h => ?_, r12, r6⟩
  · rw [eq_true_iff_loop, r1, r2, r3, r4, r5, r6, r7, r8, r9, r10, r11, r12, r13, r14, hopt,
      hvar]
    constructor
    · rintro ⟨⟨_, _, _, _, hr, _, _, _, _, _, ha, _⟩, hv, _⟩
      exact ⟨ha.symm, hv, hrate.1 hr⟩
    · rintro ⟨ha, hv, hr⟩
      exact ⟨⟨rfl, rfl, rfl, rfl, hrate.2 hr, rfl, rfl, rfl, rfl, rfl, ha.symm, rfl⟩, hv,
        [], rfl, rfl⟩
  · rw [r14]
    exact hrate.2 h

/-- C24, an instance: `cfgPlain` (no options, no arguments, the variant `standard`, rating
2800) is equal to the configuration constructed from its variant. -/
theorem variant_round_trip_witness :
    cfgPlain.m_options = []
      ∧ (EngineConfiguration.fromVariant sampleCodec (cfgPlain.toVariant sampleCodec)).eq
          cfgPlain = true :=
  ⟨rfl, (variant_round_trip sampleCodec cfgPlain rfl).1.2 ⟨rfl, by decide, by decide⟩⟩

/-! ### `-livepgnout` -/

theorem keyword_length (rest : List String) :
    rest.length = rest.count "min" + rest.count "nopgn" + rest.count "nojson"
      + (rest.filter (fun x => !(x = "min" ∨ x = "nopgn" ∨ x = "nojson"))).length := by
  induction rest with
  | nil => rfl
  | cons x l ih =>
    by_cases h1 : x = "min"
    · subst h1
      simp [List.count_cons, ih]
      omega
    · by_cases h2 : x = "nopgn"
      · subst h2
        simp [List.count_cons, ih]
        omega
      · by_cases h3 : x = "nojson"
        · subst h3
          simp [List.count_cons, ih]
          omega
        · simp [List.count_cons, h1, h2, h3, ih]
          omega

theorem keyword_count (rest : List String) :
    rest.length = (if rest.contains "min" then 1 else 0)
        + (if rest.contains "nopgn" then 1 else 0)
        + (if rest.contains "nojson" then 1 else 0) ↔
      rest.Nodup ∧ ∀ x ∈ rest, x = "min" ∨ x = "nopgn" ∨ x = "nojson" := by
  have hlen := keyword_length rest
  have hc : ∀ k : String, (if rest.contains k then 1 else 0) ≤ rest.count k
      ∧ ((if rest.contains k then 1 else 0) = rest.count k ↔ rest.count k ≤ 1) := by
    intro k
    by_cases hk : k ∈ rest
    · have hpos : 0 < rest.count k := List.count_pos_iff.2 hk
      have : rest.contains k = true := by simpa using hk
      simp only [this, if_true]
      omega
    · have h0 : rest.count k = 0 := List.count_eq_zero.2 hk
      have : rest.contains k = false := by simpa using hk
      simp [this, h0, hk]
  have hd : (rest.filter (fun x => !(x = "min" ∨ x = "nopgn" ∨ x = "nojson"))).length = 0 ↔
      ∀ x ∈ rest, x = "min" ∨ x = "nopgn" ∨ x = "nojson" := by
    rw [List.length_eq_zero, List.filter_eq_nil_iff]
    simp only [Bool.not_eq_true', decide_eq_false_iff_not, not_not, Bool.not_eq_true,
      Bool.not_eq_false', decide_eq_true_eq]
  obtain ⟨a1, a2⟩ := hc "min"
  obtain ⟨b1, b2⟩ := hc "nopgn"
  obtain ⟨c1, c2⟩ := hc "nojson"
  constructor
  · intro h
    have hz : (rest.filter (fun x => !(x = "min" ∨ x = "nopgn" ∨ x = "nojson"))).length = 0 := by
      omega
    have hall := hd.1 hz
    refine ⟨?_, hall⟩
    rw [List.nodup_iff_count_le_one]
    intro x
    by_cases hx : x ∈ rest
    · rcases hall x hx with rfl | rfl | rfl <;> omega
    · rw [List.count_eq_zero.2 hx]
      omega
  · rintro ⟨hnd, hall⟩
    have hz := hd.2 hall
    rw [List.nodup_iff_count_le_one] at hnd
    have := hnd "min"
    have := hnd "nopgn"
    have := hnd "nojson"
    omega

theorem applyOption_livepgnout (env : Env) (s : ParseState) (list : List String)
    (p : QMap String) :
    applyOption env { name := "-livepgnout", value := .stringList list, params := p } s =
      if list.length = 1 + (if list.contains "min" then 1 else 0)
          + (if list.contains "nopgn" then 1 else 0)
          + (if list.contains "nojson" then 1 else 0) then
        some { s with
          wantsPgnFormat := if list.contains "nopgn" then false else s.wantsPgnFormat
          wantsJsonFormat := if list.contains "nojson" then false else s.wantsJsonFormat
          tournament := { s.tournament with
            livePgnOutput := list.headD ""
            livePgnOutMode := if list.contains "min" then PgnMode.Minimal else PgnMode.Verbose
            livePgnFormat := if list.contains "nopgn" then false else s.wantsPgnFormat
            liveJsonFormat := if list.contains "nojson" then false else s.wantsJsonFormat }
          tMap := QMap.insert "jsonFormat"
              (.bool (if list.contains "nojson" then false else s.wantsJsonFormat))
            (QMap.insert "pgnFormat"
              (.bool (if list.contains "nopgn" then false else s.wantsPgnFormat))
              (QMap.insert "livePgnOutMode"
                (.int (if list.contains "min" then PgnMode.Minimal else PgnMode.Verbose))
                (QMap.insert "livePgnOutput" (.string (list.headD "")) s.tMap))) }
      else none := by
  unfold applyOption
  simp only [String.reduceEq, if_false, if_true, QVar.toStringList]
  split_ifs <;> simp_all

/-- C21: in the command-line loop, with both output formats still wanted (as they are
when the loop starts), a `-livepgnout` list `path :: rest` whose path is none of `min`,
`nopgn`, `nojson` is accepted if and only if the elements of `rest` are pairwise distinct
members of {`min`, `nopgn`, `nojson`}.  When it is accepted, the live output path is
`path`, the mode is `Minimal` iff `min` is in `rest` (and `Verbose` otherwise), PGN output
is wanted iff `nopgn` is not in `rest`, JSON output iff `nojson` is not, and these are the
formats given to the tournament. -/
theorem livepgnout_accepted (env : Env) (s : ParseState) (path : String)
    (rest : List String) (p : QMap String)
    (hpath : path ≠ "min" ∧ path ≠ "nopgn" ∧ path ≠ "nojson")
    (hpgn : s.wantsPgnFormat = true) (hjson : s.wantsJsonFormat = true) :
    ((applyOption env
          { name := "-livepgnout", value := .stringList (path :: rest), params := p }
          s).isSome = true ↔
        rest.Nodup ∧ ∀ x ∈ rest, x = "min" ∨ x = "nopgn" ∨ x = "nojson")
      ∧ ∀ s', applyOption env
          { name := "-livepgnout", value := .stringList (path :: rest), params := p } s =
            some s' →
        s'.tournament.livePgnOutput = path
          ∧ (s'.tournament.livePgnOutMode = PgnMode.Minimal ↔ "min" ∈ rest)
          ∧ (s'.tournament.livePgnOutMode = PgnMode.Verbose ↔ "min" ∉ rest)
          ∧ (s'.wantsPgnFormat = true ↔ "nopgn" ∉ rest)
          ∧ (s'.wantsJsonFormat = true ↔ "nojson" ∉ rest)
          ∧ s'.tournament.livePgnFormat = s'.wantsPgnFormat
          ∧ s'.tournament.liveJsonFormat = s'.wantsJsonFormat := by
  obtain ⟨p1, p2, p3⟩ := hpath
  have c1 : (path :: rest).contains "min" = rest.contains "min" := by
    simp [Ne.symm p1]
  have c2 : (path :: rest).contains "nopgn" = rest.contains "nopgn" := by
    simp [Ne.symm p2]
  have c3 : (path :: rest).contains "nojson" = rest.contains "nojson" := by
    simp [Ne.symm p3]
  have hk := keyword_count rest
  have hlen : (path :: rest).length = 1 + (if rest.contains "min" then 1 else 0)
        + (if rest.contains "nopgn" then 1 else 0)
        + (if rest.contains "nojson" then 1 else 0) ↔
      rest.length = (if rest.contains "min" then 1 else 0)
        + (if rest.contains "nopgn" then 1 else 0)
        + (if rest.contains "nojson" then 1 else 0) := by
    simp only [List.length_cons]
    omega
  rw [applyOption_livepgnout, c1, c2, c3]
  by_cases h : (path :: rest).length = 1 + (if rest.contains "min" then 1 else 0)
        + (if rest.contains "nopgn" then 1 else 0)
        + (if rest.contains "nojson" then 1 else 0)
  swap
  · rw [if_neg h]
    refine ⟨?_, fun s' hs => absurd hs (by simp)⟩
    simp only [Option.isSome_none, Bool.false_eq_true, false_iff]
    intro hnd
    exact h (hlen.2 (hk.2 hnd))
  rw [if_pos h]
  constructor
  · simp only [Option.isSome_some, true_iff]
    exact hk.1 (hlen.1 h)
  · intro s' hs
    simp only [Option.some.injEq] at hs
    subst hs
    refine ⟨rfl, ?_, ?_, ?_, ?_, rfl, rfl⟩
    · by_cases hm : "min" ∈ rest
      · have : rest.contains "min" = true := by simpa using hm
        simp [this, hm]
      · have : rest.contains "min" = false := by simpa using hm
        simp [this, hm, PgnMode.Minimal, PgnMode.Verbose]
    · by_cases hm : "min" ∈ rest
      · have : rest.contains "min" = true := by simpa using hm
        simp [this, hm, PgnMode.Minimal, PgnMode.Verbose]
      · have : rest.contains "min" = false := by simpa using hm
        simp [this, hm]
    · by_cases hm : "nopgn" ∈ rest
      · have : rest.contains "nopgn" = true := by simpa using hm
        simp [this, hm]
      · have : rest.contains "nopgn" = false := by simpa using hm
        simp [this, hm, hpgn]
    · by_cases hm : "nojson" ∈ rest
      · have : rest.contains "nojson" = true := by simpa using hm
        simp [this, hm]
      · have : rest.contains "nojson" = false := by simpa using hm
        simp [this, hm, hjson]

/-- C21, an instance: `-livepgnout live.pgn min nojson` at the start of the loop is
accepted. -/
theorem livepgnout_accepted_witness :
    (("live.pgn" : String) ≠ "min" ∧ ("live.pgn" : String) ≠ "nopgn"
        ∧ ("live.pgn" : String) ≠ "nojson")
      ∧ (initialState (sampleMatchEnv .missing) .roundRobin TournamentFileMap.empty
          []).wantsPgnFormat = true
      ∧ (initialState (sampleMatchEnv .missing) .roundRobin TournamentFileMap.empty
          []).wantsJsonFormat = true
      ∧ (applyOption sampleEnv
          { name := "-livepgnout", value := .stringList ["live.pgn", "min", "nojson"],
            params := [] }
          (initialState (sampleMatchEnv .missing) .roundRobin TournamentFileMap.empty
            [])).isSome = true :=
  ⟨by decide, rfl, rfl,
   (livepgnout_accepted sampleEnv
      (initialState (sampleMatchEnv .missing) .roundRobin TournamentFileMap.empty [])
      "live.pgn" ["min", "nojson"] [] (by decide) rfl rfl).1.2 ⟨by decide, by decide⟩⟩

/-! ### Reflexivity and symmetry of `operator==` -/

theorem eq_self_of_nodup (c : EngineConfiguration)
    (hnd : (c.m_options.map (fun o => o.name)).Nodup) : c.eq c = true := by
  rw [eq_true_iff_loop, equivalent_iff, optionsLoop_empty_iff c c hnd]
  exact ⟨⟨rfl, rfl, rfl, rfl, rfl, rfl, rfl, rfl, rfl, rfl, rfl, rfl⟩, fun _ => Iff.rfl,
    fun _ => Iff.rfl⟩

theorem eq_comm_of_nodup (a b : EngineConfiguration)
    (ha : (a.m_options.map (fun o => o.name)).Nodup)
    (hb : (b.m_options.map (fun o => o.name)).Nodup) : a.eq b = b.eq a := by
  rw [Bool.eq_iff_iff, eq_true_iff_loop, eq_true_iff_loop, equivalent_iff, equivalent_iff,
    optionsLoop_empty_iff a b ha, optionsLoop_empty_iff b a hb]
  constructor
  · rintro ⟨⟨h1, h2, h3, h4, h5, h6, h7, h8, h9, h10, h11, h12⟩, hv, ho⟩
    exact ⟨⟨h1.symm, h2.symm, h3.symm, h4.symm, h5.symm, h6.symm, h7.symm, h8.symm, h9.symm,
      h10.symm, h11.symm, h12.symm⟩, fun s => (hv s).symm, fun p => (ho p).symm⟩
  · rintro ⟨⟨h1, h2, h3, h4, h5, h6, h7, h8, h9, h10, h11, h12⟩, hv, ho⟩
    exact ⟨⟨h1.symm, h2.symm, h3.symm, h4.symm, h5.symm, h6.symm, h7.symm, h8.symm, h9.symm,
      h10.symm, h11.symm, h12.symm⟩, fun s => (hv s).symm, fun p => (ho p).symm⟩

/-- C22 fails on the code: the configuration `cfgTwoX`, whose option list holds two options
called `x` with the values 1 and 2 (as two calls of `addOption` leave it), is not equal to
itself under `operator==`.  A configuration whose option names are pairwise distinct is
equal to itself. -/
theorem eq_not_reflexive :
    cfgTwoX.m_options.map (fun o => (o.name, o.value)) =
        [("x", .string "1"), ("x", .string "2")]
      ∧ cfgTwoX.eq cfgTwoX = false
      ∧ (((EngineConfiguration.default.addOption
            (EngineTextOption "x" (.string "1") (.string "1"))).addOption
            (EngineTextOption "x" (.string "2") (.string "2"))).m_options.map
              (fun o => (o.name, o.value)) =
          cfgTwoX.m_options.map (fun o => (o.name, o.value)))
      ∧ ∀ c : EngineConfiguration, (c.m_options.map (fun o => o.name)).Nodup →
          c.eq c = true := by
  refine ⟨by decide, by decide, by decide, eq_self_of_nodup⟩

/-- C23 fails on the code: with `cfgTwoX` (options `x`=1, `x`=2) and `cfgOneX` (option
`x`=1), `cfgTwoX == cfgOneX` is true and `cfgOneX == cfgTwoX` is false.  The two results
agree when the option names of each configuration are pairwise distinct, and
`a != b` is always the negation of `a == b`. -/
theorem eq_not_symmetric :
    cfgTwoX.eq cfgOneX = true
      ∧ cfgOneX.eq cfgTwoX = false
      ∧ (∀ a b : EngineConfiguration, a.ne b = !a.eq b)
      ∧ ∀ a b : EngineConfiguration, (a.m_options.map (fun o => o.name)).Nodup →
          (b.m_options.map (fun o => o.name)).Nodup → a.eq b = b.eq a := by
  refine ⟨by decide, by decide, fun _ _ => rfl, eq_comm_of_nodup⟩

/-! ### `setOption` -/

theorem setOptionLoop_none (name : String) (value : QVariant) (l : List EngineOption) :
    EngineConfiguration.setOptionLoop name value l = none ↔ ∀ o ∈ l, o.name ≠ name := by
  induction l with
  | nil => simp [EngineConfiguration.setOptionLoop]
  | cons o rest ih =>
    unfold EngineConfiguration.setOptionLoop
    by_cases h : o.name = name
    · rw [if_pos h]
      constructor
      · intro hn
        split_ifs at hn
      · intro hall
        exact absurd h (hall o (List.mem_cons_self _ _))
    · rw [if_neg h, Option.map_eq_none', ih]
      simp [h]

theorem setOptionLoop_some (name : String) (value : QVariant) (l r : List EngineOption)
    (h : EngineConfiguration.setOptionLoop name value l = some r) :
    ∃ pre o post, l = pre ++ o :: post ∧ (∀ x ∈ pre, x.name ≠ name) ∧ o.name = name
      ∧ r = pre ++ (if o.isValid value = true then o.setValue value else o) :: post := by
  induction l generalizing r with
  | nil => simp [EngineConfiguration.setOptionLoop] at h
  | cons o rest ih =>
    unfold EngineConfiguration.setOptionLoop at h
    by_cases hn : o.name = name
    · rw [if_pos hn] at h
      refine ⟨[], o, rest, rfl, by simp, hn, ?_⟩
      by_cases hv : o.isValid value = true
      · simp only [hv, Bool.not_true, Bool.false_eq_true, if_false, Option.some.injEq] at h
        simp [hv, h]
      · simp only [hv, Bool.not_eq_true, Bool.not_false, if_true, Option.some.injEq] at h
        simp [hv, h]
    · rw [if_neg hn] at h
      cases hr : EngineConfiguration.setOptionLoop name value rest with
      | none => rw [hr] at h; simp at h
      | some r' =>
        rw [hr] at h
        simp only [Option.map_some', Option.some.injEq] at h
        obtain ⟨pre, o', post, e1, e2, e3, e4⟩ := ih r' hr
        refine ⟨o :: pre, o', post, by rw [e1]; rfl, ?_, e3, by rw [← h, e4]; rfl⟩
        intro x hx
        rcases List.mem_cons.1 hx with rfl | hx
        · exact hn
        · exact e2 x hx

/-- C25: for a configuration whose option names are pairwise distinct, after
`setOption(name, value)` the option names are still pairwise distinct.  When no option had
the name, the option list is the old list followed by the text option
`EngineTextOption(name, value, value)`.  When an option `o` had it, the list has the same
length and differs at the place of `o` only, where `o` has taken `value` when `o` accepts
it as valid and is unchanged otherwise. -/
theorem setOption_names_unique (c : EngineConfiguration) (name : String) (value : QVariant)
    (hnd : (c.m_options.map (fun o => o.name)).Nodup) :
    ((c.setOption name value).m_options.map (fun o => o.name)).Nodup
      ∧ ((∀ o ∈ c.m_options, o.name ≠ name) →
          (c.setOption name value).m_options =
            c.m_options ++ [EngineTextOption name value value])
      ∧ (∀ o ∈ c.m_options, o.name = name →
          (c.setOption name value).m_options.length = c.m_options.length
            ∧ ∃ pre post, c.m_options = pre ++ o :: post
              ∧ (c.setOption name value).m_options =
                  pre ++ (if o.isValid value = true then o.setValue value else o) :: post)
      ∧ (∀ o : EngineOption, (o.setValue value).value = value
          ∧ (o.setValue value).name = o.name) := by
  have hnew : (∀ o ∈ c.m_options, o.name ≠ name) →
      (c.setOption name value).m_options =
        c.m_options ++ [EngineTextOption name value value] := by
    intro hall
    unfold EngineConfiguration.setOption
    rw [(setOptionLoop_none name value c.m_options).2 hall]
  have hold : ∀ o ∈ c.m_options, o.name = name →
      ∃ pre post, c.m_options = pre ++ o :: post
        ∧ (c.setOption name value).m_options =
            pre ++ (if o.isValid value = true then o.setValue value else o) :: post := by
    intro o ho hn
    cases hr : EngineConfiguration.setOptionLoop name value c.m_options with
    | none =>
      exact absurd hn ((setOptionLoop_none name value c.m_options).1 hr o ho)
    | some r =>
      obtain ⟨pre, o', post, e1, _, e3, e4⟩ := setOptionLoop_some name value _ r hr
      have ho' : o' ∈ c.m_options := by rw [e1]; simp
      have hoo : o = o' :=
        List.inj_on_of_nodup_map hnd ho ho' (by rw [hn, e3])
      subst hoo
      refine ⟨pre, post, e1, ?_⟩
      unfold EngineConfiguration.setOption
      rw [hr, e4]
  refine ⟨?_, hnew, ?_, fun o => ⟨rfl, rfl⟩⟩
  · by_cases hex : ∃ o ∈ c.m_options, o.name = name
    · obtain ⟨o, ho, hn⟩ := hex
      obtain ⟨pre, post, e1, e2⟩ := hold o ho hn
      have hnames : (c.setOption name value).m_options.map (fun o => o.name) =
          c.m_options.map (fun o => o.name) := by
        rw [e2, e1]
        simp only [List.map_append, List.map_cons]
        split_ifs <;> rfl
      rw [hnames]
      exact hnd
    · have hall : ∀ o ∈ c.m_options, o.name ≠ name := by
        intro o ho hn
        exact hex ⟨o, ho, hn⟩
      rw [hnew hall, List.map_append, List.nodup_append]
      refine ⟨hnd, by simp, ?_⟩
      intro a ha hb
      simp only [List.map_cons, List.map_nil, List.mem_singleton] at hb
      obtain ⟨o, ho, hoa⟩ := List.mem_map.1 ha
      exact hall o ho (by rw [hoa, hb]; rfl)
  · intro o ho hn
    obtain ⟨pre, post, e1, e2⟩ := hold o ho hn
    refine ⟨?_, pre, post, e1, e2⟩
    rw [e2, e1]
    simp

/-- C25, instances: on `cfgOneX` (one option `x` with value 1), `setOption("x", 5)` keeps
one option and gives it the value 5, and `setOption("y", 7)` appends a text option `y`. -/
theorem setOption_names_unique_witness :
    (cfgOneX.m_options.map (fun o => o.name)).Nodup
      ∧ ((cfgOneX.setOption "x" (.string "5")).m_options.map (fun o => o.name)).Nodup
      ∧ (cfgOneX.setOption "x" (.string "5")).m_options.map (fun o => (o.name, o.value)) =
          [("x", .string "5")]
      ∧ (cfgOneX.setOption "y" (.string "7")).m_options.map (fun o => (o.name, o.value)) =
          [("x", .string "1"), ("y", .string "7")] :=
  ⟨by decide, (setOption_names_unique cfgOneX "x" (.string "5") (by decide)).1, by decide,
   by decide⟩

end Cutechess
